import Mathlib

/-!
# Mod Organizer: mod registry and conflict classification

A shallow embedding of `src/modinfo.cpp`, `src/modinfo.h`, `src/modfeatures.cpp`,
`src/modfeatures.h`, `src/executableslist.cpp` and `src/executableslist.h`.

Conventions of the embedding

* `QString` / `std::wstring` are `String`; `ToWString` and `ToQString` are the identity.
* `std::map<K, V>` is an association list with the three operations the code uses
  (`find`, `operator[]` assignment, `erase`); `std::set<unsigned int>` is a strictly
  increasing list.
* `unsigned int` positions are natural numbers; `UINT_MAX` is the "not found" value.
* `QTime` is a time of day in whole seconds since midnight, a null `QTime` is `none`.
  `QTime::currentTime()` is `QTime.currentTime` of the seconds that have passed since a
  midnight: it starts again at 0 at every midnight.  Every function that reads
  `QTime::currentTime()` takes the value read as an explicit argument.
* The overlay file system (`MOShared::DirectoryEntry`, `FilesOrigin`, `FileEntry`) is not
  part of these sources; it enters as a record of the queries the code makes on it.
* The metadata file `meta.ini` is a `QSettings` object: a map from full keys to values
  with the stack of open array groups.  What the code asks of other libraries (version
  texts, dates, categories, hashes, the file system) enters through the record
  `Environment`; the outcome of physical renames, of `sync()` and of the manifest parse are
  arguments as well.
* Static members of `ModInfo` (`s_Collection`, `s_ModsByName`, `s_ModsByModID`,
  `s_NextID`) form the record `Registry`; member functions take the position of `this`
  in `s_Collection`.
* A network reply is a handle (a number); the signals of a reply are delivered as a list
  of events, and the use of a null or never assigned pointer is the fault
  `invalidPointer`.  A set of `Executable::Flags` is the number with their bits.
-/

namespace ModOrganizer

/-! ## Basic types -/

abbrev QString := String

/-- The value `UINT_MAX` of a 32 bit `unsigned int`. -/
def UINT_MAX : Nat := 4294967295

/-- A valid `QTime`: a time of day, as whole seconds since midnight. -/
abbrev QTime := Int

/-- The seconds of a day, after which the time of day starts again at 0. -/
def SECS_PER_DAY : Int := 86400

/-- Function `QTime::currentTime()` when `elapsed` whole seconds have passed since a
midnight: the time of day, which is below `SECS_PER_DAY` and does not tell the day. -/
def QTime.currentTime (elapsed : Int) : QTime := elapsed % SECS_PER_DAY

/-- Function `QTime::secsTo`: the seconds of the time of day `t` minus those of the time
of day `self`, negative when `t` is the earlier time of day.  It is the time that has
passed from `self` to `t` only when both were read on one day. -/
def secsTo (self t : QTime) : Int := t - self

/-! ## `std::map` and `std::set` -/

/-- Function `std::map::find`, returning the mapped value when the key is present. -/
def mapFind {κ α : Type} [DecidableEq κ] (k : κ) : List (κ × α) → Option α
  | [] => none
  | (k', v) :: rest => if k' = k then some v else mapFind k rest

/-- Assignment `m[k] = v` on a `std::map`. -/
def mapSet {κ α : Type} [DecidableEq κ] (k : κ) (v : α) : List (κ × α) → List (κ × α)
  | [] => [(k, v)]
  | (k', v') :: rest => if k' = k then (k', v) :: rest else (k', v') :: mapSet k v rest

/-- Function `std::map::erase` of the element with key `k`. -/
def mapErase {κ α : Type} [DecidableEq κ] (k : κ) : List (κ × α) → List (κ × α)
  | [] => []
  | (k', v') :: rest => if k' = k then mapErase k rest else (k', v') :: mapErase k rest

/-- Function `std::set<unsigned int>::insert`. -/
def setInsert (x : Nat) : List Nat → List Nat
  | [] => [x]
  | y :: ys => if x < y then x :: y :: ys else if x = y then y :: ys else y :: setInsert x ys

/-! ## Mod flags and features (`modfeatures.h`) -/

/-- The flags of `modflags.h` that these sources use. -/
inductive EModFlag
  | BACKUP | INVALID | NOTENDORSED | NOTES | FOREIGN | OVERWRITE
  | CONFLICT_OVERWRITE | CONFLICT_OVERWRITTEN | CONFLICT_MIXED | CONFLICT_REDUNDANT
  deriving DecidableEq, Repr

/-- The keys of `ModInfo::m_Features`: one per class `T` used in `typeid(T)`. -/
inductive FeatureKind
  | Note | Categorized | Versioned | Repository | NexusRepository | SteamRepository
  | Endorsable | DiskLocation | Installed | ForeignInstalled | OverwriteLocation
  | SteamInstalled | Conflicting | Positioning
  deriving DecidableEq, Repr

/-- Type `MOBase::VersionInfo` (library type): validity and rank in the version order. -/
structure VersionInfo where
  isValid : Bool := false
  rank : Nat := 0
  deriving DecidableEq, Repr

/-- Fields of `ModFeature::Note`. -/
structure Note where
  m_Note : QString := ""
  deriving DecidableEq, Repr

/-- Fields of `ModFeature::Categorized`. -/
structure Categorized where
  m_PrimaryCategory : Int
  m_Categories : List Int := []
  deriving DecidableEq, Repr

/-- Fields of `ModFeature::Versioned`. -/
structure Versioned where
  m_Version : VersionInfo := {}
  deriving DecidableEq, Repr

/-- Fields of `ModFeature::Repository`. -/
structure Repository where
  m_ModId : QString := ""
  m_LastQuery : Option Int := none
  m_Version : VersionInfo := {}
  m_IgnoredVersion : VersionInfo := {}
  m_Description : QString := ""
  deriving DecidableEq, Repr

/-- Fields of `ModFeature::SteamRepository` on top of its `Repository` base; a reply
handle is a number, `nullptr` is `none`. -/
structure SteamRepository where
  base : Repository := {}
  m_Title : QString := ""
  m_SteamKey : QString := ""
  m_UpdateReply : Option Nat := none
  m_ErrorReply : Option Nat := none
  deriving DecidableEq, Repr

/-- Enumeration `Endorsable::EEndorsedState`. -/
inductive EEndorsedState
  | ENDORSED_FALSE | ENDORSED_TRUE | ENDORSED_UNKNOWN | ENDORSED_NEVER
  deriving DecidableEq, Repr

/-- Fields of `ModFeature::Endorsable`. -/
structure Endorsable where
  m_EndorsedState : EEndorsedState := EEndorsedState.ENDORSED_UNKNOWN
  deriving DecidableEq, Repr

/-- Fields of `ModFeature::Installed`. -/
structure Installed where
  m_Path : QString
  m_InstallationFile : QString := ""
  m_InstalledFileIDs : List (Int × Int) := []
  deriving DecidableEq, Repr

/-- Fields of `ModFeature::ForeignInstalled`. -/
structure ForeignInstalled where
  m_ReferenceFile : QString
  m_Archives : List QString := []
  deriving DecidableEq, Repr

/-- Fields of `ModFeature::SteamInstalled`. -/
structure SteamInstalled where
  m_Path : QString
  deriving DecidableEq, Repr

/-- Enumeration `Conflicting::EConflictType`. -/
inductive EConflictType
  | CONFLICT_NONE | CONFLICT_OVERWRITE | CONFLICT_OVERWRITTEN | CONFLICT_MIXED
  | CONFLICT_REDUNDANT
  deriving DecidableEq, Repr

/-- Fields of `ModFeature::Conflicting`.  `m_DirectoryStructure` is passed to the member
functions instead of being stored.  `checks` is instrumentation, not a field of the class:
it counts the runs of `doConflictCheck` on this object. -/
structure Conflicting where
  m_CurrentConflictState : EConflictType
  m_LastConflictCheck : Option QTime := none
  m_OverwriteList : List Nat := []
  m_OverwrittenList : List Nat := []
  checks : Nat := 0
  deriving DecidableEq, Repr

/-- Enumeration `Positioning::ECheckable`. -/
inductive ECheckable
  | USER_CHECKABLE | FIXED_ACTIVE | FIXED_INACTIVE
  deriving DecidableEq, Repr

/-- Enumeration `Positioning::EPosition`. -/
inductive EPosition
  | USER_POSITIONABLE | FIXED_LOWEST | FIXED_HIGHEST
  deriving DecidableEq, Repr

/-- Fields of `ModFeature::Positioning`, with the defaults of its constructor. -/
structure Positioning where
  m_Checkable : ECheckable := ECheckable.USER_CHECKABLE
  m_Position : EPosition := EPosition.USER_POSITIONABLE
  deriving DecidableEq, Repr

/-- A feature object: one constructor per concrete class of `modfeatures.h`. -/
inductive Feature
  | note (f : Note)
  | categorized (f : Categorized)
  | versioned (f : Versioned)
  | nexusRepository (f : Repository)
  | steamRepository (f : SteamRepository)
  | endorsable (f : Endorsable)
  | installed (f : Installed)
  | foreignInstalled (f : ForeignInstalled)
  | overwriteLocation
  | steamInstalled (f : SteamInstalled)
  | conflicting (f : Conflicting)
  | positioning (f : Positioning)
  deriving DecidableEq, Repr

/-- Getter `Repository::modId()`. -/
def Repository.modId (r : Repository) : QString := r.m_ModId

/-- Getter `SteamRepository::modName()`. -/
def SteamRepository.modName (r : SteamRepository) : QString := r.m_Title

/-- The `Repository` base object of a feature object, when it is a repository link. -/
def Feature.asRepository : Feature → Option Repository
  | Feature.nexusRepository r => some r
  | Feature.steamRepository r => some r.base
  | _ => none

/-! ## `ModInfo` (`modinfo.h`) -/

/-- Enumeration `ModInfo::EContent`. -/
inductive EContent
  | CONTENT_PLUGIN | CONTENT_TEXTURE | CONTENT_MESH | CONTENT_BSA | CONTENT_INTERFACE
  | CONTENT_MUSIC | CONTENT_SOUND | CONTENT_SCRIPT | CONTENT_SKSE | CONTENT_SKYPROC
  | CONTENT_STRING
  deriving DecidableEq, Repr

/-- The non-static members of `ModInfo`.  `m_Features` maps a feature class to a
`shared_ptr`; the pointed-to objects live in `objects` and a pointer is a position in it,
so that two keys can share one object as they do in `addFeature`. -/
structure ModInfo where
  m_Name : QString
  m_Description : QString := ""
  m_Valid : Bool := false
  m_MetaInfoChanged : Bool := false
  objects : List Feature := []
  m_Features : List (FeatureKind × Nat) := []
  m_Flags : List EModFlag := []
  m_CachedContent : List EContent := []
  m_LastContentCheck : Option QTime := none
  deriving DecidableEq, Repr

/-- Function `ModInfo::feature<T>()`: the object registered under `typeid(T)`, `none` for
`nullptr`. -/
def ModInfo.feature (m : ModInfo) (k : FeatureKind) : Option Feature :=
  match mapFind k m.m_Features with
  | some p => m.objects[p]?
  | none => none

/-- Function `ModInfo::hasFeature<T>()`. -/
def ModInfo.hasFeature (m : ModInfo) (k : FeatureKind) : Bool :=
  (mapFind k m.m_Features).isSome

/-- Getter `ModInfo::internalName()`. -/
def ModInfo.internalName (m : ModInfo) : QString := m.m_Name

/-- Function `ModInfo::name()`: a workshop entry whose title is known shows the title. -/
def ModInfo.name (m : ModInfo) : QString :=
  match m.feature FeatureKind.SteamRepository with
  | some (Feature.steamRepository repo) =>
    let name := repo.modName
    if name ≠ "" then "Steam: " ++ repo.modName else m.internalName
  | _ => m.internalName

/-- The static members of `ModInfo`. -/
structure Registry where
  s_Collection : List ModInfo := []
  s_ModsByName : List (QString × Nat) := []
  s_ModsByModID : List (QString × List Nat) := []
  s_NextID : Int := 0
  deriving DecidableEq, Repr

/-- Function `ModInfo::getIndex(name)`. -/
def Registry.getIndex (reg : Registry) (name : QString) : Nat :=
  match mapFind name reg.s_ModsByName with
  | none => UINT_MAX
  | some index => index

/-! ## The overlay file system (`directoryentry.h`, not part of these sources) -/

/-- What the code reads of a `MOShared::FileEntry`. -/
structure FileEntry where
  getOrigin : Int
  getAlternatives : List Int
  deriving DecidableEq, Repr

/-- What the code reads of a `MOShared::FilesOrigin`. -/
structure FilesOrigin where
  getID : Int
  getName : QString
  getPriority : Int
  getFiles : List FileEntry
  deriving DecidableEq, Repr

/-- The queries the code makes on a `MOShared::DirectoryEntry`. -/
structure DirectoryEntry where
  originExists : QString → Bool
  getOriginByName : QString → FilesOrigin
  getOriginByID : Int → FilesOrigin

/-! ## `Conflicting` (`modfeatures.cpp`) -/

/-- Function `Conflicting::clearCaches`: `m_LastConflictCheck = QTime()`. -/
def Conflicting.clearCaches (self : Conflicting) : Conflicting :=
  { self with m_LastConflictCheck := none }

/-- The local `dataID` of `doConflictCheck`: the id of the origin "data", 0 without it. -/
def dataID (dir : DirectoryEntry) : Int :=
  if dir.originExists "data" then (dir.getOriginByName "data").getID else 0

/-- The test `(alternatives.size() == 0) || (alternatives[0] == dataID)` of
`doConflictCheck`. -/
def noConflict (alternatives : List Int) (dataID : Int) : Bool :=
  match alternatives with
  | [] => true
  | first :: _ => first == dataID

/-- The variables the loops of `doConflictCheck` write. -/
structure CheckState where
  m_OverwriteList : List Nat := []
  m_OverwrittenList : List Nat := []
  regular : Bool := false
  deriving DecidableEq, Repr

/-- Body of the inner loop of `doConflictCheck` ("for all non-providing alternative
origins"). -/
def checkAlternative (dir : DirectoryEntry) (reg : Registry) (dataID : Int)
    (origin : FilesOrigin) (st : CheckState) (alt : Int) : CheckState :=
  if alt ≠ dataID ∧ alt ≠ origin.getID then
    let altOrigin := dir.getOriginByID alt
    let altIndex := reg.getIndex altOrigin.getName
    if origin.getPriority > altOrigin.getPriority then
      { st with m_OverwriteList := setInsert altIndex st.m_OverwriteList }
    else
      { st with m_OverwrittenList := setInsert altIndex st.m_OverwrittenList }
  else st

/-- Body of the outer loop of `doConflictCheck` ("for all files in this origin"). -/
def checkFile (dir : DirectoryEntry) (reg : Registry) (dataID : Int)
    (origin : FilesOrigin) (st : CheckState) (file : FileEntry) : CheckState :=
  let alternatives := file.getAlternatives
  if noConflict alternatives dataID then
    { st with regular := true }
  else
    let st1 :=
      if file.getOrigin ≠ origin.getID then
        let altOrigin := dir.getOriginByID file.getOrigin
        let altIndex := reg.getIndex altOrigin.getName
        { st with m_OverwrittenList := setInsert altIndex st.m_OverwrittenList }
      else st
    alternatives.foldl (checkAlternative dir reg dataID origin) st1

/-- The two lists and the flag `regular` when the loops of `doConflictCheck` are done. -/
def conflictScan (mod : ModInfo) (dir : DirectoryEntry) (reg : Registry) : CheckState :=
  let dataID := dataID dir
  let name := mod.name
  if dir.originExists name then
    let origin := dir.getOriginByName name
    origin.getFiles.foldl (checkFile dir reg dataID origin) {}
  else {}

/-- The final `if` cascade of `doConflictCheck`. -/
def classify (st : CheckState) : EConflictType :=
  if st.m_OverwriteList ≠ [] ∧ st.m_OverwrittenList ≠ [] then EConflictType.CONFLICT_MIXED
  else if st.m_OverwriteList ≠ [] then EConflictType.CONFLICT_OVERWRITE
  else if st.m_OverwrittenList ≠ [] then
    if !st.regular then EConflictType.CONFLICT_REDUNDANT
    else EConflictType.CONFLICT_OVERWRITTEN
  else EConflictType.CONFLICT_NONE

/-- Function `Conflicting::doConflictCheck`.  `mod` is `mod()`, `dir` is
`*m_DirectoryStructure`, `reg` holds the name index read by `ModInfo::getIndex`, and
`currentTime` is the clock reading stored in `m_LastConflictCheck`. -/
def Conflicting.doConflictCheck (self : Conflicting) (mod : ModInfo) (dir : DirectoryEntry)
    (reg : Registry) (currentTime : QTime) : Conflicting :=
  let st := conflictScan mod dir reg
  { m_CurrentConflictState := classify st
    m_LastConflictCheck := some currentTime
    m_OverwriteList := st.m_OverwriteList
    m_OverwrittenList := st.m_OverwrittenList
    checks := self.checks + 1 }

/-- Function `Conflicting::isConflicted`: the object after the call and the returned
state.  `now` is the clock reading taken on entry, `currentTime` the one
`doConflictCheck` takes when it runs. -/
def Conflicting.isConflicted (self : Conflicting) (mod : ModInfo) (dir : DirectoryEntry)
    (reg : Registry) (now currentTime : QTime) : Conflicting × EConflictType :=
  let self1 :=
    match self.m_LastConflictCheck with
    | none => self.doConflictCheck mod dir reg currentTime
    | some last =>
      if secsTo last now > 10 then self.doConflictCheck mod dir reg currentTime else self
  (self1, self1.m_CurrentConflictState)

/-- Function `Conflicting::flags`: the object after the call and the returned flags. -/
def Conflicting.flags (self : Conflicting) (mod : ModInfo) (dir : DirectoryEntry)
    (reg : Registry) (now currentTime : QTime) : Conflicting × List EModFlag :=
  let r := self.isConflicted mod dir reg now currentTime
  match r.2 with
  | EConflictType.CONFLICT_MIXED => (r.1, [EModFlag.CONFLICT_MIXED])
  | EConflictType.CONFLICT_OVERWRITE => (r.1, [EModFlag.CONFLICT_OVERWRITE])
  | EConflictType.CONFLICT_OVERWRITTEN => (r.1, [EModFlag.CONFLICT_OVERWRITTEN])
  | EConflictType.CONFLICT_REDUNDANT => (r.1, [EModFlag.CONFLICT_REDUNDANT])
  | _ => (r.1, [])

/-! ## Failures -/

/-- The ways a call can end without returning. -/
inductive Fault
  /-- The `MyException` "invalid index" of `getByIndex` and `removeMod`. -/
  | invalidIndex
  /-- The `std::runtime_error` "failed to parse ACF object" of `ACFPropertyTree::parse`. -/
  | parseFailure
  /-- Undefined behaviour: `std::map::erase` called on the `end()` iterator. -/
  | eraseEnd
  /-- Undefined behaviour: a member is used through a null pointer or through a pointer
  that was never assigned. -/
  | invalidPointer
  /-- The `std::runtime_error` "invalid name" of `ExecutablesList::find`. -/
  | invalidName
  deriving DecidableEq, Repr

/-! ## Strings and directories (Qt) -/

/-- Lower-case form used for `Qt::CaseInsensitive` comparisons (letters A to Z). -/
def toLower (s : QString) : List Char := s.data.map Char.toLower

/-- The result of `QString::compare(a, b, Qt::CaseInsensitive) < 0`. -/
def compareLess (a b : QString) : Bool := decide (toLower a < toLower b)

/-- The result of `a.compare(b, Qt::CaseInsensitive) == 0`. -/
def compareEqual (a b : QString) : Bool := decide (toLower a = toLower b)

/-- Function `QString::contains(QChar)`. -/
def contains (s : QString) (c : Char) : Bool := s.data.contains c

/-- Function `QString::replace(position, n, after)` on a copy of `s`: nothing happens when
`position` lies outside the string. -/
def replace (s : QString) (position n : Int) (after : QString) : QString :=
  if position < 0 ∨ position > s.length then s
  else
    let len := if n > s.length - position then s.length - position else n
    String.mk (s.data.take position.toNat ++ after.data ++
      s.data.drop (position.toNat + len.toNat))

/-- Function `QFileInfo::baseName`: the file name up to its first dot, without the path. -/
def baseName (file : QString) : QString :=
  String.mk (((file.data.reverse.takeWhile (fun c => c ≠ '/')).reverse).takeWhile
    (fun c => c ≠ '.'))

/-- Exact match of the expression `.*backup[0-9]*` of `createFrom`. -/
def backupExp (s : QString) : Bool :=
  "backup".data.reverse.isPrefixOf (s.data.reverse.dropWhile Char.isDigit)

/-- The directory `modDir` of `setName`, that is `QDir(path.mid(0, path.length() -
m_Name.length()))`, as the calls see it: the names it contains, the answers the operating
system will give to the coming rename requests, and the rename requests made so far. -/
structure Disk where
  entries : List QString := []
  outcomes : List Bool := []
  requests : List (QString × QString) := []
  deriving DecidableEq, Repr

/-- Function `QDir::exists(name)`. -/
def Disk.exists (d : Disk) (name : QString) : Bool := d.entries.contains name

/-- Functions `QDir::rename(oldName, newName)` and `shellRename` of the two files of this
directory: the request is recorded, the operating system decides, and on success the
directory holds the new name. -/
def Disk.rename (d : Disk) (oldName newName : QString) : Bool × Disk :=
  match d.outcomes with
  | [] => (false, { d with requests := d.requests ++ [(oldName, newName)] })
  | true :: rest =>
    (true, { entries := (d.entries.erase oldName) ++ [newName]
             outcomes := rest
             requests := d.requests ++ [(oldName, newName)] })
  | false :: rest =>
    (false, { d with outcomes := rest, requests := d.requests ++ [(oldName, newName)] })

/-! ## The workshop manifest (`acfparser.h`) -/

/-- An `ACFObject`: a string or a nested `ACFPropertyTree`, the latter given by its
`m_Values`. -/
inductive ACFObject
  | string (value : String)
  | tree (m_Values : List (String × ACFObject))

/-- An `ACFPropertyTree`, given by its `m_Values`. -/
abbrev ACFPropertyTree := List (String × ACFObject)

/-- Function `ACFPropertyTree::getKeys`. -/
def ACFPropertyTree.getKeys (t : ACFPropertyTree) : List String := t.map Prod.fst

/-- Function `std::map::find` on `m_Values`. -/
def ACFPropertyTree.find (key : String) : ACFPropertyTree → Option ACFObject
  | [] => none
  | (k, v) :: rest => if k = key then some v else ACFPropertyTree.find key rest

/-- Function `ACFPropertyTree::getString`. -/
def ACFPropertyTree.getString (t : ACFPropertyTree) (key : String) : String :=
  match ACFPropertyTree.find key t with
  | some (ACFObject.string s) => s
  | _ => ""

/-- Function `ACFPropertyTree::getMap`. -/
def ACFPropertyTree.getMap (t : ACFPropertyTree) (key : String) : ACFPropertyTree :=
  match ACFPropertyTree.find key t with
  | some (ACFObject.tree values) => values
  | _ => []

/-- The workshop manifest `appworkshop_<id>.acf` as `updateFromDisc` meets it. -/
inductive WorkshopFile
  /-- The file cannot be opened. -/
  | missing
  /-- The file opens and `ACFPropertyTree::parse` throws. -/
  | malformed
  /-- The file opens and `ACFPropertyTree::parse` returns this tree. -/
  | parsed (tree : ACFPropertyTree)

/-! ## What `updateFromDisc` finds on disc -/

/-- A directory of the mod directory, as `createFrom` sees it.  `valid` is what
`testValid` finds; `primaryCategory` and `conflictState` are the values the members
`Categorized::m_PrimaryCategory` and `Conflicting::m_CurrentConflictState`, which no
constructor initialises, happen to hold. -/
structure QDir where
  dirName : QString
  absolutePath : QString
  valid : Bool := true
  primaryCategory : Int := 0
  conflictState : EConflictType := EConflictType.CONFLICT_NONE
  deriving DecidableEq, Repr

/-- The surroundings of `updateFromDisc`. -/
structure Disc where
  /-- The directories listed by the iterator over the mod directory, in its order. -/
  modDirectories : List QDir := []
  /-- The workshop manifest. -/
  workshopFile : WorkshopFile := WorkshopFile.missing
  /-- The path `workshopPath / "content" / steamAPPId`. -/
  workshopContentPath : String := ""
  /-- Function `boost::filesystem::exists` on the content directory of a workshop key. -/
  contentExists : String → Bool := fun _ => true
  /-- The reply handle the network layer returns to `SteamRepository::updateInfo`. -/
  reply : String → Nat := fun _ => 0
  /-- The files `*.esp` and `*.esm` of the data directory. -/
  dataPlugins : List QString := []
  /-- The archives of the data directory whose name starts with the given base name. -/
  dataArchives : QString → List QString := fun _ => []
  /-- The result of `GameInfo::getDLCPlugins`. -/
  dlcPlugins : List QString := []
  /-- The result of `GameInfo::getGameName`. -/
  gameName : QString := ""
  /-- What `testValid` finds for an entry that is not made from a mod directory. -/
  valid : Bool := false

/-! ## Features of an entry (`modinfo.h`) -/

/-- The test `std::is_base_of<DiskLocation, T>()` of `addFeature`. -/
def FeatureKind.isDiskLocation : FeatureKind → Bool
  | FeatureKind.DiskLocation | FeatureKind.Installed | FeatureKind.ForeignInstalled
  | FeatureKind.OverwriteLocation | FeatureKind.SteamInstalled => true
  | _ => false

/-- The test `std::is_base_of<Repository, T>()` of `addFeature`. -/
def FeatureKind.isRepository : FeatureKind → Bool
  | FeatureKind.Repository | FeatureKind.NexusRepository | FeatureKind.SteamRepository => true
  | _ => false

/-- Function `ModInfo::addFeature<T>(feature)`, `kind` being `typeid(T)`: the new object is
registered under `kind` and under the base classes `DiskLocation` and `Repository` it
derives from. -/
def ModInfo.addFeature (m : ModInfo) (kind : FeatureKind) (feature : Feature) : ModInfo :=
  let featurePtr := m.objects.length
  let features1 := mapSet kind featurePtr m.m_Features
  let features2 :=
    if kind.isDiskLocation then mapSet FeatureKind.DiskLocation featurePtr features1
    else features1
  let features3 :=
    if kind.isRepository then mapSet FeatureKind.Repository featurePtr features2
    else features2
  { m with objects := m.objects ++ [feature], m_Features := features3 }

/-- Write access through the pointer `feature<T>()`: the object registered under `kind` is
replaced by `change` of it; nothing happens for `nullptr`. -/
def ModInfo.updateFeature (m : ModInfo) (kind : FeatureKind) (change : Feature → Feature) :
    ModInfo :=
  match mapFind kind m.m_Features with
  | some p =>
    match m.objects[p]? with
    | some object => { m with objects := m.objects.set p (change object) }
    | none => m
  | none => m

/-- Function `Installed::setPath` on a feature object. -/
def Feature.setPath (path : QString) : Feature → Feature
  | Feature.installed f => Feature.installed { f with m_Path := path }
  | other => other

/-- Function `SteamRepository::setTitle` on a feature object. -/
def Feature.setTitle (title : QString) : Feature → Feature
  | Feature.steamRepository f => Feature.steamRepository { f with m_Title := title }
  | other => other

/-- The constructor `ModInfo(name, flags)`.  No feature is attached yet, so
`absolutePath()` is empty and `readMeta` has no feature to read: `testValid` yields `valid`
and `readMeta` leaves `m_MetaInfoChanged` false. -/
def ModInfo.new (name : QString) (flags : List EModFlag) (valid : Bool) : ModInfo :=
  { m_Name := name, m_Flags := flags, m_Valid := valid, m_MetaInfoChanged := false }

/-! ## The registry (`modinfo.cpp`) -/

/-- The comparison `ByName` given to `std::sort`. -/
def ByName (LHS RHS : ModInfo) : Bool := compareLess LHS.name RHS.name

/-- The call `std::sort(s_Collection.begin(), s_Collection.end(), ByName)`. -/
def sortByName (collection : List ModInfo) : List ModInfo :=
  collection.insertionSort (fun a b => ByName b a = false)

/-- Function `ModInfo::createFrom`. -/
def Registry.createFrom (reg : Registry) (dir : QDir) : Registry :=
  let result := ModInfo.new dir.dirName [] dir.valid
  let result :=
    if !backupExp dir.dirName then
      ((((((((result.addFeature FeatureKind.Categorized
          (Feature.categorized { m_PrimaryCategory := dir.primaryCategory })).addFeature
        FeatureKind.Conflicting
          (Feature.conflicting { m_CurrentConflictState := dir.conflictState })).addFeature
        FeatureKind.Endorsable (Feature.endorsable {})).addFeature
        FeatureKind.Installed (Feature.installed { m_Path := dir.absolutePath })).addFeature
        FeatureKind.Note (Feature.note {})).addFeature
        FeatureKind.Positioning (Feature.positioning {})).addFeature
        FeatureKind.Versioned (Feature.versioned {})).addFeature
        FeatureKind.NexusRepository (Feature.nexusRepository {}))
    else result
  { reg with s_Collection := reg.s_Collection ++ [result] }

/-- Function `ModInfo::createFromPlugin`. -/
def Registry.createFromPlugin (reg : Registry) (disc : Disc) (espName : QString) : Registry :=
  let result := ModInfo.new ("Unmanaged: " ++ baseName espName) [EModFlag.FOREIGN] disc.valid
  let result := result.addFeature FeatureKind.Positioning
    (Feature.positioning { m_Checkable := ECheckable.FIXED_ACTIVE })
  let result := result.addFeature FeatureKind.ForeignInstalled
    (Feature.foreignInstalled
      { m_ReferenceFile := espName, m_Archives := disc.dataArchives (baseName espName) })
  { reg with s_Collection := reg.s_Collection ++ [result] }

/-- Function `ModInfo::createFromSteam`; the last step is `SteamRepository::updateInfo`,
which stores the handle of the request it posts. -/
def Registry.createFromSteam (reg : Registry) (disc : Disc) (modPath steamKey : QString) :
    Registry :=
  let result := ModInfo.new ("Steam: " ++ steamKey) [EModFlag.FOREIGN] disc.valid
  let result := result.addFeature FeatureKind.Positioning (Feature.positioning {})
  let result := result.addFeature FeatureKind.SteamRepository
    (Feature.steamRepository { base := { m_ModId := steamKey } })
  let result := result.addFeature FeatureKind.Versioned (Feature.versioned {})
  let result := result.addFeature FeatureKind.SteamInstalled
    (Feature.steamInstalled { m_Path := modPath })
  let result := result.updateFeature FeatureKind.SteamRepository (fun object =>
    match object with
    | Feature.steamRepository f =>
      Feature.steamRepository { f with m_UpdateReply := some (disc.reply steamKey) }
    | other => other)
  { reg with s_Collection := reg.s_Collection ++ [result] }

/-- Function `ModInfo::createFromOverwrite`. -/
def Registry.createFromOverwrite (reg : Registry) (disc : Disc) : Registry :=
  let modInfo := ModInfo.new "Overwrite" [] disc.valid
  let modInfo := modInfo.addFeature FeatureKind.OverwriteLocation Feature.overwriteLocation
  let modInfo := modInfo.addFeature FeatureKind.Positioning
    (Feature.positioning
      { m_Checkable := ECheckable.FIXED_ACTIVE, m_Position := EPosition.FIXED_HIGHEST })
  { reg with s_Collection := reg.s_Collection ++ [modInfo] }

/-- Function `ModInfo::getNumMods`. -/
def Registry.getNumMods (reg : Registry) : Nat := reg.s_Collection.length

/-- Function `ModInfo::getByIndex`. -/
def Registry.getByIndex (reg : Registry) (index : Nat) : Except Fault ModInfo :=
  match reg.s_Collection[index]? with
  | none => Except.error Fault.invalidIndex
  | some modInfo => Except.ok modInfo

/-- The repository link of an entry: `feature<ModFeature::Repository>()`. -/
def ModInfo.repository (m : ModInfo) : Option Repository :=
  match m.feature FeatureKind.Repository with
  | some object => object.asRepository
  | none => none

/-- The loop of `updateIndices`, from position `i` on. -/
def updateIndicesFrom : List ModInfo → Nat → List (QString × Nat) →
    List (QString × List Nat) → List (QString × Nat) × List (QString × List Nat)
  | [], _, byName, byModID => (byName, byModID)
  | modInfo :: rest, i, byName, byModID =>
    let modName := modInfo.internalName
    let byName1 := mapSet modName i byName
    let byModID1 :=
      match modInfo.repository with
      | some repo => mapSet repo.modId ((mapFind repo.modId byModID).getD [] ++ [i]) byModID
      | none => byModID
    updateIndicesFrom rest (i + 1) byName1 byModID1

/-- Function `ModInfo::updateIndices`. -/
def Registry.updateIndices (reg : Registry) : Registry :=
  let indices := updateIndicesFrom reg.s_Collection 0 [] []
  { reg with s_ModsByName := indices.1, s_ModsByModID := indices.2 }

/-- The loop of `updateFromDisc` over the keys of `WorkshopItemDetails`. -/
def createWorkshopItems (disc : Disc) (items : ACFPropertyTree) :
    List String → Registry → Registry
  | [], reg => reg
  | key :: rest, reg =>
    if (items.getMap key).getString "manifest" = "-1" then
      createWorkshopItems disc items rest reg
    else
      let modPath := disc.workshopContentPath ++ "/" ++ key
      if !disc.contentExists key then createWorkshopItems disc items rest reg
      else createWorkshopItems disc items rest (reg.createFromSteam disc modPath key)

/-- The loop of `updateFromDisc` over the plugins of the data directory. -/
def createForeignPlugins (disc : Disc) (displayForeign : Bool) :
    List QString → Registry → Registry
  | [], reg => reg
  | file :: rest, reg =>
    if baseName file ≠ "Update" ∧ baseName file ≠ disc.gameName ∧
        (displayForeign ∨ file ∈ disc.dlcPlugins) then
      createForeignPlugins disc displayForeign rest (reg.createFromPlugin disc file)
    else createForeignPlugins disc displayForeign rest reg

/-- Function `ModInfo::updateFromDisc`. -/
def Registry.updateFromDisc (reg : Registry) (disc : Disc) (displayForeign : Bool) :
    Except Fault Registry :=
  let reg := { reg with s_Collection := [], s_NextID := 0 }
  let reg := disc.modDirectories.foldl Registry.createFrom reg
  let afterWorkshop : Except Fault Registry :=
    match disc.workshopFile with
    | WorkshopFile.missing => Except.ok reg
    | WorkshopFile.malformed => Except.error Fault.parseFailure
    | WorkshopFile.parsed workshopInfo =>
      let items := (workshopInfo.getMap "AppWorkshop").getMap "WorkshopItemDetails"
      Except.ok (createWorkshopItems disc items items.getKeys reg)
  match afterWorkshop with
  | Except.error fault => Except.error fault
  | Except.ok reg =>
    let reg := createForeignPlugins disc displayForeign disc.dataPlugins reg
    let reg := reg.createFromOverwrite disc
    let reg := { reg with s_Collection := sortByName reg.s_Collection }
    Except.ok reg.updateIndices

/-- Function `ModInfo::removeMod`.  `deleted` is the result of `modInfo->remove()`, which
the code ignores. -/
def Registry.removeMod (reg : Registry) (index : Nat) (deleted : Bool) :
    Except Fault (Bool × Registry) :=
  match reg.s_Collection[index]? with
  | none => Except.error Fault.invalidIndex
  | some modInfo =>
    match mapFind modInfo.name reg.s_ModsByName with
    | none => Except.error Fault.eraseEnd
    | some _ =>
      let byName := mapErase modInfo.name reg.s_ModsByName
      let byModID :=
        match modInfo.repository with
        | some repo =>
          match mapFind repo.modId reg.s_ModsByModID with
          | some indices => mapSet repo.modId (indices.filter (fun j => j ≠ index))
              reg.s_ModsByModID
          | none => reg.s_ModsByModID
        | none => reg.s_ModsByModID
      let _ := deleted
      let collection := reg.s_Collection.eraseIdx index
      let reg := { reg with s_Collection := collection, s_ModsByName := byName,
                            s_ModsByModID := byModID }
      Except.ok (true, reg.updateIndices)

/-- The loop `while (modDir.exists(tempName)) tempName.append("_")` of `setName`, run for
at most `fuel` rounds. -/
def freeTempName (modDir : Disk) : Nat → QString → QString
  | 0, tempName => tempName
  | fuel + 1, tempName =>
    if modDir.exists tempName then freeTempName modDir fuel (tempName ++ "_") else tempName

/-- The part of `setName` that runs once the directory is renamed: the name index, the
name, the path, the order and the indices. -/
def Registry.applyName (reg : Registry) (self : Nat) (modInfo : ModInfo)
    (name newPath : QString) : Registry :=
  let renamed := ({ modInfo with m_Name := name }).updateFeature FeatureKind.Installed
    (Feature.setPath newPath)
  match mapFind modInfo.m_Name reg.s_ModsByName with
  | some index =>
    let byName := mapSet name index (mapErase modInfo.m_Name reg.s_ModsByName)
    let reg := { reg with s_Collection := reg.s_Collection.set self renamed,
                          s_ModsByName := byName }
    let reg := { reg with s_Collection := sortByName reg.s_Collection }
    reg.updateIndices
  | none => { reg with s_Collection := reg.s_Collection.set self renamed }

/-- Function `ModInfo::setName` of the entry at position `self` of `s_Collection`: the
returned value, the registry and the directory `modDir` after the call. -/
def Registry.setName (reg : Registry) (modDir : Disk) (self : Nat) (name : QString) :
    Bool × Registry × Disk :=
  match reg.s_Collection[self]? with
  | none => (false, reg, modDir)
  | some modInfo =>
    if contains name '/' || contains name '\\' then (false, reg, modDir)
    else
      match modInfo.feature FeatureKind.Installed with
      | some (Feature.installed installed) =>
        let path := installed.m_Path
        let newPath := replace path (path.length - modInfo.m_Name.length)
          modInfo.m_Name.length name
        if compareEqual modInfo.m_Name name then
          let tempName := freeTempName modDir (modDir.entries.length + 1) (name ++ "_temp")
          let first := modDir.rename modInfo.m_Name tempName
          if !first.1 then (false, reg, first.2)
          else
            let second := first.2.rename tempName name
            if !second.1 then
              (false, reg, (second.2.rename tempName modInfo.m_Name).2)
            else (true, reg.applyName self modInfo name newPath, second.2)
        else
          let renamed := modDir.rename modInfo.m_Name name
          if !renamed.1 then (false, reg, renamed.2)
          else (true, reg.applyName self modInfo name newPath, renamed.2)
      | _ =>
        (true,
          { reg with s_Collection := reg.s_Collection.set self { modInfo with m_Name := name } },
          modDir)

/-! ## Auxiliary notions for the proofs -/

/-- Position, counted from `i`, of the last entry of the list whose internal name is
`n`. -/
def lastNamed (n : QString) : List ModInfo → Nat → Option Nat
  | [], _ => none
  | modInfo :: rest, i =>
    match lastNamed n rest (i + 1) with
    | some k => some k
    | none => if modInfo.internalName = n then some i else none

/-- Positions, counted from `i`, of the entries of the list whose repository link has the
id `key`. -/
def positionsWithId (key : QString) : List ModInfo → Nat → List Nat
  | [], _ => []
  | modInfo :: rest, i =>
    if modInfo.repository.map Repository.modId = some key then
      i :: positionsWithId key rest (i + 1)
    else positionsWithId key rest (i + 1)

/-! ## The metadata store (`QSettings`, Qt) -/

/-- The values a `QVariant` holds in these sources. -/
inductive QVariant
  | string (s : QString)
  | int (i : Int)
  | bool (b : Bool)
  deriving DecidableEq, Repr

/-- Function `QString::number(int)`: the decimal text. -/
def number (i : Int) : QString := toString i

/-- Value of a text made of decimal digits only, `none` when it is empty or holds another
character. -/
def digitsValue : List Char → Option Nat
  | [] => none
  | cs => if cs.all Char.isDigit then some (cs.foldl (fun n c => 10 * n + (c.toNat - 48)) 0)
    else none

/-- Function `QString::toInt(&ok)`: an optional sign and decimal digits, surrounding white
space ignored, within the range of a 32 bit `int`; `none` stands for `ok == false`. -/
def toInt (s : QString) : Option Int :=
  let body := ((s.data.dropWhile Char.isWhitespace).reverse.dropWhile
    Char.isWhitespace).reverse
  let value : Option Int :=
    match body with
    | '-' :: rest => (digitsValue rest).map (fun n => - (n : Int))
    | '+' :: rest => (digitsValue rest).map (fun n => (n : Int))
    | cs => (digitsValue cs).map (fun n => (n : Int))
  match value with
  | some v => if -2147483648 ≤ v ∧ v ≤ 2147483647 then some v else none
  | none => none

/-- Function `QVariant::toString`. -/
def QVariant.toString : QVariant → QString
  | QVariant.string s => s
  | QVariant.int i => number i
  | QVariant.bool b => if b then "true" else "false"

/-- Function `QVariant::toInt`: 0 when the text is no number. -/
def QVariant.toInt : QVariant → Int
  | QVariant.string s => (ModOrganizer.toInt s).getD 0
  | QVariant.int i => i
  | QVariant.bool b => if b then 1 else 0

/-- Function `QVariant::toBool`. -/
def QVariant.toBool : QVariant → Bool
  | QVariant.string s => !(s = "" ∨ s = "0" ∨ toLower s = "false".data)
  | QVariant.int i => i ≠ 0
  | QVariant.bool b => b

/-- Function `QVariant::canConvert<int>()`: texts, numbers and booleans all convert. -/
def QVariant.canConvertInt : QVariant → Bool
  | _ => true

/-- Enumeration `QSettings::Status`. -/
inductive Status
  | NoError | AccessError | FormatError
  deriving DecidableEq, Repr

/-- An entry of the group stack of a `QSettings`: the array opened by `beginReadArray` or
`beginWriteArray`, the number `setArrayIndex` selected and, when writing, the largest
number selected so far. -/
structure Group where
  name : QString
  num : Option Nat := none
  maxNum : Option Nat := none
  deriving DecidableEq, Repr

/-- A `QSettings` object: the keys with their values, the stack of open groups (innermost
first) and the status. -/
structure QSettings where
  values : List (QString × QVariant) := []
  groups : List Group := []
  status : Status := Status.NoError
  deriving DecidableEq, Repr

/-- The text a group puts before the keys read and written inside it. -/
def Group.path (g : Group) : QString :=
  match g.num with
  | some n => g.name ++ "/" ++ toString n ++ "/"
  | none => g.name ++ "/"

/-- The full key of `key` under the open groups. -/
def QSettings.fullKey (settings : QSettings) (key : QString) : QString :=
  settings.groups.foldl (fun inner g => g.path ++ inner) key

/-- Function `QSettings::value(key, defaultValue)`. -/
def QSettings.value (settings : QSettings) (key : QString) (defaultValue : QVariant) :
    QVariant :=
  (mapFind (settings.fullKey key) settings.values).getD defaultValue

/-- Function `QSettings::contains(key)`. -/
def QSettings.contains (settings : QSettings) (key : QString) : Bool :=
  (mapFind (settings.fullKey key) settings.values).isSome

/-- Function `QSettings::setValue(key, value)`. -/
def QSettings.setValue (settings : QSettings) (key : QString) (value : QVariant) :
    QSettings :=
  { settings with values := mapSet (settings.fullKey key) value settings.values }

/-- Function `QSettings::beginReadArray(name)`: the settings with the array open and the
stored size. -/
def QSettings.beginReadArray (settings : QSettings) (name : QString) : QSettings × Int :=
  let opened := { settings with groups := { name := name } :: settings.groups }
  (opened, (opened.value "size" (QVariant.int 0)).toInt)

/-- Function `QSettings::beginWriteArray(name)` without a size: the array is open, its
stored size is removed. -/
def QSettings.beginWriteArray (settings : QSettings) (name : QString) : QSettings :=
  let opened := { settings with groups := { name := name, maxNum := some 0 } :: settings.groups }
  { opened with values := mapErase (opened.fullKey "size") opened.values }

/-- Function `QSettings::setArrayIndex(i)`. -/
def QSettings.setArrayIndex (settings : QSettings) (i : Int) : QSettings :=
  match settings.groups with
  | [] => settings
  | g :: rest =>
    let num := i.toNat + 1
    let maxNum := match g.maxNum with
      | some largest => some (if num > largest then num else largest)
      | none => none
    { settings with groups := { g with num := some num, maxNum := maxNum } :: rest }

/-- Function `QSettings::endArray`: the group is closed and, for an array that was written
without a size, the size is stored. -/
def QSettings.endArray (settings : QSettings) : QSettings :=
  match settings.groups with
  | [] => settings
  | g :: rest =>
    let closed := { settings with groups := rest }
    match g.maxNum with
    | some largest => closed.setValue (g.name ++ "/size") (QVariant.int largest)
    | none => closed

/-! ## Libraries and surroundings of an entry -/

/-- What the code asks of the libraries and of the file system outside these sources. -/
structure Environment where
  /-- The path `fromNativeSeparators(GameInfo::getGameDirectory()) + "/data"`. -/
  gameDataPath : QString := "C:/game/data"
  /-- The path `OverwriteLocation::absolutePath` computes from the application. -/
  overwritePath : QString := "C:/mo/overwrite"
  /-- Function `QFile::exists`. -/
  fileExists : QString → Bool := fun _ => true
  /-- Function `CategoryFactory::categoryExists`. -/
  categoryExists : Int → Bool := fun _ => true
  /-- Function `VersionInfo::canonicalString`. -/
  canonicalString : VersionInfo → QString := fun _ => ""
  /-- Function `VersionInfo::parse`, also the conversion of a text to a `VersionInfo`. -/
  parseVersion : QString → VersionInfo := fun _ => {}
  /-- Function `QDateTime::toString(Qt::ISODate)`. -/
  dateToString : Option Int → QString := fun _ => ""
  /-- Function `QDateTime::fromString(text, Qt::ISODate)`. -/
  dateFromString : QString → Option Int := fun _ => none
  /-- Function `qHash` on texts. -/
  qHash : QString → Nat := fun s => s.length

/-! ## Saving and reading the features (`modfeatures.cpp`) -/

/-- Function `std::set<int>::insert`. -/
def intSetInsert (x : Int) : List Int → List Int
  | [] => [x]
  | y :: ys =>
    if x < y then x :: y :: ys else if x = y then y :: ys else y :: intSetInsert x ys

/-- The order of `std::pair<int, int>`. -/
def pairLess (a b : Int × Int) : Bool := a.1 < b.1 ∨ (a.1 = b.1 ∧ a.2 < b.2)

/-- Function `std::set<std::pair<int, int>>::insert`. -/
def pairSetInsert (x : Int × Int) : List (Int × Int) → List (Int × Int)
  | [] => [x]
  | y :: ys =>
    if pairLess x y then x :: y :: ys else if x = y then y :: ys
    else y :: pairSetInsert x ys

/-- Function `QString::split(',', QString::SkipEmptyParts)` on the characters. -/
def splitComma : List Char → List Char → List (List Char)
  | [], current => if current = [] then [] else [current.reverse]
  | c :: rest, current =>
    if c = ',' then
      if current = [] then splitComma rest [] else current.reverse :: splitComma rest []
    else splitComma rest (c :: current)

/-- Function `Note::saveMeta`. -/
def Note.saveMeta (self : Note) (settings : QSettings) : QSettings :=
  settings.setValue "notes" (QVariant.string self.m_Note)

/-- Function `Note::readMeta`. -/
def Note.readMeta (_self : Note) (settings : QSettings) : Note :=
  { m_Note := (settings.value "notes" (QVariant.string "")).toString }

/-- Function `Note::get`. -/
def Note.get (self : Note) : QString := self.m_Note

/-- Function `Categorized::saveMeta`; `SetJoin` puts the separator between the numbers. -/
def Categorized.saveMeta (self : Categorized) (settings : QSettings) : QSettings :=
  let temp := self.m_Categories.filter (fun c => c ≠ self.m_PrimaryCategory)
  settings.setValue "category"
    (QVariant.string (number self.m_PrimaryCategory ++ "," ++
      String.intercalate "," (temp.map number)))

/-- The loop of `Categorized::readMeta`; `first` tells that `iter == categories.begin()`. -/
def Categorized.readCategories (env : Environment) :
    List (List Char) → Bool → Categorized → Categorized
  | [], _, self => self
  | item :: rest, first, self =>
    let parsed := toInt (String.mk item)
    let categoryID := parsed.getD 0
    if categoryID < 0 then Categorized.readCategories env rest false self
    else if parsed.isSome ∧ categoryID ≠ 0 ∧ env.categoryExists categoryID = true then
      let inserted := { self with m_Categories := intSetInsert categoryID self.m_Categories }
      Categorized.readCategories env rest false
        (if first then { inserted with m_PrimaryCategory := categoryID } else inserted)
    else Categorized.readCategories env rest false self

/-- Function `Categorized::readMeta`. -/
def Categorized.readMeta (self : Categorized) (env : Environment) (settings : QSettings) :
    Categorized :=
  let categoriesString := (settings.value "category" (QVariant.string "")).toString
  Categorized.readCategories env (splitComma categoriesString.data []) true self

/-- Function `Versioned::saveMeta`. -/
def Versioned.saveMeta (self : Versioned) (env : Environment) (settings : QSettings) :
    QSettings :=
  settings.setValue "version" (QVariant.string (env.canonicalString self.m_Version))

/-- Function `Versioned::readMeta`. -/
def Versioned.readMeta (_self : Versioned) (env : Environment) (settings : QSettings) :
    Versioned :=
  { m_Version := env.parseVersion (settings.value "version" (QVariant.string "")).toString }

/-- Function `Repository::saveMeta`; `name` is the result of the virtual `name()`. -/
def Repository.saveMeta (self : Repository) (name : QString) (env : Environment)
    (settings : QSettings) : QSettings :=
  let settings := settings.setValue "ignoredVersion"
    (QVariant.string (env.canonicalString self.m_IgnoredVersion))
  let settings := settings.setValue "newestVersion"
    (QVariant.string (env.canonicalString self.m_Version))
  let settings := settings.setValue "repository" (QVariant.string name)
  let settings := settings.setValue "modid" (QVariant.string self.m_ModId)
  let settings := settings.setValue "nexusDescription" (QVariant.string self.m_Description)
  settings.setValue "lastNexusQuery" (QVariant.string (env.dateToString self.m_LastQuery))

/-- Function `Repository::readMeta`.  The statement `m_ModId = settings.value("modid",
-1).toInt()` assigns an `int` to a `QString`, which selects `QString::operator=(char)`:
the text becomes the one character with the code of the number cut to a byte. -/
def Repository.readMeta (_self : Repository) (env : Environment) (settings : QSettings) :
    Repository :=
  { m_ModId := String.singleton
      (Char.ofNat ((settings.value "modid" (QVariant.int (-1))).toInt % 256).toNat)
    m_Version := env.parseVersion
      (settings.value "newestVersion" (QVariant.string "")).toString
    m_IgnoredVersion := env.parseVersion
      (settings.value "ignoredVersion" (QVariant.string "")).toString
    m_Description := (settings.value "nexusDescription" (QVariant.string "")).toString
    m_LastQuery := env.dateFromString
      (settings.value "lastNexusQuery" (QVariant.string "")).toString }

/-- The number of a state in `Endorsable::EEndorsedState`. -/
def EEndorsedState.toInt : EEndorsedState → Int
  | EEndorsedState.ENDORSED_FALSE => 0
  | EEndorsedState.ENDORSED_TRUE => 1
  | EEndorsedState.ENDORSED_UNKNOWN => 2
  | EEndorsedState.ENDORSED_NEVER => 3

/-- Function `Endorsable::saveMeta`. -/
def Endorsable.saveMeta (self : Endorsable) (settings : QSettings) : QSettings :=
  if self.m_EndorsedState ≠ EEndorsedState.ENDORSED_UNKNOWN then
    settings.setValue "endorsed" (QVariant.int self.m_EndorsedState.toInt)
  else settings

/-- Function `Endorsable::readMeta`. -/
def Endorsable.readMeta (self : Endorsable) (settings : QSettings) : Endorsable :=
  if settings.contains "endorsed" then
    let stored := settings.value "endorsed" (QVariant.bool false)
    if stored.canConvertInt then
      if stored.toInt = 0 then { m_EndorsedState := EEndorsedState.ENDORSED_FALSE }
      else if stored.toInt = 1 then { m_EndorsedState := EEndorsedState.ENDORSED_TRUE }
      else if stored.toInt = 3 then { m_EndorsedState := EEndorsedState.ENDORSED_NEVER }
      else { m_EndorsedState := EEndorsedState.ENDORSED_UNKNOWN }
    else
      { m_EndorsedState := if stored.toBool then EEndorsedState.ENDORSED_TRUE
                           else EEndorsedState.ENDORSED_FALSE }
  else self

/-- Function `Endorsable::endorsedState`. -/
def Endorsable.endorsedState (_self : Endorsable) : EEndorsedState :=
  EEndorsedState.ENDORSED_NEVER

/-- The loop of `Installed::saveMeta` over `m_InstalledFileIDs`. -/
def Installed.saveFiles : List (Int × Int) → Int → QSettings → QSettings
  | [], _, settings => settings
  | file :: rest, idx, settings =>
    let settings := settings.setArrayIndex idx
    let settings := settings.setValue "modid" (QVariant.int file.1)
    let settings := settings.setValue "fileid" (QVariant.int file.2)
    Installed.saveFiles rest (idx + 1) settings

/-- Function `Installed::saveMeta`. -/
def Installed.saveMeta (self : Installed) (settings : QSettings) : QSettings :=
  let settings := settings.setValue "installationFile" (QVariant.string self.m_InstallationFile)
  let settings := settings.beginWriteArray "installedFiles"
  (Installed.saveFiles self.m_InstalledFileIDs 0 settings).endArray

/-- The loop of `Installed::readMeta`, `count` rounds from index `i` on. -/
def Installed.readFiles : Nat → Int → QSettings → List (Int × Int) →
    QSettings × List (Int × Int)
  | 0, _, settings, files => (settings, files)
  | count + 1, i, settings, files =>
    let settings := settings.setArrayIndex i
    let file := ((settings.value "modid" (QVariant.int 0)).toInt,
      (settings.value "fileid" (QVariant.int 0)).toInt)
    Installed.readFiles count (i + 1) settings (pairSetInsert file files)

/-- Function `Installed::readMeta`: the object and the settings, whose array
`installedFiles` the function leaves open. -/
def Installed.readMeta (self : Installed) (settings : QSettings) : Installed × QSettings :=
  let installationFile := (settings.value "installationFile" (QVariant.string "")).toString
  let opened := settings.beginReadArray "installedFiles"
  let read := Installed.readFiles opened.2.toNat 0 opened.1 self.m_InstalledFileIDs
  ({ self with m_InstallationFile := installationFile, m_InstalledFileIDs := read.2 }, read.1)

/-- The virtual `saveMeta` of a feature object.  The classes that do not override it
inherit `Feature::saveMeta` of `modfeature.h`, which is not part of these sources; it is
taken to write nothing. -/
def Feature.saveMeta (env : Environment) (settings : QSettings) : Feature → QSettings
  | Feature.note f => f.saveMeta settings
  | Feature.categorized f => f.saveMeta settings
  | Feature.versioned f => f.saveMeta env settings
  | Feature.nexusRepository f => f.saveMeta "Nexus" env settings
  | Feature.steamRepository f => f.base.saveMeta "Steam" env settings
  | Feature.endorsable f => f.saveMeta settings
  | Feature.installed f => f.saveMeta settings
  | _ => settings

/-- The virtual `readMeta` of a feature object and the settings after it.  The classes
that do not override it inherit `Feature::readMeta` of `modfeature.h`, which is not part
of these sources; it is taken to read nothing. -/
def Feature.readMeta (env : Environment) (settings : QSettings) :
    Feature → Feature × QSettings
  | Feature.note f => (Feature.note (f.readMeta settings), settings)
  | Feature.categorized f => (Feature.categorized (f.readMeta env settings), settings)
  | Feature.versioned f => (Feature.versioned (f.readMeta env settings), settings)
  | Feature.nexusRepository f => (Feature.nexusRepository (f.readMeta env settings), settings)
  | Feature.steamRepository f =>
    (Feature.steamRepository { f with base := f.base.readMeta env settings }, settings)
  | Feature.endorsable f => (Feature.endorsable (f.readMeta settings), settings)
  | Feature.installed f =>
    let read := f.readMeta settings
    (Feature.installed read.1, read.2)
  | other => (other, settings)

/-! ## Metadata and flags of an entry (`modinfo.cpp`) -/

/-- Function `ModInfo::absolutePath`. -/
def ModInfo.absolutePath (m : ModInfo) (env : Environment) : QString :=
  match m.feature FeatureKind.DiskLocation with
  | some (Feature.installed f) => f.m_Path
  | some (Feature.foreignInstalled _) => env.gameDataPath
  | some Feature.overwriteLocation => env.overwritePath
  | some (Feature.steamInstalled f) => f.m_Path
  | _ => ""

/-- The loop of `ModInfo::readMeta` over the elements of `m_Features`, in the order of the
list. -/
def readFeatures (env : Environment) :
    List (FeatureKind × Nat) → ModInfo → QSettings → ModInfo × QSettings
  | [], m, settings => (m, settings)
  | (_, p) :: rest, m, settings =>
    match m.objects[p]? with
    | some object =>
      let read := object.readMeta env settings
      readFeatures env rest { m with objects := m.objects.set p read.1 } read.2
    | none => readFeatures env rest m settings

/-- Function `ModInfo::readMeta`; `metaFile path` is the object `QSettings(path,
QSettings::IniFormat)`. -/
def ModInfo.readMeta (m : ModInfo) (env : Environment) (metaFile : QString → QSettings) :
    ModInfo :=
  let m :=
    if env.fileExists (m.absolutePath env) then
      (readFeatures env m.m_Features m (metaFile (m.absolutePath env ++ "/meta.ini"))).1
    else m
  { m with m_MetaInfoChanged := false }

/-- The loop of `ModInfo::saveMeta` over the elements of `m_Features`, in the order of the
list. -/
def saveFeatures (env : Environment) (m : ModInfo) :
    List (FeatureKind × Nat) → QSettings → QSettings
  | [], settings => settings
  | (_, p) :: rest, settings =>
    match m.objects[p]? with
    | some object => saveFeatures env m rest (object.saveMeta env settings)
    | none => saveFeatures env m rest settings

/-- Function `ModInfo::saveMeta`: the entry and the settings object of its `meta.ini`
after the call.  `synced` is the status the settings report after `sync()`. -/
def ModInfo.saveMeta (m : ModInfo) (env : Environment) (metaFile : QString → QSettings)
    (synced : Status) : ModInfo × QSettings :=
  let file := metaFile (m.absolutePath env ++ "/meta.ini")
  if m.m_MetaInfoChanged ∧ env.fileExists (m.absolutePath env) = true then
    if file.status = Status.NoError then
      let written := saveFeatures env m m.m_Features file
      let written := { written with status := synced }
      if written.status = Status.NoError then
        ({ m with m_MetaInfoChanged := false }, written)
      else (m, written)
    else (m, file)
  else (m, file)

/-- Function `std::set<EModFlag>::insert`. -/
def flagInsert (result : List EModFlag) (flag : EModFlag) : List EModFlag :=
  if flag ∈ result then result else result ++ [flag]

/-- The virtual `flags` of a feature object, with the object after the call (the cache of
`Conflicting` is mutable).  The classes that do not override it inherit `Feature::flags`
of `modfeature.h`, which is not part of these sources; it is taken to return no flag. -/
def Feature.flags (mod : ModInfo) (dir : DirectoryEntry) (reg : Registry)
    (now currentTime : QTime) : Feature → Feature × List EModFlag
  | Feature.note f => (Feature.note f, if f.m_Note.length ≠ 0 then [EModFlag.NOTES] else [])
  | Feature.conflicting f =>
    let r := f.flags mod dir reg now currentTime
    (Feature.conflicting r.1, r.2)
  | Feature.endorsable f =>
    (Feature.endorsable f,
      if f.endorsedState = EEndorsedState.ENDORSED_FALSE then [EModFlag.NOTENDORSED] else [])
  | Feature.overwriteLocation => (Feature.overwriteLocation, [EModFlag.OVERWRITE])
  | other => (other, [])

/-- The loop of `ModInfo::flags` over the elements of `m_Features`. -/
def featureFlags (dir : DirectoryEntry) (reg : Registry) (now currentTime : QTime) :
    List (FeatureKind × Nat) → ModInfo → List EModFlag → ModInfo × List EModFlag
  | [], m, result => (m, result)
  | (_, p) :: rest, m, result =>
    match m.objects[p]? with
    | some object =>
      let r := object.flags m dir reg now currentTime
      featureFlags dir reg now currentTime rest { m with objects := m.objects.set p r.1 }
        (r.2.foldl flagInsert result)
    | none => featureFlags dir reg now currentTime rest m result

/-- Function `ModInfo::flags`: the entry after the call and the returned flags. -/
def ModInfo.flags (m : ModInfo) (dir : DirectoryEntry) (reg : Registry)
    (now currentTime : QTime) : ModInfo × List EModFlag :=
  let result := m.m_Flags.foldl flagInsert []
  let result := if !m.m_Valid then flagInsert result EModFlag.INVALID else result
  featureFlags dir reg now currentTime m.m_Features m result

/-! ## The mutators of the features (`modfeatures.cpp`) -/

/-- Function `VersionInfo::clear`. -/
def VersionInfo.clear (_v : VersionInfo) : VersionInfo := {}

/-- Function `Note::set`: the object and whether `saveRequired` was emitted. -/
def Note.set (_self : Note) (note : QString) : Note × Bool := ({ m_Note := note }, true)

/-- Function `Categorized::set`: the object and whether `saveRequired` was emitted. -/
def Categorized.set (self : Categorized) (categoryID : Int) (active : Bool) :
    Categorized × Bool :=
  if active then
    let inserted := { self with m_Categories := intSetInsert categoryID self.m_Categories }
    (if inserted.m_PrimaryCategory = -1 then { inserted with m_PrimaryCategory := categoryID }
      else inserted, true)
  else
    let erased := { self with m_Categories := self.m_Categories.erase categoryID }
    (if categoryID = erased.m_PrimaryCategory then
        match erased.m_Categories with
        | [] => { erased with m_PrimaryCategory := -1 }
        | least :: _ => { erased with m_PrimaryCategory := least }
      else erased, true)

/-- Function `Categorized::setPrimary`. -/
def Categorized.setPrimary (self : Categorized) (categoryID : Int) : Categorized × Bool :=
  ({ self with m_PrimaryCategory := categoryID }, true)

/-- Function `Versioned::set`. -/
def Versioned.set (_self : Versioned) (version : VersionInfo) : Versioned × Bool :=
  ({ m_Version := version }, true)

/-- Function `Repository::setModId`. -/
def Repository.setModId (self : Repository) (modId : QString) : Repository × Bool :=
  ({ self with m_ModId := modId }, true)

/-- Function `Repository::setVersion`. -/
def Repository.setVersion (self : Repository) (version : VersionInfo) : Repository × Bool :=
  if version ≠ self.m_Version then ({ self with m_Version := version }, true)
  else (self, false)

/-- Function `Repository::setDescription`. -/
def Repository.setDescription (self : Repository) (env : Environment)
    (description : QString) : Repository × Bool :=
  if env.qHash description ≠ env.qHash self.m_Description then
    ({ self with m_Description := description }, true)
  else (self, false)

/-- Function `Repository::ignoreUpdate`. -/
def Repository.ignoreUpdate (self : Repository) (ignore : Bool) : Repository × Bool :=
  if ignore then ({ self with m_IgnoredVersion := self.m_Version }, true)
  else ({ self with m_IgnoredVersion := self.m_IgnoredVersion.clear }, true)

/-- Function `Endorsable::setIsEndorsed`. -/
def Endorsable.setIsEndorsed (self : Endorsable) (endorsed : Bool) : Endorsable × Bool :=
  if self.m_EndorsedState ≠ EEndorsedState.ENDORSED_NEVER then
    ({ m_EndorsedState := if endorsed then EEndorsedState.ENDORSED_TRUE
                          else EEndorsedState.ENDORSED_FALSE }, true)
  else (self, false)

/-- Function `Endorsable::setNeverEndorse`. -/
def Endorsable.setNeverEndorse (_self : Endorsable) : Endorsable × Bool :=
  ({ m_EndorsedState := EEndorsedState.ENDORSED_NEVER }, true)

/-- Function `Endorsable::setEndorsedState`. -/
def Endorsable.setEndorsedState (self : Endorsable) (state : EEndorsedState) :
    Endorsable × Bool :=
  if state ≠ self.m_EndorsedState then ({ m_EndorsedState := state }, true)
  else (self, false)

/-- Function `Installed::addInstalledFile`. -/
def Installed.addInstalledFile (self : Installed) (modId fileId : Int) : Installed × Bool :=
  ({ self with m_InstalledFileIDs := pairSetInsert (modId, fileId) self.m_InstalledFileIDs },
    true)

/-- Function `Installed::setInstallationFile`. -/
def Installed.setInstallationFile (self : Installed) (fileName : QString) :
    Installed × Bool :=
  ({ self with m_InstallationFile := fileName }, true)

/-- A call of a public mutator of a feature, with its arguments. -/
inductive Mutator
  | noteSet (note : QString)
  | categorizedSet (categoryID : Int) (active : Bool)
  | categorizedSetPrimary (categoryID : Int)
  | versionedSet (version : VersionInfo)
  | repositorySetModId (modId : QString)
  | repositorySetVersion (version : VersionInfo)
  | repositorySetDescription (description : QString)
  | repositoryIgnoreUpdate (ignore : Bool)
  | endorsableSetIsEndorsed (endorsed : Bool)
  | endorsableSetNeverEndorse
  | endorsableSetEndorsedState (state : EEndorsedState)
  | installedAddInstalledFile (modId fileId : Int)
  | installedSetInstallationFile (fileName : QString)
  deriving DecidableEq, Repr

/-- A mutator call on the `Repository` base of a feature object. -/
def Feature.onRepository (change : Repository → Repository × Bool) :
    Feature → Feature × Bool
  | Feature.nexusRepository f => (Feature.nexusRepository (change f).1, (change f).2)
  | Feature.steamRepository f =>
    (Feature.steamRepository { f with base := (change f.base).1 }, (change f.base).2)
  | other => (other, false)

/-- The call `call` made on a feature object: the object after it and whether it emitted
`saveRequired`.  A call of a member function the class of the object does not have does
not exist in the code; the model leaves the object alone. -/
def Feature.mutate (env : Environment) (call : Mutator) (object : Feature) : Feature × Bool :=
  match call, object with
  | Mutator.noteSet text, Feature.note f => (Feature.note (f.set text).1, (f.set text).2)
  | Mutator.categorizedSet categoryID active, Feature.categorized f =>
    (Feature.categorized (f.set categoryID active).1, (f.set categoryID active).2)
  | Mutator.categorizedSetPrimary categoryID, Feature.categorized f =>
    (Feature.categorized (f.setPrimary categoryID).1, (f.setPrimary categoryID).2)
  | Mutator.versionedSet version, Feature.versioned f =>
    (Feature.versioned (f.set version).1, (f.set version).2)
  | Mutator.repositorySetModId modId, object =>
    object.onRepository (fun r => r.setModId modId)
  | Mutator.repositorySetVersion version, object =>
    object.onRepository (fun r => r.setVersion version)
  | Mutator.repositorySetDescription description, object =>
    object.onRepository (fun r => r.setDescription env description)
  | Mutator.repositoryIgnoreUpdate ignore, object =>
    object.onRepository (fun r => r.ignoreUpdate ignore)
  | Mutator.endorsableSetIsEndorsed endorsed, Feature.endorsable f =>
    (Feature.endorsable (f.setIsEndorsed endorsed).1, (f.setIsEndorsed endorsed).2)
  | Mutator.endorsableSetNeverEndorse, Feature.endorsable f =>
    (Feature.endorsable f.setNeverEndorse.1, f.setNeverEndorse.2)
  | Mutator.endorsableSetEndorsedState state, Feature.endorsable f =>
    (Feature.endorsable (f.setEndorsedState state).1, (f.setEndorsedState state).2)
  | Mutator.installedAddInstalledFile modId fileId, Feature.installed f =>
    (Feature.installed (f.addInstalledFile modId fileId).1,
      (f.addInstalledFile modId fileId).2)
  | Mutator.installedSetInstallationFile fileName, Feature.installed f =>
    (Feature.installed (f.setInstallationFile fileName).1,
      (f.setInstallationFile fileName).2)
  | _, other => (other, false)

/-- The call `call` made through the pointer `feature<T>()`, `kind` being `typeid(T)`.
The signal `saveRequired` of an attached object is connected, in `addFeature`, to the
slot that sets `m_MetaInfoChanged`. -/
def ModInfo.mutate (m : ModInfo) (env : Environment) (kind : FeatureKind) (call : Mutator) :
    ModInfo :=
  match mapFind kind m.m_Features with
  | some p =>
    match m.objects[p]? with
    | some object =>
      let changed := object.mutate env call
      { m with objects := m.objects.set p changed.1
               m_MetaInfoChanged := if changed.2 then true else m.m_MetaInfoChanged }
    | none => m
  | none => m

/-- Function `ModInfo::setRepoModID`. -/
def ModInfo.setRepoModID (m : ModInfo) (env : Environment) (modId : Int) : ModInfo :=
  m.mutate env FeatureKind.Repository (Mutator.repositorySetModId (number modId))

/-- A member function of the entry at position `index` of `s_Collection`, called through
a pointer to the entry. -/
def Registry.onEntry (reg : Registry) (index : Nat) (change : ModInfo → ModInfo) : Registry :=
  match reg.s_Collection[index]? with
  | some modInfo => { reg with s_Collection := reg.s_Collection.set index (change modInfo) }
  | none => reg

/-- The loop of `getByModID` over the positions stored for the id. -/
def Registry.getAll (reg : Registry) : List Nat → Except Fault (List ModInfo)
  | [] => Except.ok []
  | modIndex :: rest =>
    match reg.getByIndex modIndex with
    | Except.error fault => Except.error fault
    | Except.ok modInfo =>
      match Registry.getAll reg rest with
      | Except.error fault => Except.error fault
      | Except.ok result => Except.ok (modInfo :: result)

/-- Function `ModInfo::getByModID`. -/
def Registry.getByModID (reg : Registry) (modID : Int) : Except Fault (List ModInfo) :=
  match mapFind (number modID) reg.s_ModsByModID with
  | none => Except.ok []
  | some indices => reg.getAll indices

/-! ## Versions and repository links (`modfeatures.cpp`) -/

/-- The order `operator<` of `MOBase::VersionInfo`; `operator==` is the equality of the
record. -/
def VersionInfo.lt (a b : VersionInfo) : Bool := a.rank < b.rank

/-- Function `Versioned::get`. -/
def Versioned.get (self : Versioned) : VersionInfo := self.m_Version

/-- Function `Repository::version`. -/
def Repository.version (self : Repository) : VersionInfo := self.m_Version

/-- Function `Repository::updateAvailable`; `mod` is `mod()`.  The last case stands for a
key `Versioned` without a `Versioned` object, which `addFeature` never produces. -/
def Repository.updateAvailable (self : Repository) (mod : ModInfo) : Bool :=
  if self.m_IgnoredVersion.isValid = true ∧ self.m_IgnoredVersion = self.m_Version then false
  else if !mod.hasFeature FeatureKind.Versioned then false
  else
    match mod.feature FeatureKind.Versioned with
    | some (Feature.versioned versioned) =>
      self.m_Version.isValid && self.m_Version.lt versioned.get
    | _ => false

/-- Function `Repository::downgradeAvailable`; `mod` is `mod()`. -/
def Repository.downgradeAvailable (self : Repository) (mod : ModInfo) : Bool :=
  if self.m_IgnoredVersion.isValid = true ∧ self.m_IgnoredVersion = self.m_Version then false
  else if !mod.hasFeature FeatureKind.Versioned then false
  else
    match mod.feature FeatureKind.Versioned with
    | some (Feature.versioned versioned) =>
      self.m_Version.isValid && self.m_Version.lt versioned.get
    | _ => false

/-- Function `Repository::updateIgnored`. -/
def Repository.updateIgnored (self : Repository) : Bool :=
  self.m_IgnoredVersion = self.m_Version

/-- Function `Repository::canBeUpdated`. -/
def Repository.canBeUpdated (self : Repository) : Bool :=
  (toInt self.m_ModId).getD 0 ≥ 0

/-- Function `NexusRepository::updateInfo`: the returned value and the mod ids handed to
`NexusBridge::requestDescription`.  The test `modId() > 0` compares a `QString` with the
literal 0, which selects `QString::operator>(const char *)` with a null pointer: it holds
exactly for a text that is not empty. -/
def NexusRepository.updateInfo (self : Repository) : Bool × List Int :=
  if self.modId ≠ "" then (true, [(toInt self.modId).getD 0]) else (false, [])

/-- Function `SteamRepository::updateInfo`: the object holding the reply handle `reply` of
the request it posted, the returned value, and the ids `publishedfileids[0]` of the
requests posted. -/
def SteamRepository.updateInfo (self : SteamRepository) (reply : Nat) :
    SteamRepository × Bool × List QString :=
  ({ self with m_UpdateReply := some reply }, true, [self.base.modId])

/-- What a handler of a reply leaves: the object, whether `saveRequired` was emitted, and
the reply handles `postUpdate` gave to `deleteLater`, one for each run. -/
structure ReplyRun where
  self : SteamRepository
  emitted : Bool := false
  released : List Nat := []
  deriving DecidableEq, Repr

/-- Function `SteamRepository::postUpdate`: `m_UpdateReply->deleteLater()` and
`m_UpdateReply = nullptr`. -/
def SteamRepository.postUpdate (run : ReplyRun) : Except Fault ReplyRun :=
  match run.self.m_UpdateReply with
  | none => Except.error Fault.invalidPointer
  | some reply =>
    Except.ok { run with self := { run.self with m_UpdateReply := none }
                         released := run.released ++ [reply] }

/-- The content of a reply of the workshop as the handler of `finished` reads it. -/
inductive SteamResponse
  /-- The text does not parse. -/
  | unparsable
  /-- The field `resultcount` is not 1. -/
  | noResults
  /-- One result with its title, its description and the version
  `VersionInfo(time_updated, 0, 0)`. -/
  | details (title description : QString) (version : VersionInfo)
  deriving DecidableEq, Repr

/-- The handler `updateInfo` connects to the signal `finished` of the reply. -/
def SteamRepository.finished (self : SteamRepository) (env : Environment)
    (response : SteamResponse) : Except Fault ReplyRun :=
  match self.m_UpdateReply with
  | none => Except.error Fault.invalidPointer
  | some _ =>
    match response with
    | SteamResponse.details title description version =>
      let titled := { self with m_Title := title }
      let described := titled.base.setDescription env description
      let versioned := described.1.setVersion version
      SteamRepository.postUpdate
        { self := { titled with base := versioned.1 }
          emitted := described.2 || versioned.2 }
    | _ => SteamRepository.postUpdate { self := self }

/-- The handler `updateInfo` connects to the signal `error` of the reply: it uses the
pointer `m_ErrorReply`, deletes the reply and runs `postUpdate`. -/
def SteamRepository.error (self : SteamRepository) : Except Fault ReplyRun :=
  match self.m_ErrorReply with
  | none => Except.error Fault.invalidPointer
  | some _ => SteamRepository.postUpdate { self := self }

/-- A completion signal of a reply. -/
inductive ReplyEvent
  | finished (response : SteamResponse)
  | error
  deriving DecidableEq, Repr

/-- The handlers run for a sequence of completion signals, from the run `run` on. -/
def SteamRepository.deliver (env : Environment) : List ReplyEvent → ReplyRun →
    Except Fault ReplyRun
  | [], run => Except.ok run
  | event :: rest, run =>
    let handled :=
      match event with
      | ReplyEvent.finished response => run.self.finished env response
      | ReplyEvent.error => run.self.error
    match handled with
    | Except.error fault => Except.error fault
    | Except.ok next =>
      SteamRepository.deliver env rest
        { next with emitted := run.emitted || next.emitted
                    released := run.released ++ next.released }

/-- The handler of `finished` run on the `SteamRepository` object of the entry `m`, the
signal `saveRequired` setting `m_MetaInfoChanged`; an entry without such an object has no
reply. -/
def ModInfo.replyFinished (m : ModInfo) (env : Environment) (response : SteamResponse) :
    Except Fault ModInfo :=
  match mapFind FeatureKind.SteamRepository m.m_Features with
  | some p =>
    match m.objects[p]? with
    | some (Feature.steamRepository f) =>
      match f.finished env response with
      | Except.ok run =>
        Except.ok
          { m with objects := m.objects.set p (Feature.steamRepository run.self)
                   m_MetaInfoChanged := if run.emitted then true else m.m_MetaInfoChanged }
      | Except.error fault => Except.error fault
    | _ => Except.ok m
  | none => Except.ok m

/-- The handler of `finished` run for the entry at position `index` of `s_Collection`. -/
def Registry.replyFinished (reg : Registry) (env : Environment) (index : Nat)
    (response : SteamResponse) : Except Fault Registry :=
  match reg.s_Collection[index]? with
  | some modInfo =>
    match modInfo.replyFinished env response with
    | Except.ok changed =>
      Except.ok { reg with s_Collection := reg.s_Collection.set index changed }
    | Except.error fault => Except.error fault
  | none => Except.error Fault.invalidIndex

/-! ## The caches of an entry (`modinfo.h`, `modinfo.cpp`) -/

/-- Function `ModInfo::clearCaches`, whose body is empty. -/
def ModInfo.clearCaches (m : ModInfo) : ModInfo := m

/-- What `getContents` finds in the directory of the entry when it looks. -/
structure DirectoryListing where
  /-- Whether a file matches `*.esp` or `*.esm`. -/
  plugins : Bool := false
  /-- Whether a file matches `*.bsa`. -/
  archives : Bool := false
  /-- Whether the game has a `ScriptExtender`. -/
  extender : Bool := false
  /-- Whether the directory `<extender name>/plugins` exists. -/
  extenderPlugins : Bool := false
  textures : Bool := false
  meshes : Bool := false
  interfaceDir : Bool := false
  menus : Bool := false
  music : Bool := false
  sound : Bool := false
  scripts : Bool := false
  strings : Bool := false
  skyProcPatchers : Bool := false
  deriving DecidableEq, Repr

/-- The pushes of `getContents` onto the cleared `m_CachedContent`. -/
def DirectoryListing.contents (dir : DirectoryListing) : List EContent :=
  (if dir.plugins then [EContent.CONTENT_PLUGIN] else []) ++
  (if dir.archives then [EContent.CONTENT_BSA] else []) ++
  (if dir.extender && dir.extenderPlugins then [EContent.CONTENT_SKSE] else []) ++
  (if dir.textures then [EContent.CONTENT_TEXTURE] else []) ++
  (if dir.meshes then [EContent.CONTENT_MESH] else []) ++
  (if dir.interfaceDir || dir.menus then [EContent.CONTENT_INTERFACE] else []) ++
  (if dir.music then [EContent.CONTENT_MUSIC] else []) ++
  (if dir.sound then [EContent.CONTENT_SOUND] else []) ++
  (if dir.scripts then [EContent.CONTENT_SCRIPT] else []) ++
  (if dir.strings then [EContent.CONTENT_STRING] else []) ++
  (if dir.skyProcPatchers then [EContent.CONTENT_SKYPROC] else [])

/-- Whether `getContents` looks at the directory: `m_LastContentCheck.isNull()` or
`m_LastContentCheck.secsTo(now) > 60`. -/
def ModInfo.contentsOutdated (m : ModInfo) (now : QTime) : Bool :=
  match m.m_LastContentCheck with
  | none => true
  | some last => secsTo last now > 60

/-- Function `ModInfo::getContents`: the entry after the call and the returned list.
`now` is the clock reading taken on entry, `currentTime` the one taken after the
directory was looked at, `dir` what is in the directory. -/
def ModInfo.getContents (m : ModInfo) (dir : DirectoryListing) (now currentTime : QTime) :
    ModInfo × List EContent :=
  let m1 :=
    if m.contentsOutdated now then
      { m with m_CachedContent := dir.contents, m_LastContentCheck := some currentTime }
    else m
  (m1, m1.m_CachedContent)

/-! ## The list of executables (`executableslist.h`, `executableslist.cpp`) -/

/-- The `QFileInfo` of a file name; `exists()` is asked of the environment. -/
structure QFileInfo where
  filePath : QString := ""
  deriving DecidableEq, Repr

/-- Function `QFileInfo::exists`. -/
def QFileInfo.exists (file : QFileInfo) (env : Environment) : Bool :=
  env.fileExists file.filePath

/-- The values of the enumeration `Executable::Flag`; a set `Executable::Flags` is the
number having their bits. -/
def CustomExecutable : Nat := 0x01
def ShowInToolbar : Nat := 0x02
def CloseConfigurationDisabled : Nat := 0x04
def UseApplicationIcon : Nat := 0x08
def CloseOrganizerOnRun : Nat := 0x10
def AllFlags : Nat := 0xff

/-- The complement `~mask` of a set of flags, an `int` of 32 bits. -/
def flagsComplement (mask : Nat) : Nat := 4294967295 ^^^ (mask % 4294967296)

/-- The record `Executable`. -/
structure Executable where
  m_Title : QString
  m_BinaryInfo : QFileInfo := {}
  m_Arguments : QString := ""
  m_SteamAppID : QString := ""
  m_WorkingDirectory : QString := ""
  m_Flags : Nat := 0
  deriving DecidableEq, Repr

/-- The members of `ExecutablesList`. -/
structure ExecutablesList where
  m_Executables : List Executable := []
  deriving DecidableEq, Repr

/-- Function `ExecutablesList::find`. -/
def ExecutablesList.find (self : ExecutablesList) (title : QString) :
    Except Fault Executable :=
  match self.m_Executables.find? (fun exe => exe.m_Title == title) with
  | some exe => Except.ok exe
  | none => Except.error Fault.invalidName

/-- Function `ExecutablesList::findExe`: the position of the first executable titled
`title`, the length of the list standing for `m_Executables.end()`. -/
def ExecutablesList.findExe (self : ExecutablesList) (title : QString) : Nat :=
  self.m_Executables.findIdx (fun exe => exe.m_Title == title)

/-- Function `ExecutablesList::titleExists`. -/
def ExecutablesList.titleExists (self : ExecutablesList) (title : QString) : Bool :=
  self.m_Executables.any (fun exe => exe.m_Title == title)

/-- Function `ExecutablesList::addExecutableInternal`. -/
def ExecutablesList.addExecutableInternal (self : ExecutablesList) (title : QString)
    (file : QFileInfo) (arguments workingDirectory steamAppID : QString) (flags : Nat) :
    ExecutablesList :=
  { self with m_Executables := self.m_Executables ++
      [{ m_Title := title, m_BinaryInfo := file, m_Arguments := arguments,
         m_SteamAppID := steamAppID, m_WorkingDirectory := workingDirectory,
         m_Flags := flags }] }

/-- Function `ExecutablesList::updateExecutableInternal`.  The statement
`existingExe->m_SteamAppID == steamAppID;` compares and stores nothing. -/
def ExecutablesList.updateExecutableInternal (self : ExecutablesList) (env : Environment)
    (title executableName arguments workingDirectory steamAppID : QString)
    (flags mask : Nat) : ExecutablesList :=
  let file : QFileInfo := { filePath := executableName }
  let existingExe := self.findExe title
  let flags := flags &&& mask
  if existingExe ≠ self.m_Executables.length then
    match self.m_Executables[existingExe]? with
    | some exe =>
      let file := if !file.exists env then exe.m_BinaryInfo else file
      let exe := { exe with m_BinaryInfo := file }
      let exe := { exe with m_Arguments := arguments }
      let exe := { exe with m_WorkingDirectory := workingDirectory }
      let _compared := exe.m_SteamAppID == steamAppID
      let exe := { exe with m_Flags := exe.m_Flags &&& flagsComplement mask }
      let exe := { exe with m_Flags := exe.m_Flags ||| flags }
      { self with m_Executables := self.m_Executables.set existingExe exe }
    | none => self
  else
    self.addExecutableInternal title file arguments workingDirectory steamAppID
      (CustomExecutable ||| flags)

/-- Function `ExecutablesList::addExecutable` taking the fields. -/
def ExecutablesList.addExecutable (self : ExecutablesList) (env : Environment)
    (title executableName arguments workingDirectory steamAppID : QString) (flags : Nat) :
    ExecutablesList :=
  self.updateExecutableInternal env title executableName arguments workingDirectory
    steamAppID flags AllFlags

/-! ## Auxiliary notions for the conflict snapshot -/

/-- The ids of the origins a run of `doConflictCheck` for `origin` meets: its own id and,
for each of its files, the id of the provider and the ids of the alternatives. -/
def involvedOrigins (origin : FilesOrigin) : List Int :=
  origin.getID ::
    origin.getFiles.foldr (fun file ids => file.getOrigin :: (file.getAlternatives ++ ids)) []

/-- The position the name index gives for the origin with id `id`. -/
def originIndex (dir : DirectoryEntry) (reg : Registry) (id : Int) : Nat :=
  reg.getIndex (dir.getOriginByID id).getName

/-! ## Sample snapshots on which the definitions are run -/

/-- An entry that has no feature and the given name. -/
def plainMod (name : QString) : ModInfo := { m_Name := name }

/-- A `Conflicting` object as the constructor leaves it, in state `CONFLICT_NONE`. -/
def freshConflicting : Conflicting := { m_CurrentConflictState := EConflictType.CONFLICT_NONE }

/-- A `Conflicting` object holding an earlier result: state Mixed, computed at time 100. -/
def staleConflicting : Conflicting :=
  { m_CurrentConflictState := EConflictType.CONFLICT_MIXED
    m_LastConflictCheck := some 100
    m_OverwriteList := [3]
    m_OverwrittenList := [4, 7]
    checks := 1 }

/-- The base game origin "data", with id 0 and no file. -/
def originData : FilesOrigin := { getID := 0, getName := "data", getPriority := 0, getFiles := [] }

/-- The file `f`: provided by the origin with id 1, also available from the origin 2. -/
def fileF : FileEntry := { getOrigin := 1, getAlternatives := [2] }

/-- Origin `A`: id 1, priority 10, the single file `f`. -/
def originA : FilesOrigin := { getID := 1, getName := "A", getPriority := 10, getFiles := [fileF] }

/-- Origin `B`: id 2, priority 5, the single file `f`. -/
def originB : FilesOrigin := { getID := 2, getName := "B", getPriority := 5, getFiles := [fileF] }

/-- The overlay with the origins "data", `A` and `B`. -/
def overlayAB : DirectoryEntry where
  originExists := fun n => n == "data" || n == "A" || n == "B"
  getOriginByName := fun n => if n = "A" then originA else if n = "B" then originB else originData
  getOriginByID := fun i => if i = 1 then originA else if i = 2 then originB else originData

/-- A registry holding the entries `A` and `B` at positions 0 and 1. -/
def registryAB : Registry :=
  { s_Collection := [plainMod "A", plainMod "B"], s_ModsByName := [("A", 0), ("B", 1)] }

/-- The file `g`: provided by the origin 2, also available from the origins 3 and 1. -/
def fileG : FileEntry := { getOrigin := 2, getAlternatives := [3, 1] }

/-- Origin `C`: id 1, priority 5, the single file `g`. -/
def originC : FilesOrigin := { getID := 1, getName := "C", getPriority := 5, getFiles := [fileG] }

/-- Origin `D`: id 2, priority 10, the single file `g`. -/
def originD : FilesOrigin := { getID := 2, getName := "D", getPriority := 10, getFiles := [fileG] }

/-- Origin `E`: id 3, priority 1, the single file `g`. -/
def originE : FilesOrigin := { getID := 3, getName := "E", getPriority := 1, getFiles := [fileG] }

/-- The overlay with the origins "data", `C`, `D` and `E`. -/
def overlayCDE : DirectoryEntry where
  originExists := fun n => n == "data" || n == "C" || n == "D" || n == "E"
  getOriginByName := fun n =>
    if n = "C" then originC else if n = "D" then originD
    else if n = "E" then originE else originData
  getOriginByID := fun i =>
    if i = 1 then originC else if i = 2 then originD
    else if i = 3 then originE else originData

/-- A registry holding the entries `C`, `D` and `E` at positions 0, 1 and 2. -/
def registryCDE : Registry :=
  { s_Collection := [plainMod "C", plainMod "D", plainMod "E"]
    s_ModsByName := [("C", 0), ("D", 1), ("E", 2)] }

/-- A registry holding the entry `C` only: the origins `D` and `E` are no keys of its
name index. -/
def registryOnlyC : Registry :=
  { s_Collection := [plainMod "C"], s_ModsByName := [("C", 0)] }

/-- A disc whose data directory holds the two plugins `Patch.esm` and `Patch.esp`. -/
def discTwoPlugins : Disc := { dataPlugins := ["Patch.esm", "Patch.esp"] }

/-- A disc with the mod directories `Alpha` and `beta`. -/
def discTwoMods : Disc :=
  { modDirectories := [{ dirName := "beta", absolutePath := "C:/mods/beta" },
                       { dirName := "Alpha", absolutePath := "C:/mods/Alpha" }] }

/-- A disc with one workshop item, key 123. -/
def discWorkshop : Disc :=
  { workshopFile := WorkshopFile.parsed
      [("AppWorkshop", ACFObject.tree
        [("WorkshopItemDetails", ACFObject.tree
          [("123", ACFObject.tree [("manifest", ACFObject.string "456")])])])]
    workshopContentPath := "C:/steam/workshop/content/72850" }

/-- The registry a call of `updateFromDisc` leaves, the empty registry when it throws. -/
def refreshed (disc : Disc) (displayForeign : Bool) : Registry :=
  match ({} : Registry).updateFromDisc disc displayForeign with
  | Except.ok reg => reg
  | Except.error _ => {}

/-- The reply handler of `SteamRepository::updateInfo` storing the title it received:
`this->setTitle(details.value("title").toString())`, for the entry at position `index`. -/
def Registry.titleReceived (reg : Registry) (index : Nat) (title : QString) : Registry :=
  match reg.s_Collection[index]? with
  | some modInfo =>
    let titled := modInfo.updateFeature FeatureKind.SteamRepository (Feature.setTitle title)
    { reg with s_Collection := reg.s_Collection.set index titled }
  | none => reg

/-- The mod directory holding `Alpha` and `beta`, every rename request being granted. -/
def diskTwoMods : Disk := { entries := ["Alpha", "beta"], outcomes := [true, true, true] }

/-- The mod directory holding `Alpha` and `beta`, every rename request being refused. -/
def diskLocked : Disk := { entries := ["Alpha", "beta"], outcomes := [false, false] }

/-- The mod directory holding `Alpha` and `beta`, where the first rename request is
granted and the second is refused. -/
def diskHalfLocked : Disk := { entries := ["Alpha", "beta"], outcomes := [true, false, true] }

/-- A mod directory whose name matches the backup expression. -/
def dirBackup : QDir := { dirName := "Alpha_backup2", absolutePath := "C:/mods/Alpha_backup2" }

/-- A mod directory whose name does not match the backup expression. -/
def dirAlpha : QDir := { dirName := "Alpha", absolutePath := "C:/mods/Alpha" }

/-- The entry `createFrom` appends to the empty registry. -/
def created (dir : QDir) : ModInfo :=
  match (({} : Registry).createFrom dir).s_Collection with
  | [modInfo] => modInfo
  | _ => plainMod ""

/-- A disc with the mod directory `Alpha` and a workshop manifest that does not parse. -/
def discMalformed : Disc :=
  { modDirectories := [dirAlpha], workshopFile := WorkshopFile.malformed }

/-- The settings files on a disc where `C:/mods/Alpha/meta.ini` holds `notes = hello`. -/
def metaAlpha (path : QString) : QSettings :=
  if path = "C:/mods/Alpha/meta.ini" then { values := [("notes", QVariant.string "hello")] }
  else {}

/-- The entry made from the directory `Alpha` after `Note::set("hi")`. -/
def alphaWithNote : ModInfo :=
  (created dirAlpha).mutate {} FeatureKind.Note (Mutator.noteSet "hi")

/-- The registry after a refresh with the mods `Alpha` and `beta` and after
`setRepoModID(5)` on `Alpha`. -/
def registryIdChanged : Registry :=
  (refreshed discTwoMods true).onEntry 0 (fun m => m.setRepoModID {} 5)

/-- The registry after a refresh with the workshop item 123 and after `setRepoModID(7)` on
its entry. -/
def registryWorkshopIdChanged : Registry :=
  (refreshed discWorkshop true).onEntry 1 (fun m => m.setRepoModID {} 7)

/-- The entry made from the directory `Alpha` whose installed version has rank `rank`. -/
def alphaInstalled (rank : Nat) : ModInfo :=
  (created dirAlpha).mutate {} FeatureKind.Versioned
    (Mutator.versionedSet { isValid := true, rank := rank })

/-- A repository link whose newest version has rank `rank` and that ignores no version. -/
def linkNewest (rank : Nat) : Repository :=
  { m_ModId := "5", m_Version := { isValid := true, rank := rank } }

/-- A Nexus link with the mod id `modId`. -/
def linkWithId (modId : QString) : Repository := { m_ModId := modId }

/-- A workshop link as the constructor leaves it for the key `steamKey`. -/
def steamLink (steamKey : QString) : SteamRepository := { base := { m_ModId := steamKey } }

/-- The reply of the workshop carrying the title "Cool Mod". -/
def replyCoolMod : SteamResponse :=
  SteamResponse.details "Cool Mod" "A mod." { isValid := true, rank := 1400000000 }

/-- The registry after a refresh with the workshop item 123, whose entry is at position 1
behind `Overwrite`, and after the handler of `finished` ran for it on `response`; the
empty registry when the handler fails. -/
def registryCompleted (response : SteamResponse) : Registry :=
  match (refreshed discWorkshop true).replyFinished {} 1 response with
  | Except.ok reg => reg
  | Except.error _ => {}

/-- The executable `Launcher` with the steam application id 72850. -/
def launcher : Executable :=
  { m_Title := "Launcher", m_BinaryInfo := { filePath := "C:/game/Launcher.exe" },
    m_Arguments := "-old", m_SteamAppID := "72850", m_WorkingDirectory := "C:/game",
    m_Flags := CloseOrganizerOnRun }

/-- A list holding the executables `Skyrim` and `Launcher`. -/
def listLauncher : ExecutablesList :=
  { m_Executables :=
      [{ m_Title := "Skyrim", m_BinaryInfo := { filePath := "C:/game/TESV.exe" } }, launcher] }

/-- The entry made from the directory `Alpha` after its flags were read at time 100;
the overlay does not know it. -/
def alphaFlagsRead : ModInfo := ((created dirAlpha).flags overlayAB registryAB 100 100).1

/-- A directory holding plugins and textures. -/
def listingPluginsTextures : DirectoryListing := { plugins := true, textures := true }

/-- A directory holding meshes only. -/
def listingMeshes : DirectoryListing := { meshes := true }

/-- The entry made from the directory `Alpha` after `getContents` at time 100 on a
directory holding plugins and textures. -/
def alphaContentsRead : ModInfo :=
  ((created dirAlpha).getContents listingPluginsTextures 100 100).1

/-! ## Lemmas on `std::set` insertion and the loops of `doConflictCheck` -/

theorem mem_setInsert (a x : Nat) (s : List Nat) : a ∈ setInsert x s ↔ a = x ∨ a ∈ s := by
  induction s with
  | nil => simp [setInsert]
  | cons y ys ih =>
    unfold setInsert
    split_ifs with h1 h2
    · simp
    · subst h2
      simp
    · simp only [List.mem_cons, ih]
      tauto

theorem setInsert_ne_nil (x : Nat) (s : List Nat) : setInsert x s ≠ [] := by
  intro h
  have hx : x ∈ setInsert x s := (mem_setInsert x x s).2 (Or.inl rfl)
  rw [h] at hx
  exact List.not_mem_nil x hx

theorem checkAlternative_regular (dir : DirectoryEntry) (reg : Registry) (dataID : Int)
    (origin : FilesOrigin) (st : CheckState) (alt : Int) :
    (checkAlternative dir reg dataID origin st alt).regular = st.regular := by
  simp only [checkAlternative]
  split_ifs <;> rfl

theorem checkAlternative_overwrite (dir : DirectoryEntry) (reg : Registry) (dataID : Int)
    (origin : FilesOrigin) (st : CheckState) (alt : Int) (i : Nat) :
    i ∈ (checkAlternative dir reg dataID origin st alt).m_OverwriteList ↔
      i ∈ st.m_OverwriteList ∨
        (alt ≠ dataID ∧ alt ≠ origin.getID ∧
          origin.getPriority > (dir.getOriginByID alt).getPriority ∧
          i = reg.getIndex (dir.getOriginByID alt).getName) := by
  simp only [checkAlternative]
  split_ifs with h1 h2
  · simp only [mem_setInsert]
    tauto
  · simp only []
    tauto
  · tauto

theorem checkAlternative_overwritten (dir : DirectoryEntry) (reg : Registry) (dataID : Int)
    (origin : FilesOrigin) (st : CheckState) (alt : Int) (i : Nat) :
    i ∈ (checkAlternative dir reg dataID origin st alt).m_OverwrittenList ↔
      i ∈ st.m_OverwrittenList ∨
        (alt ≠ dataID ∧ alt ≠ origin.getID ∧
          origin.getPriority ≤ (dir.getOriginByID alt).getPriority ∧
          i = reg.getIndex (dir.getOriginByID alt).getName) := by
  simp only [checkAlternative]
  split_ifs with h1 h2
  · simp only []
    have : ¬ origin.getPriority ≤ (dir.getOriginByID alt).getPriority := not_le.mpr h2
    tauto
  · simp only [mem_setInsert]
    have : origin.getPriority ≤ (dir.getOriginByID alt).getPriority := not_lt.mp h2
    tauto
  · tauto

theorem foldl_checkAlternative_regular (dir : DirectoryEntry) (reg : Registry) (dataID : Int)
    (origin : FilesOrigin) (alts : List Int) (st : CheckState) :
    (alts.foldl (checkAlternative dir reg dataID origin) st).regular = st.regular := by
  induction alts generalizing st with
  | nil => rfl
  | cons a rest ih => rw [List.foldl_cons, ih, checkAlternative_regular]

theorem foldl_checkAlternative_overwrite (dir : DirectoryEntry) (reg : Registry)
    (dataID : Int) (origin : FilesOrigin) (alts : List Int) (st : CheckState) (i : Nat) :
    i ∈ (alts.foldl (checkAlternative dir reg dataID origin) st).m_OverwriteList ↔
      i ∈ st.m_OverwriteList ∨
        ∃ a ∈ alts, a ≠ dataID ∧ a ≠ origin.getID ∧
          origin.getPriority > (dir.getOriginByID a).getPriority ∧
          i = reg.getIndex (dir.getOriginByID a).getName := by
  induction alts generalizing st with
  | nil => simp
  | cons a rest ih =>
    rw [List.foldl_cons, ih, checkAlternative_overwrite]
    simp only [List.mem_cons, exists_eq_or_imp]
    tauto

theorem foldl_checkAlternative_overwritten (dir : DirectoryEntry) (reg : Registry)
    (dataID : Int) (origin : FilesOrigin) (alts : List Int) (st : CheckState) (i : Nat) :
    i ∈ (alts.foldl (checkAlternative dir reg dataID origin) st).m_OverwrittenList ↔
      i ∈ st.m_OverwrittenList ∨
        ∃ a ∈ alts, a ≠ dataID ∧ a ≠ origin.getID ∧
          origin.getPriority ≤ (dir.getOriginByID a).getPriority ∧
          i = reg.getIndex (dir.getOriginByID a).getName := by
  induction alts generalizing st with
  | nil => simp
  | cons a rest ih =>
    rw [List.foldl_cons, ih, checkAlternative_overwritten]
    simp only [List.mem_cons, exists_eq_or_imp]
    tauto

theorem noConflict_eq_true_iff (alternatives : List Int) (dataID : Int) :
    noConflict alternatives dataID = true ↔
      alternatives = [] ∨ alternatives.head? = some dataID := by
  cases alternatives with
  | nil => simp [noConflict]
  | cons a rest => simp [noConflict]

theorem noConflict_eq_false_iff (alternatives : List Int) (dataID : Int) :
    noConflict alternatives dataID = false ↔
      ¬ (alternatives = [] ∨ alternatives.head? = some dataID) := by
  rw [← noConflict_eq_true_iff, Bool.not_eq_true]

theorem checkFile_regular (dir : DirectoryEntry) (reg : Registry) (dataID : Int)
    (origin : FilesOrigin) (st : CheckState) (f : FileEntry) :
    (checkFile dir reg dataID origin st f).regular =
      (st.regular || noConflict f.getAlternatives dataID) := by
  simp only [checkFile]
  split_ifs with h1 h2
  · simp [h1]
  · rw [foldl_checkAlternative_regular]
    simp [h1]
  · rw [foldl_checkAlternative_regular]
    simp [h1]

theorem checkFile_overwrite (dir : DirectoryEntry) (reg : Registry) (dataID : Int)
    (origin : FilesOrigin) (st : CheckState) (f : FileEntry) (i : Nat) :
    i ∈ (checkFile dir reg dataID origin st f).m_OverwriteList ↔
      i ∈ st.m_OverwriteList ∨
        (noConflict f.getAlternatives dataID = false ∧
          ∃ a ∈ f.getAlternatives, a ≠ dataID ∧ a ≠ origin.getID ∧
            origin.getPriority > (dir.getOriginByID a).getPriority ∧
            i = reg.getIndex (dir.getOriginByID a).getName) := by
  simp only [checkFile]
  split_ifs with h1 h2
  · simp [h1]
  · rw [foldl_checkAlternative_overwrite]
    simp [h1]
  · rw [foldl_checkAlternative_overwrite]
    simp [h1]

theorem checkFile_overwritten (dir : DirectoryEntry) (reg : Registry) (dataID : Int)
    (origin : FilesOrigin) (st : CheckState) (f : FileEntry) (i : Nat) :
    i ∈ (checkFile dir reg dataID origin st f).m_OverwrittenList ↔
      i ∈ st.m_OverwrittenList ∨
        (noConflict f.getAlternatives dataID = false ∧
          ((f.getOrigin ≠ origin.getID ∧
              i = reg.getIndex (dir.getOriginByID f.getOrigin).getName) ∨
            ∃ a ∈ f.getAlternatives, a ≠ dataID ∧ a ≠ origin.getID ∧
              origin.getPriority ≤ (dir.getOriginByID a).getPriority ∧
              i = reg.getIndex (dir.getOriginByID a).getName)) := by
  simp only [checkFile]
  split_ifs with h1 h2
  · simp [h1]
  · rw [foldl_checkAlternative_overwritten]
    simp only [mem_setInsert]
    have h1f : noConflict f.getAlternatives dataID = false := by simpa using h1
    simp only [h1f, true_and]
    tauto
  · rw [foldl_checkAlternative_overwritten]
    have h1f : noConflict f.getAlternatives dataID = false := by simpa using h1
    have h2e : f.getOrigin = origin.getID := not_not.mp h2
    simp only [h1f, true_and]
    tauto

theorem foldl_checkFile_regular (dir : DirectoryEntry) (reg : Registry) (dataID : Int)
    (origin : FilesOrigin) (files : List FileEntry) (st : CheckState) :
    (files.foldl (checkFile dir reg dataID origin) st).regular = true ↔
      st.regular = true ∨ ∃ f ∈ files, noConflict f.getAlternatives dataID = true := by
  induction files generalizing st with
  | nil => simp
  | cons f rest ih =>
    rw [List.foldl_cons, ih, checkFile_regular]
    simp only [List.mem_cons, exists_eq_or_imp, Bool.or_eq_true]
    tauto

theorem foldl_checkFile_overwrite (dir : DirectoryEntry) (reg : Registry) (dataID : Int)
    (origin : FilesOrigin) (files : List FileEntry) (st : CheckState) (i : Nat) :
    i ∈ (files.foldl (checkFile dir reg dataID origin) st).m_OverwriteList ↔
      i ∈ st.m_OverwriteList ∨
        ∃ f ∈ files, noConflict f.getAlternatives dataID = false ∧
          ∃ a ∈ f.getAlternatives, a ≠ dataID ∧ a ≠ origin.getID ∧
            origin.getPriority > (dir.getOriginByID a).getPriority ∧
            i = reg.getIndex (dir.getOriginByID a).getName := by
  induction files generalizing st with
  | nil => simp
  | cons f rest ih =>
    rw [List.foldl_cons, ih, checkFile_overwrite]
    simp only [List.mem_cons, exists_eq_or_imp]
    exact or_assoc

theorem foldl_checkFile_overwritten (dir : DirectoryEntry) (reg : Registry) (dataID : Int)
    (origin : FilesOrigin) (files : List FileEntry) (st : CheckState) (i : Nat) :
    i ∈ (files.foldl (checkFile dir reg dataID origin) st).m_OverwrittenList ↔
      i ∈ st.m_OverwrittenList ∨
        ∃ f ∈ files, noConflict f.getAlternatives dataID = false ∧
          ((f.getOrigin ≠ origin.getID ∧
              i = reg.getIndex (dir.getOriginByID f.getOrigin).getName) ∨
            ∃ a ∈ f.getAlternatives, a ≠ dataID ∧ a ≠ origin.getID ∧
              origin.getPriority ≤ (dir.getOriginByID a).getPriority ∧
              i = reg.getIndex (dir.getOriginByID a).getName) := by
  induction files generalizing st with
  | nil => simp
  | cons f rest ih =>
    rw [List.foldl_cons, ih, checkFile_overwritten]
    simp only [List.mem_cons, exists_eq_or_imp]
    exact or_assoc

theorem conflictScan_of_not_exists (mod : ModInfo) (dir : DirectoryEntry) (reg : Registry)
    (h : dir.originExists mod.name = false) : conflictScan mod dir reg = {} := by
  simp [conflictScan, h]

theorem conflictScan_of_exists (mod : ModInfo) (dir : DirectoryEntry) (reg : Registry)
    (h : dir.originExists mod.name = true) :
    conflictScan mod dir reg =
      (dir.getOriginByName mod.name).getFiles.foldl
        (checkFile dir reg (dataID dir) (dir.getOriginByName mod.name)) {} := by
  simp [conflictScan, h]

theorem conflictScan_regular_iff (mod : ModInfo) (dir : DirectoryEntry) (reg : Registry) :
    (conflictScan mod dir reg).regular = true ↔
      (dir.originExists mod.name = true ∧
        ∃ f ∈ (dir.getOriginByName mod.name).getFiles,
          f.getAlternatives = [] ∨ f.getAlternatives.head? = some (dataID dir)) := by
  by_cases hN : dir.originExists mod.name = true
  · rw [conflictScan_of_exists mod dir reg hN, foldl_checkFile_regular]
    simp only [noConflict_eq_true_iff, hN, true_and]
    simp
  · have hN2 : dir.originExists mod.name = false := by simpa using hN
    rw [conflictScan_of_not_exists mod dir reg hN2]
    simp [hN2]

theorem conflictScan_overwrite_iff (mod : ModInfo) (dir : DirectoryEntry) (reg : Registry)
    (hN : dir.originExists mod.name = true) (i : Nat) :
    i ∈ (conflictScan mod dir reg).m_OverwriteList ↔
      ∃ f ∈ (dir.getOriginByName mod.name).getFiles,
        ¬ (f.getAlternatives = [] ∨ f.getAlternatives.head? = some (dataID dir)) ∧
        ∃ a ∈ f.getAlternatives, a ≠ dataID dir ∧ a ≠ (dir.getOriginByName mod.name).getID ∧
          (dir.getOriginByName mod.name).getPriority > (dir.getOriginByID a).getPriority ∧
          i = reg.getIndex (dir.getOriginByID a).getName := by
  rw [conflictScan_of_exists mod dir reg hN, foldl_checkFile_overwrite]
  simp only [noConflict_eq_false_iff]
  constructor
  · rintro (h | h)
    · exact absurd h (List.not_mem_nil i)
    · exact h
  · intro h
    exact Or.inr h

theorem conflictScan_overwritten_iff (mod : ModInfo) (dir : DirectoryEntry) (reg : Registry)
    (hN : dir.originExists mod.name = true) (i : Nat) :
    i ∈ (conflictScan mod dir reg).m_OverwrittenList ↔
      ∃ f ∈ (dir.getOriginByName mod.name).getFiles,
        ¬ (f.getAlternatives = [] ∨ f.getAlternatives.head? = some (dataID dir)) ∧
        ((f.getOrigin ≠ (dir.getOriginByName mod.name).getID ∧
            i = reg.getIndex (dir.getOriginByID f.getOrigin).getName) ∨
          ∃ a ∈ f.getAlternatives, a ≠ dataID dir ∧
            a ≠ (dir.getOriginByName mod.name).getID ∧
            (dir.getOriginByName mod.name).getPriority ≤ (dir.getOriginByID a).getPriority ∧
            i = reg.getIndex (dir.getOriginByID a).getName) := by
  rw [conflictScan_of_exists mod dir reg hN, foldl_checkFile_overwritten]
  simp only [noConflict_eq_false_iff]
  constructor
  · rintro (h | h)
    · exact absurd h (List.not_mem_nil i)
    · exact h
  · intro h
    exact Or.inr h

/-! ## Conflict classification: the claims -/

/-- C1: after `doConflictCheck` the recorded state is Mixed iff both lists are non-empty,
Overwrite iff only the overwrite list is non-empty, None iff both are empty; when only the
overwritten list is non-empty it is Redundant if no regular file was seen (no file of the
origin has an empty alternative list or the data origin as first alternative) and
Overwritten otherwise. -/
theorem doConflictCheck_state (self : Conflicting) (mod : ModInfo) (dir : DirectoryEntry)
    (reg : Registry) (currentTime : QTime) :
    let r := self.doConflictCheck mod dir reg currentTime
    let sawUnconflictedFile := dir.originExists mod.name = true ∧
      ∃ f ∈ (dir.getOriginByName mod.name).getFiles,
        f.getAlternatives = [] ∨ f.getAlternatives.head? = some (dataID dir)
    (r.m_CurrentConflictState = EConflictType.CONFLICT_MIXED ↔
        r.m_OverwriteList ≠ [] ∧ r.m_OverwrittenList ≠ []) ∧
      (r.m_CurrentConflictState = EConflictType.CONFLICT_OVERWRITE ↔
        r.m_OverwriteList ≠ [] ∧ r.m_OverwrittenList = []) ∧
      (r.m_CurrentConflictState = EConflictType.CONFLICT_NONE ↔
        r.m_OverwriteList = [] ∧ r.m_OverwrittenList = []) ∧
      (r.m_CurrentConflictState = EConflictType.CONFLICT_REDUNDANT ↔
        r.m_OverwriteList = [] ∧ r.m_OverwrittenList ≠ [] ∧ ¬ sawUnconflictedFile) ∧
      (r.m_CurrentConflictState = EConflictType.CONFLICT_OVERWRITTEN ↔
        r.m_OverwriteList = [] ∧ r.m_OverwrittenList ≠ [] ∧ sawUnconflictedFile) := by
  intro r sawUnconflictedFile
  have hreg : (conflictScan mod dir reg).regular = true ↔ sawUnconflictedFile :=
    conflictScan_regular_iff mod dir reg
  have hst : r.m_CurrentConflictState = classify (conflictScan mod dir reg) := rfl
  have how : r.m_OverwriteList = (conflictScan mod dir reg).m_OverwriteList := rfl
  have howb : r.m_OverwrittenList = (conflictScan mod dir reg).m_OverwrittenList := rfl
  rw [hst, how, howb, ← hreg]
  generalize conflictScan mod dir reg = st
  unfold classify
  by_cases h1 : st.m_OverwriteList = [] <;> by_cases h2 : st.m_OverwrittenList = [] <;>
    cases h3 : st.regular <;> simp [h1, h2, h3]

/-- C2: for an entry whose origin exists in the overlay, `doConflictCheck` computes exactly
these lists, a file being regular when its alternative list is empty or its first
alternative is the data origin: the overwrite list holds the indices of the alternatives
`a` of the non-regular files with `a` not the data origin, `a` not the own origin and the
own priority greater than the one of `a`; the overwritten list holds the indices of the
providers of the non-regular files that are not the own origin, and the indices of the
alternatives `a` with `a` not the data origin, `a` not the own origin and the own priority
at most the one of `a`. -/
theorem doConflictCheck_lists (self : Conflicting) (mod : ModInfo) (dir : DirectoryEntry)
    (reg : Registry) (currentTime : QTime)
    (hN : dir.originExists mod.name = true) (i : Nat) :
    let origin := dir.getOriginByName mod.name
    let r := self.doConflictCheck mod dir reg currentTime
    (i ∈ r.m_OverwriteList ↔
        ∃ f ∈ origin.getFiles,
          ¬ (f.getAlternatives = [] ∨ f.getAlternatives.head? = some (dataID dir)) ∧
          ∃ a ∈ f.getAlternatives, a ≠ dataID dir ∧ a ≠ origin.getID ∧
            origin.getPriority > (dir.getOriginByID a).getPriority ∧
            i = reg.getIndex (dir.getOriginByID a).getName) ∧
      (i ∈ r.m_OverwrittenList ↔
        ∃ f ∈ origin.getFiles,
          ¬ (f.getAlternatives = [] ∨ f.getAlternatives.head? = some (dataID dir)) ∧
          ((f.getOrigin ≠ origin.getID ∧
              i = reg.getIndex (dir.getOriginByID f.getOrigin).getName) ∨
            ∃ a ∈ f.getAlternatives, a ≠ dataID dir ∧ a ≠ origin.getID ∧
              origin.getPriority ≤ (dir.getOriginByID a).getPriority ∧
              i = reg.getIndex (dir.getOriginByID a).getName)) := by
  intro origin r
  have how : r.m_OverwriteList = (conflictScan mod dir reg).m_OverwriteList := rfl
  have howb : r.m_OverwrittenList = (conflictScan mod dir reg).m_OverwrittenList := rfl
  rw [how, howb]
  exact ⟨conflictScan_overwrite_iff mod dir reg hN i,
    conflictScan_overwritten_iff mod dir reg hN i⟩

/-- Witness of C2: entry `A` of the sample overlay. -/
theorem doConflictCheck_lists_witness :
    overlayAB.originExists (plainMod "A").name = true ∧
      (1 ∈ (freshConflicting.doConflictCheck (plainMod "A") overlayAB registryAB 0).m_OverwriteList ↔
        ∃ f ∈ (overlayAB.getOriginByName (plainMod "A").name).getFiles,
          ¬ (f.getAlternatives = [] ∨ f.getAlternatives.head? = some (dataID overlayAB)) ∧
          ∃ a ∈ f.getAlternatives, a ≠ dataID overlayAB ∧
            a ≠ (overlayAB.getOriginByName (plainMod "A").name).getID ∧
            (overlayAB.getOriginByName (plainMod "A").name).getPriority >
              (overlayAB.getOriginByID a).getPriority ∧
            1 = registryAB.getIndex (overlayAB.getOriginByID a).getName) :=
  ⟨by decide,
    (doConflictCheck_lists freshConflicting (plainMod "A") overlayAB registryAB 0
      (by decide) 1).1⟩

/-- C3 fails as stated: in the sample overlay origin `A` (priority 10) and origin `B`
(priority 5) both have the single file `f`, the data origin does not provide `f`, the
provider of `f` is `A`; classifying `B` yields state Redundant, not Overwritten. -/
theorem scenarioAB_B_not_overwritten :
    overlayAB.originExists (plainMod "A").name = true ∧
      overlayAB.getOriginByName (plainMod "A").name = originA ∧
      overlayAB.originExists (plainMod "B").name = true ∧
      overlayAB.getOriginByName (plainMod "B").name = originB ∧
      originA.getPriority = 10 ∧ originB.getPriority = 5 ∧
      originA.getFiles = [fileF] ∧ originB.getFiles = [fileF] ∧
      fileF.getOrigin = originA.getID ∧ fileF.getAlternatives = [originB.getID] ∧
      dataID overlayAB ≠ originA.getID ∧ dataID overlayAB ≠ originB.getID ∧
      (freshConflicting.doConflictCheck (plainMod "B") overlayAB registryAB 0).m_CurrentConflictState
        = EConflictType.CONFLICT_REDUNDANT ∧
      (freshConflicting.doConflictCheck (plainMod "B") overlayAB registryAB 0).m_CurrentConflictState
        ≠ EConflictType.CONFLICT_OVERWRITTEN := by
  decide

/-- C3 as amended: when origin `A` (priority 10) and origin `B` (priority 5) both have the
single file `f`, whose provider is `A` and whose only alternative is `B`, and `B` is not
the data origin, classifying `A` gives state Overwrite with the overwrite list holding
exactly the index of `B`, and classifying `B` gives state Redundant (every file of `B` is
overridden) with the overwritten list holding exactly the index of `A`. -/
theorem scenarioAB_classification (dir : DirectoryEntry) (reg : Registry)
    (modA modB : ModInfo) (A B : FilesOrigin) (f : FileEntry) (cA cB : Conflicting)
    (tA tB : QTime)
    (hA : dir.originExists modA.name = true) (hAo : dir.getOriginByName modA.name = A)
    (hB : dir.originExists modB.name = true) (hBo : dir.getOriginByName modB.name = B)
    (hidA : dir.getOriginByID A.getID = A) (hidB : dir.getOriginByID B.getID = B)
    (hpA : A.getPriority = 10) (hpB : B.getPriority = 5)
    (hfA : A.getFiles = [f]) (hfB : B.getFiles = [f])
    (hprov : f.getOrigin = A.getID) (halts : f.getAlternatives = [B.getID])
    (hAB : A.getID ≠ B.getID) (hdB : B.getID ≠ dataID dir) :
    (cA.doConflictCheck modA dir reg tA).m_CurrentConflictState
        = EConflictType.CONFLICT_OVERWRITE ∧
      (cA.doConflictCheck modA dir reg tA).m_OverwriteList = [reg.getIndex B.getName] ∧
      (cA.doConflictCheck modA dir reg tA).m_OverwrittenList = [] ∧
      (cB.doConflictCheck modB dir reg tB).m_CurrentConflictState
        = EConflictType.CONFLICT_REDUNDANT ∧
      (cB.doConflictCheck modB dir reg tB).m_OverwrittenList = [reg.getIndex A.getName] ∧
      (cB.doConflictCheck modB dir reg tB).m_OverwriteList = [] := by
  have hscanA : conflictScan modA dir reg =
      { m_OverwriteList := [reg.getIndex B.getName], m_OverwrittenList := [],
        regular := false } := by
    rw [conflictScan_of_exists modA dir reg hA, hAo, hfA]
    simp [checkFile, checkAlternative, noConflict, halts, hprov, hdB, hidB, hpA, hpB,
      Ne.symm hAB, setInsert]
  have hscanB : conflictScan modB dir reg =
      { m_OverwriteList := [], m_OverwrittenList := [reg.getIndex A.getName],
        regular := false } := by
    rw [conflictScan_of_exists modB dir reg hB, hBo, hfB]
    simp [checkFile, checkAlternative, noConflict, halts, hprov, hdB, hidA, hAB, setInsert]
  simp [Conflicting.doConflictCheck, hscanA, hscanB, classify]

/-- Witness of the amended C3: the sample overlay with the origins `A` and `B`. -/
theorem scenarioAB_classification_witness :
    (freshConflicting.doConflictCheck (plainMod "A") overlayAB registryAB 0).m_CurrentConflictState
        = EConflictType.CONFLICT_OVERWRITE ∧
      (freshConflicting.doConflictCheck (plainMod "A") overlayAB registryAB 0).m_OverwriteList
        = [registryAB.getIndex originB.getName] ∧
      (freshConflicting.doConflictCheck (plainMod "A") overlayAB registryAB 0).m_OverwrittenList
        = [] ∧
      (freshConflicting.doConflictCheck (plainMod "B") overlayAB registryAB 0).m_CurrentConflictState
        = EConflictType.CONFLICT_REDUNDANT ∧
      (freshConflicting.doConflictCheck (plainMod "B") overlayAB registryAB 0).m_OverwrittenList
        = [registryAB.getIndex originA.getName] ∧
      (freshConflicting.doConflictCheck (plainMod "B") overlayAB registryAB 0).m_OverwriteList
        = [] :=
  scenarioAB_classification overlayAB registryAB (plainMod "A") (plainMod "B") originA originB
    fileF freshConflicting freshConflicting 0 0 (by decide) (by decide) (by decide) (by decide)
    (by decide) (by decide) (by decide) (by decide) (by decide) (by decide) (by decide)
    (by decide) (by decide) (by decide)

/-- C4 fails as stated: in the sample overlay origin `C` has one file, that file is
provided with higher priority by the mod origin `D` and `C` has no regular file, yet
classifying `C` yields Mixed, because the file is also available from `E` whose priority
is lower than the one of `C`. -/
theorem scenarioCDE_C_not_redundant :
    overlayCDE.originExists (plainMod "C").name = true ∧
      (overlayCDE.getOriginByName (plainMod "C").name).getFiles ≠ [] ∧
      (∀ f ∈ (overlayCDE.getOriginByName (plainMod "C").name).getFiles,
        ¬ (f.getAlternatives = [] ∨ f.getAlternatives.head? = some (dataID overlayCDE)) ∧
        (f.getOrigin = originD.getID ∨ originD.getID ∈ f.getAlternatives)) ∧
      originD.getID ≠ dataID overlayCDE ∧
      originD.getID ≠ (overlayCDE.getOriginByName (plainMod "C").name).getID ∧
      (overlayCDE.getOriginByID originD.getID).getPriority >
        (overlayCDE.getOriginByName (plainMod "C").name).getPriority ∧
      (freshConflicting.doConflictCheck (plainMod "C") overlayCDE registryCDE 0).m_CurrentConflictState
        = EConflictType.CONFLICT_MIXED ∧
      (freshConflicting.doConflictCheck (plainMod "C") overlayCDE registryCDE 0).m_CurrentConflictState
        ≠ EConflictType.CONFLICT_REDUNDANT := by
  decide

/-- C4 as amended: when origin `C` has at least one file, every file of `C` is also
provided (as provider or as alternative) by another mod origin `D` of higher priority, `C`
has no regular file, and no file of `C` has an alternative mod origin whose priority is
lower than the one of `C`, classifying `C` yields state Redundant. -/
theorem redundant_when_all_files_overridden (self : Conflicting) (mod : ModInfo)
    (dir : DirectoryEntry) (reg : Registry) (currentTime : QTime) (D : Int)
    (hN : dir.originExists mod.name = true)
    (hfiles : (dir.getOriginByName mod.name).getFiles ≠ [])
    (hD : ∀ f ∈ (dir.getOriginByName mod.name).getFiles,
      ¬ (f.getAlternatives = [] ∨ f.getAlternatives.head? = some (dataID dir)) ∧
      (f.getOrigin = D ∨ D ∈ f.getAlternatives))
    (hDdata : D ≠ dataID dir) (hDC : D ≠ (dir.getOriginByName mod.name).getID)
    (hprio : (dir.getOriginByID D).getPriority > (dir.getOriginByName mod.name).getPriority)
    (hlow : ∀ f ∈ (dir.getOriginByName mod.name).getFiles, ∀ a ∈ f.getAlternatives,
      a ≠ dataID dir → a ≠ (dir.getOriginByName mod.name).getID →
        (dir.getOriginByName mod.name).getPriority ≤ (dir.getOriginByID a).getPriority) :
    (self.doConflictCheck mod dir reg currentTime).m_CurrentConflictState
      = EConflictType.CONFLICT_REDUNDANT := by
  have how : (conflictScan mod dir reg).m_OverwriteList = [] := by
    rw [List.eq_nil_iff_forall_not_mem]
    intro i hi
    obtain ⟨f, hf, _, a, ha, h1, h2, h3, _⟩ := (conflictScan_overwrite_iff mod dir reg hN i).1 hi
    exact absurd (hlow f hf a ha h1 h2) (not_le.mpr h3)
  have howb : (conflictScan mod dir reg).m_OverwrittenList ≠ [] := by
    obtain ⟨f, rest, hf⟩ := List.exists_cons_of_ne_nil hfiles
    have hfm : f ∈ (dir.getOriginByName mod.name).getFiles := by simp [hf]
    have hmem : reg.getIndex (dir.getOriginByID D).getName ∈
        (conflictScan mod dir reg).m_OverwrittenList := by
      rw [conflictScan_overwritten_iff mod dir reg hN]
      refine ⟨f, hfm, (hD f hfm).1, ?_⟩
      rcases (hD f hfm).2 with h | h
      · exact Or.inl ⟨by rw [h]; exact hDC, by rw [h]⟩
      · exact Or.inr ⟨D, h, hDdata, hDC, le_of_lt hprio, rfl⟩
    exact List.ne_nil_of_mem hmem
  have hreg : (conflictScan mod dir reg).regular = false := by
    rw [← Bool.not_eq_true, conflictScan_regular_iff]
    rintro ⟨_, f, hf, h⟩
    exact (hD f hf).1 h
  show classify (conflictScan mod dir reg) = EConflictType.CONFLICT_REDUNDANT
  simp [classify, how, howb, hreg]

/-- Witness of the amended C4: entry `B` of the sample overlay, all of whose files are
provided by `A`. -/
theorem redundant_when_all_files_overridden_witness :
    (freshConflicting.doConflictCheck (plainMod "B") overlayAB registryAB 0).m_CurrentConflictState
      = EConflictType.CONFLICT_REDUNDANT :=
  redundant_when_all_files_overridden freshConflicting (plainMod "B") overlayAB registryAB 0 1
    (by decide) (by decide) (by decide) (by decide) (by decide) (by decide) (by decide)

/-- C5: for an entry whose name is not the name of an origin of the overlay,
`doConflictCheck` yields state None and empty overwrite and overwritten lists, whatever
the object held before the call. -/
theorem doConflictCheck_unknown_origin (self : Conflicting) (mod : ModInfo)
    (dir : DirectoryEntry) (reg : Registry) (currentTime : QTime)
    (hN : dir.originExists mod.name = false) :
    (self.doConflictCheck mod dir reg currentTime).m_CurrentConflictState
        = EConflictType.CONFLICT_NONE ∧
      (self.doConflictCheck mod dir reg currentTime).m_OverwriteList = [] ∧
      (self.doConflictCheck mod dir reg currentTime).m_OverwrittenList = [] := by
  have hscan : conflictScan mod dir reg = {} := conflictScan_of_not_exists mod dir reg hN
  have hstate : classify ({} : CheckState) = EConflictType.CONFLICT_NONE := by
    simp [classify]
  refine ⟨?_, ?_, ?_⟩
  · show classify (conflictScan mod dir reg) = EConflictType.CONFLICT_NONE
    rw [hscan, hstate]
  · show (conflictScan mod dir reg).m_OverwriteList = []
    rw [hscan]
  · show (conflictScan mod dir reg).m_OverwrittenList = []
    rw [hscan]

/-- Witness of C5: an entry named "Z" in the sample overlay, starting from an object that
holds state Mixed and non-empty lists. -/
theorem doConflictCheck_unknown_origin_witness :
    overlayAB.originExists (plainMod "Z").name = false ∧
      (staleConflicting.doConflictCheck (plainMod "Z") overlayAB registryAB 0).m_CurrentConflictState
        = EConflictType.CONFLICT_NONE ∧
      (staleConflicting.doConflictCheck (plainMod "Z") overlayAB registryAB 0).m_OverwriteList
        = [] ∧
      (staleConflicting.doConflictCheck (plainMod "Z") overlayAB registryAB 0).m_OverwrittenList
        = [] :=
  ⟨by decide,
    doConflictCheck_unknown_origin staleConflicting (plainMod "Z") overlayAB registryAB 0
      (by decide)⟩

/-- C7: after `clearCaches` the next read of the conflict state runs `doConflictCheck`
once before returning, at every time of the read, and returns the state that run
computed. -/
theorem isConflicted_after_clearCaches (self : Conflicting) (mod : ModInfo)
    (dir : DirectoryEntry) (reg : Registry) (now currentTime : QTime) :
    self.clearCaches.isConflicted mod dir reg now currentTime =
        (self.clearCaches.doConflictCheck mod dir reg currentTime,
          classify (conflictScan mod dir reg)) ∧
      (self.clearCaches.isConflicted mod dir reg now currentTime).1.checks = self.checks + 1 ∧
      (self.clearCaches.flags mod dir reg now currentTime).1.checks = self.checks + 1 := by
  have h : self.clearCaches.isConflicted mod dir reg now currentTime =
      (self.clearCaches.doConflictCheck mod dir reg currentTime,
        classify (conflictScan mod dir reg)) := by
    simp [Conflicting.isConflicted, Conflicting.clearCaches, Conflicting.doConflictCheck]
  refine ⟨h, by rw [h]; rfl, ?_⟩
  simp only [Conflicting.flags, h]
  cases classify (conflictScan mod dir reg) <;> rfl

/-! ## Lemmas on `std::map` and on `updateIndices` -/

theorem mapFind_mapSet {κ α : Type} [DecidableEq κ] (k n : κ) (v : α) (m : List (κ × α)) :
    mapFind n (mapSet k v m) = if k = n then some v else mapFind n m := by
  induction m with
  | nil => simp [mapSet, mapFind]
  | cons e rest ih =>
    obtain ⟨k', v'⟩ := e
    by_cases h1 : k' = k
    · subst h1
      by_cases h2 : k' = n <;> simp [mapSet, mapFind, h2]
    · by_cases h2 : k' = n
      · have h3 : ¬ k = n := fun h => h1 (h2.trans h.symm)
        rw [if_neg h3]
        simp only [mapSet, if_neg h1, mapFind, if_pos h2]
      · simp only [mapSet, if_neg h1, mapFind, if_neg h2, ih]

theorem mapFind_mapErase_self {κ α : Type} [DecidableEq κ] (k : κ) (m : List (κ × α)) :
    mapFind k (mapErase k m) = none := by
  induction m with
  | nil => simp [mapErase, mapFind]
  | cons e rest ih =>
    obtain ⟨k', v'⟩ := e
    by_cases h1 : k' = k
    · simp only [mapErase, if_pos h1, ih]
    · simp only [mapErase, if_neg h1, mapFind, ih]

theorem mapFind_mapErase_of_ne {κ α : Type} [DecidableEq κ] (k n : κ) (m : List (κ × α))
    (h : k ≠ n) : mapFind n (mapErase k m) = mapFind n m := by
  induction m with
  | nil => simp [mapErase, mapFind]
  | cons e rest ih =>
    obtain ⟨k', v'⟩ := e
    by_cases h1 : k' = k
    · have h2 : ¬ k' = n := fun h3 => h (h1.symm.trans h3)
      simp only [mapErase, if_pos h1, mapFind, if_neg h2, ih]
    · by_cases h2 : k' = n
      · simp only [mapErase, if_neg h1, mapFind, if_pos h2]
      · simp only [mapErase, if_neg h1, mapFind, if_neg h2, ih]

theorem updateIndicesFrom_find (n : QString) (l : List ModInfo) (i : Nat)
    (byName : List (QString × Nat)) (byModID : List (QString × List Nat)) :
    mapFind n (updateIndicesFrom l i byName byModID).1 =
      match lastNamed n l i with
      | some k => some k
      | none => mapFind n byName := by
  induction l generalizing i byName byModID with
  | nil => simp [updateIndicesFrom, lastNamed]
  | cons m rest ih =>
    simp only [updateIndicesFrom, lastNamed]
    rw [ih]
    cases h : lastNamed n rest (i + 1) with
    | some k => simp
    | none =>
      simp only [mapFind_mapSet]
      by_cases h2 : m.internalName = n
      · simp [h2]
      · simp [h2, mapFind]

theorem lastNamed_none (n : QString) (l : List ModInfo) (i : Nat)
    (h : lastNamed n l i = none) : ∀ m ∈ l, m.internalName ≠ n := by
  induction l generalizing i with
  | nil => simp
  | cons m rest ih =>
    simp only [lastNamed] at h
    cases h1 : lastNamed n rest (i + 1) with
    | some k => simp [h1] at h
    | none =>
      simp only [h1] at h
      intro m' hm'
      rcases List.mem_cons.1 hm' with h2 | h2
      · subst h2
        intro h3
        simp [h3] at h
      · exact ih (i + 1) h1 m' h2

theorem lastNamed_some (n : QString) (l : List ModInfo) (i k : Nat)
    (h : lastNamed n l i = some k) :
    ∃ j m, k = i + j ∧ l[j]? = some m ∧ m.internalName = n ∧
      ∀ j' m', l[j']? = some m' → m'.internalName = n → j' ≤ j := by
  induction l generalizing i with
  | nil => simp [lastNamed] at h
  | cons m rest ih =>
    simp only [lastNamed] at h
    cases h1 : lastNamed n rest (i + 1) with
    | some k' =>
      simp only [h1, Option.some.injEq] at h
      subst h
      obtain ⟨j, m1, hk, hget, hname, hlast⟩ := ih (i + 1) h1
      refine ⟨j + 1, m1, by omega, by simpa using hget, hname, ?_⟩
      intro j' m' hget' hname'
      cases j' with
      | zero => omega
      | succ j'' =>
        have := hlast j'' m' (by simpa using hget') hname'
        omega
    | none =>
      simp only [h1] at h
      by_cases h2 : m.internalName = n
      · simp only [h2, if_true, Option.some.injEq] at h
        subst h
        refine ⟨0, m, by omega, by simp, h2, ?_⟩
        intro j' m' hget' hname'
        cases j' with
        | zero => omega
        | succ j'' =>
          have hmem : m' ∈ rest := List.getElem?_mem (by simpa using hget')
          exact absurd hname' (lastNamed_none n rest (i + 1) h1 m' hmem)
      · simp [h2] at h

theorem updateIndices_collection (reg : Registry) :
    reg.updateIndices.s_Collection = reg.s_Collection := rfl

theorem updateIndices_find (reg : Registry) (n : QString) :
    mapFind n reg.updateIndices.s_ModsByName = lastNamed n reg.s_Collection 0 := by
  show mapFind n (updateIndicesFrom reg.s_Collection 0 [] []).1 = _
  rw [updateIndicesFrom_find]
  cases lastNamed n reg.s_Collection 0 <;> rfl

/-- After `updateIndices` every key of the name index is mapped to the last position that
holds an entry with this internal name. -/
theorem updateIndices_find_some (reg : Registry) (n : QString) (k : Nat)
    (h : mapFind n reg.updateIndices.s_ModsByName = some k) :
    ∃ m, reg.updateIndices.s_Collection[k]? = some m ∧ m.internalName = n ∧
      ∀ j m', reg.updateIndices.s_Collection[j]? = some m' → m'.internalName = n → j ≤ k := by
  rw [updateIndices_find] at h
  obtain ⟨j, m, hk, hget, hname, hlast⟩ := lastNamed_some n reg.s_Collection 0 k h
  have hkj : k = j := by omega
  subst hkj
  exact ⟨m, hget, hname, hlast⟩

/-- After `updateIndices` the internal name of every entry is a key of the name index. -/
theorem updateIndices_find_entry (reg : Registry) (j : Nat) (m : ModInfo)
    (h : reg.updateIndices.s_Collection[j]? = some m) :
    ∃ k, mapFind m.internalName reg.updateIndices.s_ModsByName = some k := by
  rw [updateIndices_find]
  cases hl : lastNamed m.internalName reg.s_Collection 0 with
  | some k => exact ⟨k, rfl⟩
  | none =>
    have hmem : m ∈ reg.s_Collection := List.getElem?_mem h
    exact absurd rfl (lastNamed_none m.internalName reg.s_Collection 0 hl m hmem)

theorem updateFromDisc_ok (reg : Registry) (disc : Disc) (displayForeign : Bool)
    (reg' : Registry) (h : reg.updateFromDisc disc displayForeign = Except.ok reg') :
    ∃ built : Registry, reg' = built.updateIndices := by
  unfold Registry.updateFromDisc at h
  cases hw : disc.workshopFile with
  | missing =>
    simp only [hw] at h
    exact ⟨_, (Except.ok.inj h).symm⟩
  | malformed =>
    simp only [hw] at h
    exact absurd h (by simp)
  | parsed tree =>
    simp only [hw] at h
    exact ⟨_, (Except.ok.inj h).symm⟩

theorem getByIndex_eq_ok (reg : Registry) (i : Nat) (m : ModInfo) :
    reg.getByIndex i = Except.ok m ↔ reg.s_Collection[i]? = some m := by
  unfold Registry.getByIndex
  cases h : reg.s_Collection[i]? with
  | none => simp
  | some m' =>
    simp only [Option.some.injEq]
    constructor
    · intro h1
      exact Except.ok.inj h1
    · intro h1
      rw [h1]

theorem getIndex_of_find (reg : Registry) (n : QString) (k : Nat)
    (h : mapFind n reg.s_ModsByName = some k) : reg.getIndex n = k := by
  simp [Registry.getIndex, h]

theorem getIndex_of_not_find (reg : Registry) (n : QString)
    (h : mapFind n reg.s_ModsByName = none) : reg.getIndex n = UINT_MAX := by
  simp [Registry.getIndex, h]

/-! ## Lemmas on `removeMod` and on the loop of `setName` -/

/-- When `name()` of the entry at `index` is a key of the name index, `removeMod` returns
true, erases the entry from the sequence and leaves a name index each key of which is
mapped to a position that holds an entry with this internal name, whatever the outcome of
the physical deletion. -/
theorem removeMod_of_indexed (reg : Registry) (index : Nat) (deleted : Bool) (m : ModInfo)
    (k : Nat) (hget : reg.s_Collection[index]? = some m)
    (hfind : mapFind m.name reg.s_ModsByName = some k) :
    ∃ reg', reg.removeMod index deleted = Except.ok (true, reg') ∧
      reg'.s_Collection = reg.s_Collection.eraseIdx index ∧
      reg'.getNumMods + 1 = reg.getNumMods ∧
      ∀ n j, mapFind n reg'.s_ModsByName = some j →
        ∃ m', reg'.s_Collection[j]? = some m' ∧ m'.internalName = n := by
  have hlt : index < reg.s_Collection.length := by
    by_contra hge
    rw [List.getElem?_eq_none (not_lt.mp hge)] at hget
    exact absurd hget (by simp)
  refine ⟨_, by simp only [Registry.removeMod, hget, hfind]; rfl, rfl, ?_, ?_⟩
  · simp only [Registry.getNumMods, updateIndices_collection, List.length_eraseIdx, hlt,
      if_true]
    omega
  · intro n j hj
    obtain ⟨m', hm', hname, _⟩ := updateIndices_find_some _ n j hj
    exact ⟨m', hm', hname⟩

theorem filter_length_le (t : Nat) (l : List QString) :
    (l.filter (fun e => decide (t + 1 ≤ e.length))).length ≤
      (l.filter (fun e => decide (t ≤ e.length))).length := by
  induction l with
  | nil => simp
  | cons e rest ih =>
    by_cases h1 : t + 1 ≤ e.length
    · have h2 : t ≤ e.length := by omega
      simp only [List.filter_cons, h1, h2, decide_True, if_true, List.length_cons]
      omega
    · by_cases h2 : t ≤ e.length
      · simp only [List.filter_cons, h1, h2, decide_True, decide_False, if_true,
          List.length_cons]
        simp only [Bool.false_eq_true, if_false]
        omega
      · simp only [List.filter_cons, h1, h2, decide_False]
        simp only [Bool.false_eq_true, if_false]
        exact ih

theorem filter_length_lt (t : QString) (l : List QString) (h : t ∈ l) :
    (l.filter (fun e => decide (t.length + 1 ≤ e.length))).length <
      (l.filter (fun e => decide (t.length ≤ e.length))).length := by
  induction l with
  | nil => simp at h
  | cons e rest ih =>
    rcases List.mem_cons.1 h with h1 | h1
    · subst h1
      have h2 : ¬ t.length + 1 ≤ t.length := by omega
      have h3 := filter_length_le t.length rest
      simp only [List.filter_cons, h2, decide_False, le_refl, decide_True, if_true,
        List.length_cons]
      simp only [Bool.false_eq_true, if_false]
      omega
    · have h3 := ih h1
      by_cases h4 : t.length + 1 ≤ e.length
      · have h5 : t.length ≤ e.length := by omega
        simp only [List.filter_cons, h4, h5, decide_True, if_true, List.length_cons]
        omega
      · by_cases h5 : t.length ≤ e.length
        · simp only [List.filter_cons, h4, h5, decide_True, decide_False, if_true,
            List.length_cons]
          simp only [Bool.false_eq_true, if_false]
          omega
        · simp only [List.filter_cons, h4, h5, decide_False]
          simp only [Bool.false_eq_true, if_false]
          exact h3

theorem freeTempName_fresh_of_fuel (modDir : Disk) (fuel : Nat) (tempName : QString)
    (h : (modDir.entries.filter (fun e => decide (tempName.length ≤ e.length))).length
      < fuel) :
    modDir.exists (freeTempName modDir fuel tempName) = false := by
  induction fuel generalizing tempName with
  | zero => omega
  | succ fuel ih =>
    unfold freeTempName
    by_cases hex : modDir.exists tempName = true
    · rw [if_pos hex]
      apply ih
      have hmem : tempName ∈ modDir.entries := by
        simpa [Disk.exists] using hex
      have hlt := filter_length_lt tempName modDir.entries hmem
      have hlen : (tempName ++ "_").length = tempName.length + 1 := by
        rw [String.length_append]
        rfl
      rw [hlen]
      omega
    · rw [if_neg hex]
      simpa using hex

/-- The loop of `setName` that looks for an unused temporary name ends within the rounds
the model grants it: the name it yields is not in the directory. -/
theorem freeTempName_fresh (modDir : Disk) (tempName : QString) :
    modDir.exists (freeTempName modDir (modDir.entries.length + 1) tempName) = false := by
  apply freeTempName_fresh_of_fuel
  have := List.length_filter_le (fun e => decide (tempName.length ≤ e.length)) modDir.entries
  omega

/-! ## The registry: the claims -/

/-- C8 fails as stated: after `updateFromDisc` on a data directory that holds `Patch.esm`
and `Patch.esp` the sequence has two entries with the internal name `Unmanaged: Patch`;
the one at position 1 is not reachable through `getIndex` of its internal name, which is
2. -/
theorem refresh_entry_unreachable :
    ({} : Registry).updateFromDisc discTwoPlugins true
        = Except.ok (refreshed discTwoPlugins true) ∧
      ¬ (∀ i m, (refreshed discTwoPlugins true).getByIndex i = Except.ok m →
          (refreshed discTwoPlugins true).getIndex m.internalName = i) := by
  refine ⟨rfl, ?_⟩
  intro h
  have h1 := h 1 _ rfl
  revert h1
  decide

/-- C8 as amended: after `updateFromDisc`, for every valid position `i` and name `n` with
`getIndex(n) = i`, `getByIndex(i)` and the lookup by `n` resolve to the same entry and the
internal name of that entry is `n`; and for every entry of the sequence, `getIndex` of its
internal name is the last position that holds an entry with this internal name, hence the
position of the entry itself when no other entry has the same internal name. -/
theorem updateFromDisc_indices (reg : Registry) (disc : Disc) (displayForeign : Bool)
    (reg' : Registry) (h : reg.updateFromDisc disc displayForeign = Except.ok reg')
    (hsize : reg'.getNumMods ≤ UINT_MAX) :
    (∀ i n, i < reg'.getNumMods → reg'.getIndex n = i →
        ∃ m, reg'.getByIndex i = Except.ok m ∧
          reg'.getByIndex (reg'.getIndex n) = Except.ok m ∧ m.internalName = n) ∧
      (∀ i m, reg'.getByIndex i = Except.ok m →
        (∃ m', reg'.getByIndex (reg'.getIndex m.internalName) = Except.ok m' ∧
          m'.internalName = m.internalName) ∧
        (∀ j m2, reg'.getByIndex j = Except.ok m2 → m2.internalName = m.internalName →
          j ≤ reg'.getIndex m.internalName) ∧
        ((∀ j m2, reg'.getByIndex j = Except.ok m2 → m2.internalName = m.internalName →
          j = i) → reg'.getIndex m.internalName = i)) := by
  obtain ⟨built, hbuilt⟩ := updateFromDisc_ok reg disc displayForeign reg' h
  subst hbuilt
  constructor
  · intro i n hi hidx
    cases hfind : mapFind n built.updateIndices.s_ModsByName with
    | none =>
      rw [getIndex_of_not_find _ n hfind] at hidx
      unfold Registry.getNumMods at hi hsize
      omega
    | some k =>
      rw [getIndex_of_find _ n k hfind] at hidx
      subst hidx
      obtain ⟨m, hget, hname, _⟩ := updateIndices_find_some built n k hfind
      refine ⟨m, (getByIndex_eq_ok _ _ _).2 hget, ?_, hname⟩
      rw [getIndex_of_find _ n k hfind]
      exact (getByIndex_eq_ok _ _ _).2 hget
  · intro i m hget
    have hget1 := (getByIndex_eq_ok _ _ _).1 hget
    obtain ⟨k, hfind⟩ := updateIndices_find_entry built i m hget1
    obtain ⟨m', hget', hname', hlast⟩ :=
      updateIndices_find_some built m.internalName k hfind
    rw [getIndex_of_find _ _ k hfind]
    refine ⟨⟨m', (getByIndex_eq_ok _ _ _).2 hget', hname'⟩, ?_, ?_⟩
    · intro j m2 hj hn
      exact hlast j m2 ((getByIndex_eq_ok _ _ _).1 hj) hn
    · intro huniq
      exact huniq k m' ((getByIndex_eq_ok _ _ _).2 hget') hname'

/-- Witness of the amended C8: the refresh of a disc with the mod directories `Alpha` and
`beta`, looked up at position 1 and name `beta`. -/
theorem updateFromDisc_indices_witness :
    ({} : Registry).updateFromDisc discTwoMods true = Except.ok (refreshed discTwoMods true) ∧
      (refreshed discTwoMods true).getNumMods ≤ UINT_MAX ∧
      ∃ m, (refreshed discTwoMods true).getByIndex 1 = Except.ok m ∧
        (refreshed discTwoMods true).getByIndex ((refreshed discTwoMods true).getIndex "beta")
          = Except.ok m ∧
        m.internalName = "beta" :=
  ⟨rfl, by decide,
    (updateFromDisc_indices {} discTwoMods true (refreshed discTwoMods true) rfl
      (by decide)).1 1 "beta" (by decide) (by decide)⟩

/-- C9, the code at the failing input: a workshop entry is created by `updateFromDisc`
under the internal name `Steam: 123`, the reply to `updateInfo` brings its title, and
`name()` becomes `Steam: Cool Mod`, which is no key of the name index; `removeMod` at its
position then erases the `end()` iterator of the name index. -/
theorem removeMod_titled_workshop_entry :
    ((refreshed discWorkshop true).titleReceived 1 "Cool Mod").getNumMods = 2 ∧
      (((refreshed discWorkshop true).titleReceived 1 "Cool Mod").s_Collection[1]?).map
        ModInfo.internalName = some "Steam: 123" ∧
      (((refreshed discWorkshop true).titleReceived 1 "Cool Mod").s_Collection[1]?).map
        ModInfo.name = some "Steam: Cool Mod" ∧
      ((refreshed discWorkshop true).titleReceived 1 "Cool Mod").getIndex "Steam: 123" = 1 ∧
      ((refreshed discWorkshop true).titleReceived 1 "Cool Mod").getIndex "Steam: Cool Mod"
        = UINT_MAX ∧
      ((refreshed discWorkshop true).titleReceived 1 "Cool Mod").removeMod 1 true
        = Except.error Fault.eraseEnd :=
  ⟨by decide, by decide, by decide, by decide, by decide, rfl⟩

/-- C10: for every entry and every new name that contains a slash or a backslash,
`setName` returns false and leaves the registry (the sequence with the name and the path
of the entry, and both indices) and the directory unchanged, no rename being requested. -/
theorem setName_rejects_separator (reg : Registry) (modDir : Disk) (self : Nat)
    (name : QString) (h : '/' ∈ name.data ∨ '\\' ∈ name.data) :
    reg.setName modDir self name = (false, reg, modDir) := by
  have hc : (contains name '/' || contains name '\\') = true := by
    simp only [contains, Bool.or_eq_true, List.contains_eq_any_beq, List.any_eq_true,
      beq_iff_eq]
    rcases h with h | h
    · exact Or.inl ⟨'/', h, rfl⟩
    · exact Or.inr ⟨'\\', h, rfl⟩
  unfold Registry.setName
  cases reg.s_Collection[self]? with
  | none => rfl
  | some modInfo => simp only [hc, if_true]

/-- Witness of C10: renaming the entry `Alpha` to `Al/pha`. -/
theorem setName_rejects_separator_witness :
    ('/' ∈ "Al/pha".data ∨ '\\' ∈ "Al/pha".data) ∧
      ((refreshed discTwoMods true).s_Collection[0]?).map ModInfo.internalName
        = some "Alpha" ∧
      (refreshed discTwoMods true).setName diskTwoMods 0 "Al/pha"
        = (false, refreshed discTwoMods true, diskTwoMods) :=
  ⟨by decide, by decide,
    setName_rejects_separator (refreshed discTwoMods true) diskTwoMods 0 "Al/pha"
      (by decide)⟩

/-! ## Lemmas on the backup expression and on the features of an entry -/

theorem dropWhile_append_of_all {α : Type} (p : α → Bool) (l₁ l₂ : List α)
    (h : ∀ x ∈ l₁, p x = true) : (l₁ ++ l₂).dropWhile p = l₂.dropWhile p := by
  induction l₁ with
  | nil => rfl
  | cons a rest ih =>
    have ha : p a = true := h a (List.mem_cons_self a rest)
    have hrest : ∀ x ∈ rest, p x = true := fun x hx => h x (List.mem_cons_of_mem a hx)
    simp only [List.cons_append, List.dropWhile_cons, ha, if_true]
    exact ih hrest

/-- The test `backupExp` is the exact match of `.*backup[0-9]*`: the name is some text,
then `backup`, then digits only. -/
theorem backupExp_iff (s : QString) :
    backupExp s = true ↔
      ∃ front digits : List Char, s.data = front ++ "backup".data ++ digits ∧
        ∀ c ∈ digits, c.isDigit = true := by
  unfold backupExp
  rw [List.isPrefixOf_iff_prefix]
  constructor
  · rintro ⟨t, ht⟩
    have hsplit := List.takeWhile_append_dropWhile Char.isDigit s.data.reverse
    rw [← ht] at hsplit
    have hdig : ∀ c ∈ (s.data.reverse.takeWhile Char.isDigit).reverse, c.isDigit = true :=
      fun c hc => List.mem_takeWhile_imp (List.mem_reverse.1 hc)
    generalize s.data.reverse.takeWhile Char.isDigit = tw at hsplit hdig
    refine ⟨t.reverse, tw.reverse, ?_, hdig⟩
    have h2 := congrArg List.reverse hsplit
    simp only [List.reverse_append, List.reverse_reverse] at h2
    rw [← h2]
  · rintro ⟨front, digits, hs, hd⟩
    have hrev : s.data.reverse = digits.reverse ++ ("backup".data.reverse ++ front.reverse) := by
      rw [hs]
      simp [List.reverse_append, List.append_assoc]
    rw [hrev, dropWhile_append_of_all Char.isDigit _ _
      (fun x hx => hd x (List.mem_reverse.1 hx))]
    refine ⟨front.reverse, ?_⟩
    have hb : "backup".data.reverse = ['p', 'u', 'k', 'c', 'a', 'b'] := by decide
    rw [hb]
    rfl

theorem addFeature_objects (m : ModInfo) (K : FeatureKind) (f : Feature) :
    (m.addFeature K f).objects = m.objects ++ [f] := rfl

/-- The pointers `addFeature` leaves in `m_Features`: the new object under the key of its
class and under the base classes it derives from, the old pointers elsewhere. -/
theorem addFeature_find (m : ModInfo) (K k : FeatureKind) (f : Feature) :
    mapFind k (m.addFeature K f).m_Features =
      if k = K ∨ (K.isDiskLocation = true ∧ k = FeatureKind.DiskLocation) ∨
          (K.isRepository = true ∧ k = FeatureKind.Repository)
      then some m.objects.length else mapFind k m.m_Features := by
  unfold ModInfo.addFeature
  by_cases hd : K.isDiskLocation = true <;> by_cases hr : K.isRepository = true <;>
    simp only [hd, hr, if_true, if_false, mapFind_mapSet, true_and, false_and, or_false,
      Bool.false_eq_true] <;>
    by_cases h1 : K = k <;> by_cases h2 : FeatureKind.DiskLocation = k <;>
    by_cases h3 : FeatureKind.Repository = k <;>
    simp [h1, h2, h3, eq_comm (a := k)]

theorem mapFind_mem {κ α : Type} [DecidableEq κ] (k : κ) (p : α) (l : List (κ × α))
    (h : mapFind k l = some p) : (k, p) ∈ l := by
  induction l with
  | nil => simp [mapFind] at h
  | cons e rest ih =>
    obtain ⟨k', v⟩ := e
    by_cases h1 : k' = k
    · simp only [mapFind, if_pos h1, Option.some.injEq] at h
      rw [h1, h]
      exact List.mem_cons_self _ _
    · simp only [mapFind, if_neg h1] at h
      exact List.mem_cons_of_mem _ (ih h)

theorem createFrom_name (dir : QDir) : (created dir).internalName = dir.dirName := by
  unfold created Registry.createFrom
  by_cases hb : backupExp dir.dirName = true
  · simp only [hb]
    rfl
  · have hbf : backupExp dir.dirName = false := by simpa using hb
    simp only [hbf]
    rfl

theorem createFrom_backup_features (dir : QDir) (hb : backupExp dir.dirName = true) :
    (created dir).m_Features = [] := by
  unfold created Registry.createFrom
  simp only [hb]
  rfl

theorem createFrom_regular_features (dir : QDir) (hb : backupExp dir.dirName = false) :
    (created dir).m_Features =
      [(FeatureKind.Categorized, 0), (FeatureKind.Conflicting, 1), (FeatureKind.Endorsable, 2),
        (FeatureKind.Installed, 3), (FeatureKind.DiskLocation, 3), (FeatureKind.Note, 4),
        (FeatureKind.Positioning, 5), (FeatureKind.Versioned, 6),
        (FeatureKind.NexusRepository, 7), (FeatureKind.Repository, 7)] := by
  unfold created Registry.createFrom
  simp only [hb]
  rfl

theorem createFrom_regular_objects (dir : QDir) (hb : backupExp dir.dirName = false) :
    (created dir).objects =
      [Feature.categorized { m_PrimaryCategory := dir.primaryCategory },
        Feature.conflicting { m_CurrentConflictState := dir.conflictState },
        Feature.endorsable {}, Feature.installed { m_Path := dir.absolutePath },
        Feature.note {}, Feature.positioning {}, Feature.versioned {},
        Feature.nexusRepository {}] := by
  unfold created Registry.createFrom
  simp only [hb]
  rfl

/-! ## Lemmas on the mutators -/

theorem onRepository_unchanged (change : Repository → Repository × Bool)
    (hchange : ∀ r, (change r).2 = false → (change r).1 = r) (object : Feature)
    (h : (object.onRepository change).2 = false) : (object.onRepository change).1 = object := by
  cases object <;> try rfl
  case nexusRepository f =>
    simp only [Feature.onRepository] at h ⊢
    rw [hchange f h]
  case steamRepository f =>
    simp only [Feature.onRepository] at h ⊢
    rw [hchange f.base h]

/-- A mutator call that does not emit `saveRequired` leaves the object as it was. -/
theorem mutate_unchanged (env : Environment) (call : Mutator) (object : Feature)
    (h : (object.mutate env call).2 = false) : (object.mutate env call).1 = object := by
  cases call with
  | noteSet text => cases object <;> first | rfl | (simp [Feature.mutate, Note.set] at h)
  | categorizedSet categoryID active =>
    cases object <;> first
      | rfl
      | (simp only [Feature.mutate, Categorized.set] at h; split_ifs at h)
  | categorizedSetPrimary categoryID =>
    cases object <;> first | rfl | (simp [Feature.mutate, Categorized.setPrimary] at h)
  | versionedSet version =>
    cases object <;> first | rfl | (simp [Feature.mutate, Versioned.set] at h)
  | repositorySetModId modId =>
    exact onRepository_unchanged _ (fun r hr => by simp [Repository.setModId] at hr) object h
  | repositorySetVersion version =>
    refine onRepository_unchanged _ (fun r hr => ?_) object h
    unfold Repository.setVersion at hr ⊢
    split_ifs at hr ⊢
    simp_all
  | repositorySetDescription description =>
    refine onRepository_unchanged _ (fun r hr => ?_) object h
    unfold Repository.setDescription at hr ⊢
    split_ifs at hr ⊢
    simp_all
  | repositoryIgnoreUpdate ignore =>
    refine onRepository_unchanged _ (fun r hr => ?_) object h
    unfold Repository.ignoreUpdate at hr
    split_ifs at hr
  | endorsableSetIsEndorsed endorsed =>
    cases object <;> first
      | rfl
      | (simp only [Feature.mutate, Endorsable.setIsEndorsed] at h ⊢
         split_ifs at h ⊢
         simp_all)
  | endorsableSetNeverEndorse =>
    cases object <;> first | rfl | (simp [Feature.mutate, Endorsable.setNeverEndorse] at h)
  | endorsableSetEndorsedState state =>
    cases object <;> first
      | rfl
      | (simp only [Feature.mutate, Endorsable.setEndorsedState] at h ⊢
         split_ifs at h ⊢
         simp_all)
  | installedAddInstalledFile modId fileId =>
    cases object <;> first | rfl | (simp [Feature.mutate, Installed.addInstalledFile] at h)
  | installedSetInstallationFile fileName =>
    cases object <;> first
      | rfl
      | (simp [Feature.mutate, Installed.setInstallationFile] at h)

theorem list_set_self {α : Type} (l : List α) (p : Nat) (a : α) (h : l[p]? = some a) :
    l.set p a = l := by
  induction l generalizing p with
  | nil => rfl
  | cons b rest ih =>
    cases p with
    | zero =>
      simp only [List.getElem?_cons_zero, Option.some.injEq] at h
      rw [h]
      rfl
    | succ q =>
      simp only [List.getElem?_cons_succ] at h
      simp only [List.set_cons_succ, ih q h]

/-! ## Lemmas on `setName` -/

theorem updateFeature_name (m : ModInfo) (kind : FeatureKind) (change : Feature → Feature) :
    (m.updateFeature kind change).internalName = m.internalName := by
  unfold ModInfo.updateFeature
  split
  · split <;> rfl
  · rfl

theorem mem_set_cases {α : Type} (l : List α) (n : Nat) (a b : α) (h : a ∈ l.set n b) :
    a = b ∨ ∃ j, j ≠ n ∧ l[j]? = some a := by
  induction l generalizing n with
  | nil => simp at h
  | cons c rest ih =>
    cases n with
    | zero =>
      simp only [List.set_cons_zero, List.mem_cons] at h
      rcases h with h | h
      · exact Or.inl h
      · obtain ⟨j, hj⟩ := List.getElem?_of_mem h
        exact Or.inr ⟨j + 1, by omega, by simpa using hj⟩
    | succ q =>
      simp only [List.set_cons_succ, List.mem_cons] at h
      rcases h with h | h
      · exact Or.inr ⟨0, by omega, by simp [h]⟩
      · rcases ih q h with h1 | ⟨j, hj, hget⟩
        · exact Or.inl h1
        · exact Or.inr ⟨j + 1, by omega, by simpa using hget⟩

theorem sortByName_perm (collection : List ModInfo) :
    (sortByName collection).Perm collection :=
  List.perm_insertionSort _ collection

theorem updateIndices_idempotent (reg : Registry) :
    reg.updateIndices.updateIndices = reg.updateIndices := rfl

/-- When `setName` returns true for an entry with an `Installed` feature, the registry is
the one `applyName` leaves. -/
theorem setName_success (reg : Registry) (modDir : Disk) (self : Nat) (name : QString)
    (modInfo : ModInfo) (installed : Installed)
    (hself : reg.s_Collection[self]? = some modInfo)
    (hinst : modInfo.feature FeatureKind.Installed = some (Feature.installed installed))
    (hret : (reg.setName modDir self name).1 = true) :
    (reg.setName modDir self name).2.1 =
      reg.applyName self modInfo name
        (replace installed.m_Path
          ((installed.m_Path.length : Int) - modInfo.m_Name.length)
          modInfo.m_Name.length name) := by
  unfold Registry.setName at hret ⊢
  simp only [hself, hinst] at hret ⊢
  split_ifs at hret ⊢ <;> rfl

theorem applyName_registered (reg : Registry) (self : Nat) (modInfo : ModInfo)
    (name newPath : QString) (index : Nat)
    (hreg : mapFind modInfo.m_Name reg.s_ModsByName = some index) :
    reg.applyName self modInfo name newPath =
      ({ reg with
          s_Collection := sortByName (reg.s_Collection.set self
            (({ modInfo with m_Name := name }).updateFeature FeatureKind.Installed
              (Feature.setPath newPath)))
          s_ModsByName := mapSet name index
            (mapErase modInfo.m_Name reg.s_ModsByName) } : Registry).updateIndices := by
  simp only [Registry.applyName, hreg]

/-! ## Lemmas on the index by repository id -/

theorem updateIndicesFrom_findId (key : QString) (l : List ModInfo) (i : Nat)
    (byName : List (QString × Nat)) (byModID : List (QString × List Nat)) :
    mapFind key (updateIndicesFrom l i byName byModID).2 =
      if positionsWithId key l i = [] then mapFind key byModID
      else some ((mapFind key byModID).getD [] ++ positionsWithId key l i) := by
  induction l generalizing i byName byModID with
  | nil => simp [updateIndicesFrom, positionsWithId]
  | cons m rest ih =>
    simp only [updateIndicesFrom, positionsWithId]
    rw [ih]
    cases hrepo : m.repository with
    | none => simp
    | some repo =>
      simp only [Option.map_some', Option.some.injEq, mapFind_mapSet]
      by_cases hkey : repo.modId = key
      · subst hkey
        simp only [if_true, Option.getD_some]
        by_cases hrest : positionsWithId repo.modId rest (i + 1) = []
        · simp [hrest]
        · simp [hrest]
      · simp only [if_neg hkey]

theorem getAll_positions (reg : Registry) (key : QString) (pre rest : List ModInfo)
    (h : reg.s_Collection = pre ++ rest) :
    reg.getAll (positionsWithId key rest pre.length) =
      Except.ok (rest.filter
        (fun m => decide (m.repository.map Repository.modId = some key))) := by
  induction rest generalizing pre with
  | nil => rfl
  | cons m rest' ih =>
    have h2 : reg.s_Collection = (pre ++ [m]) ++ rest' := by simp [h]
    have ih2 := ih (pre ++ [m]) h2
    rw [List.length_append, List.length_singleton] at ih2
    simp only [positionsWithId, List.filter_cons]
    by_cases hm : m.repository.map Repository.modId = some key
    · have hget : reg.getByIndex pre.length = Except.ok m := by
        rw [getByIndex_eq_ok, h, List.getElem?_append_right (le_refl _)]
        simp
      simp only [hm, if_true, decide_True, Registry.getAll, hget, ih2]
    · simp only [hm, if_false, decide_False, ih2]
      rfl

/-! ## Renaming, features and creation of entries: the claims -/

/-- C12: for an entry with an `Installed` feature, when the physical rename fails (the
direct rename, or the first or the second rename of the two-phase rename used when the
names differ only by case), `setName` returns false and the registry is the one before
the call: the name and the path of the entry, the order of the sequence and both
indices. -/
theorem setName_rename_failure (reg : Registry) (modDir : Disk) (self : Nat) (name : QString)
    (modInfo : ModInfo) (installed : Installed)
    (hself : reg.s_Collection[self]? = some modInfo)
    (hinst : modInfo.feature FeatureKind.Installed = some (Feature.installed installed))
    (hfail :
      if compareEqual modInfo.m_Name name = true then
        (modDir.rename modInfo.m_Name
            (freeTempName modDir (modDir.entries.length + 1) (name ++ "_temp"))).1 = false ∨
          ((modDir.rename modInfo.m_Name
              (freeTempName modDir (modDir.entries.length + 1) (name ++ "_temp"))).2.rename
            (freeTempName modDir (modDir.entries.length + 1) (name ++ "_temp")) name).1 = false
      else (modDir.rename modInfo.m_Name name).1 = false) :
    (reg.setName modDir self name).1 = false ∧ (reg.setName modDir self name).2.1 = reg := by
  unfold Registry.setName
  simp only [hself, hinst]
  by_cases hsep : (contains name '/' || contains name '\\') = true
  · simp only [hsep, if_true, and_self]
  · simp only [hsep]
    by_cases hcase : compareEqual modInfo.m_Name name = true
    · simp only [hcase, if_true] at hfail ⊢
      by_cases h1 : (modDir.rename modInfo.m_Name
          (freeTempName modDir (modDir.entries.length + 1) (name ++ "_temp"))).1 = true
      · have h2 := hfail.resolve_left (by simp [h1])
        simp [h1, h2]
      · have h1f : (modDir.rename modInfo.m_Name
            (freeTempName modDir (modDir.entries.length + 1) (name ++ "_temp"))).1 = false := by
          simpa using h1
        simp [h1f]
    · have hcasef : compareEqual modInfo.m_Name name = false := by simpa using hcase
      simp only [hcasef, Bool.false_eq_true, if_false] at hfail ⊢
      simp [hfail]

/-- Witness of C12: the rename of `Alpha` to `Gamma` is refused, and the second rename on
the way from `Alpha` to `alpha` is refused. -/
theorem setName_rename_failure_witness :
    ((refreshed discTwoMods true).setName diskLocked 0 "Gamma").1 = false ∧
      ((refreshed discTwoMods true).setName diskLocked 0 "Gamma").2.1
        = refreshed discTwoMods true ∧
      ((refreshed discTwoMods true).setName diskHalfLocked 0 "alpha").1 = false ∧
      ((refreshed discTwoMods true).setName diskHalfLocked 0 "alpha").2.1
        = refreshed discTwoMods true :=
  ⟨(setName_rename_failure (refreshed discTwoMods true) diskLocked 0 "Gamma"
      (created dirAlpha) { m_Path := "C:/mods/Alpha" } (by decide) (by decide) (by decide)).1,
    (setName_rename_failure (refreshed discTwoMods true) diskLocked 0 "Gamma"
      (created dirAlpha) { m_Path := "C:/mods/Alpha" } (by decide) (by decide) (by decide)).2,
    (setName_rename_failure (refreshed discTwoMods true) diskHalfLocked 0 "alpha"
      (created dirAlpha) { m_Path := "C:/mods/Alpha" } (by decide) (by decide) (by decide)).1,
    (setName_rename_failure (refreshed discTwoMods true) diskHalfLocked 0 "alpha"
      (created dirAlpha) { m_Path := "C:/mods/Alpha" } (by decide) (by decide) (by decide)).2⟩

/-- C13: after `addFeature` is called twice with two objects of the class `K`,
`hasFeature<K>()` is true and `feature<K>()` is the second object; no key of `m_Features`
points to the first object any more; and when `K` derives from `DiskLocation` (from
`Repository`), `feature<DiskLocation>()` (`feature<Repository>()`) is that same second
object, through the same pointer. -/
theorem addFeature_twice (m : ModInfo) (K : FeatureKind) (first second : Feature)
    (hwf : ∀ e ∈ m.m_Features, e.2 < m.objects.length) :
    ((m.addFeature K first).addFeature K second).hasFeature K = true ∧
      ((m.addFeature K first).addFeature K second).feature K = some second ∧
      mapFind K ((m.addFeature K first).addFeature K second).m_Features
        = some (m.objects.length + 1) ∧
      (∀ k, mapFind k ((m.addFeature K first).addFeature K second).m_Features
        ≠ some m.objects.length) ∧
      (K.isDiskLocation = true →
        mapFind FeatureKind.DiskLocation
            ((m.addFeature K first).addFeature K second).m_Features
          = some (m.objects.length + 1) ∧
        ((m.addFeature K first).addFeature K second).feature FeatureKind.DiskLocation
          = some second) ∧
      (K.isRepository = true →
        mapFind FeatureKind.Repository
            ((m.addFeature K first).addFeature K second).m_Features
          = some (m.objects.length + 1) ∧
        ((m.addFeature K first).addFeature K second).feature FeatureKind.Repository
          = some second) := by
  have hlen : (m.addFeature K first).objects.length = m.objects.length + 1 := by
    simp [addFeature_objects]
  have hobj : ((m.addFeature K first).addFeature K second).objects[m.objects.length + 1]?
      = some second := by
    rw [addFeature_objects, addFeature_objects,
      List.getElem?_append_right (by simp), List.length_append]
    simp
  have hfind : ∀ k, mapFind k ((m.addFeature K first).addFeature K second).m_Features =
      if k = K ∨ (K.isDiskLocation = true ∧ k = FeatureKind.DiskLocation) ∨
          (K.isRepository = true ∧ k = FeatureKind.Repository)
      then some (m.objects.length + 1) else mapFind k m.m_Features := by
    intro k
    rw [addFeature_find, addFeature_find, hlen]
    split_ifs <;> rfl
  have hK : mapFind K ((m.addFeature K first).addFeature K second).m_Features
      = some (m.objects.length + 1) := by
    rw [hfind]
    simp
  refine ⟨?_, ?_, hK, ?_, ?_, ?_⟩
  · simp [ModInfo.hasFeature, hK]
  · simp only [ModInfo.feature, hK]
    exact hobj
  · intro k hk
    rw [hfind] at hk
    split_ifs at hk with hc
    · simp at hk
    · exact absurd (hwf _ (mapFind_mem k _ _ hk)) (lt_irrefl _)
  · intro hd
    have hD : mapFind FeatureKind.DiskLocation
        ((m.addFeature K first).addFeature K second).m_Features
        = some (m.objects.length + 1) := by
      rw [hfind]
      simp [hd]
    refine ⟨hD, ?_⟩
    simp only [ModInfo.feature, hD]
    exact hobj
  · intro hr
    have hR : mapFind FeatureKind.Repository
        ((m.addFeature K first).addFeature K second).m_Features
        = some (m.objects.length + 1) := by
      rw [hfind]
      simp [hr]
    refine ⟨hR, ?_⟩
    simp only [ModInfo.feature, hR]
    exact hobj

/-- Witness of C13: two `Installed` objects attached to the entry made from the directory
`Alpha`. -/
theorem addFeature_twice_witness :
    (((created dirAlpha).addFeature FeatureKind.Installed
        (Feature.installed { m_Path := "C:/first" })).addFeature FeatureKind.Installed
        (Feature.installed { m_Path := "C:/second" })).feature FeatureKind.Installed
      = some (Feature.installed { m_Path := "C:/second" }) ∧
    (((created dirAlpha).addFeature FeatureKind.Installed
        (Feature.installed { m_Path := "C:/first" })).addFeature FeatureKind.Installed
        (Feature.installed { m_Path := "C:/second" })).feature FeatureKind.DiskLocation
      = some (Feature.installed { m_Path := "C:/second" }) :=
  ⟨(addFeature_twice (created dirAlpha) FeatureKind.Installed
      (Feature.installed { m_Path := "C:/first" })
      (Feature.installed { m_Path := "C:/second" }) (by decide)).2.1,
    ((addFeature_twice (created dirAlpha) FeatureKind.Installed
      (Feature.installed { m_Path := "C:/first" })
      (Feature.installed { m_Path := "C:/second" }) (by decide)).2.2.2.2.1 (by decide)).2⟩

/-- C14: `createFrom` appends exactly one entry, named after the directory, to the end of
the sequence.  When the name is not some text followed by `backup` and digits, the entry
has exactly the features Categorized, Conflicting, Endorsable, Installed, Note,
Positioning, Versioned and NexusRepository, each an object of its class, and the keys
DiskLocation and Repository point to the Installed and the NexusRepository object; when
the name is of that form the entry has no feature at all. -/
theorem createFrom_features (reg : Registry) (dir : QDir) :
    ∃ e : ModInfo, (reg.createFrom dir).s_Collection = reg.s_Collection ++ [e] ∧
      e.internalName = dir.dirName ∧
      ((¬ ∃ front digits : List Char, dir.dirName.data = front ++ "backup".data ++ digits ∧
            ∀ c ∈ digits, c.isDigit = true) →
        (∀ k, e.hasFeature k = true ↔
          k ∈ [FeatureKind.Categorized, FeatureKind.Conflicting, FeatureKind.Endorsable,
            FeatureKind.Installed, FeatureKind.Note, FeatureKind.Positioning,
            FeatureKind.Versioned, FeatureKind.NexusRepository, FeatureKind.DiskLocation,
            FeatureKind.Repository]) ∧
        e.feature FeatureKind.Categorized
          = some (Feature.categorized { m_PrimaryCategory := dir.primaryCategory }) ∧
        e.feature FeatureKind.Conflicting
          = some (Feature.conflicting { m_CurrentConflictState := dir.conflictState }) ∧
        e.feature FeatureKind.Endorsable = some (Feature.endorsable {}) ∧
        e.feature FeatureKind.Installed
          = some (Feature.installed { m_Path := dir.absolutePath }) ∧
        e.feature FeatureKind.Note = some (Feature.note {}) ∧
        e.feature FeatureKind.Positioning = some (Feature.positioning {}) ∧
        e.feature FeatureKind.Versioned = some (Feature.versioned {}) ∧
        e.feature FeatureKind.NexusRepository = some (Feature.nexusRepository {}) ∧
        mapFind FeatureKind.DiskLocation e.m_Features
          = mapFind FeatureKind.Installed e.m_Features ∧
        mapFind FeatureKind.Repository e.m_Features
          = mapFind FeatureKind.NexusRepository e.m_Features) ∧
      ((∃ front digits : List Char, dir.dirName.data = front ++ "backup".data ++ digits ∧
            ∀ c ∈ digits, c.isDigit = true) →
        ∀ k, e.hasFeature k = false) := by
  refine ⟨created dir, rfl, createFrom_name dir, ?_, ?_⟩
  · intro hn
    have hb : backupExp dir.dirName = false := by
      rw [← Bool.not_eq_true]
      exact fun h => hn ((backupExp_iff dir.dirName).1 h)
    have hF := createFrom_regular_features dir hb
    have hO := createFrom_regular_objects dir hb
    refine ⟨?_, ?_, ?_, ?_, ?_, ?_, ?_, ?_, ?_, ?_, ?_⟩
    · intro k
      simp only [ModInfo.hasFeature, hF]
      cases k <;> decide
    all_goals simp only [ModInfo.feature, hF, hO]
    all_goals rfl
  · intro hy k
    have hb : backupExp dir.dirName = true := (backupExp_iff dir.dirName).2 hy
    simp only [ModInfo.hasFeature, createFrom_backup_features dir hb]
    rfl

/-- C15, the code at the failing input: for the directory `Alpha_backup2`, whose name
matches the backup expression, `createFrom` makes an entry without features whose
`flags()` are empty; `EModFlag::BACKUP` is not among them. -/
theorem createFrom_backup_flags :
    backupExp dirBackup.dirName = true ∧
      (({} : Registry).createFrom dirBackup).s_Collection = [created dirBackup] ∧
      (created dirBackup).m_Features = [] ∧
      ((created dirBackup).flags overlayAB registryAB 0 0).2 = [] ∧
      EModFlag.BACKUP ∉ ((created dirBackup).flags overlayAB registryAB 0 0).2 ∧
      (∀ (dir : QDir) (overlay : DirectoryEntry) (reg : Registry) (now currentTime : QTime),
        backupExp dir.dirName = true →
          EModFlag.BACKUP ∉ ((created dir).flags overlay reg now currentTime).2) := by
  refine ⟨by decide, by decide, by decide, by decide, by decide, ?_⟩
  intro dir overlay reg now currentTime hb
  have hF := createFrom_backup_features dir hb
  have hflags : (created dir).m_Flags = [] := by
    unfold created Registry.createFrom
    simp only [hb]
    rfl
  simp only [ModInfo.flags, hF, hflags, featureFlags, List.foldl_nil]
  cases (created dir).m_Valid <;> decide

/-- C20, the code at the failing input: when the workshop manifest opens and
`ACFPropertyTree::parse` throws, `updateFromDisc` ends with that exception instead of
going on without workshop items. -/
theorem updateFromDisc_malformed_manifest :
    ({} : Registry).updateFromDisc discMalformed true = Except.error Fault.parseFailure ∧
      (∀ (reg : Registry) (disc : Disc) (displayForeign : Bool),
        disc.workshopFile = WorkshopFile.malformed →
          reg.updateFromDisc disc displayForeign = Except.error Fault.parseFailure) := by
  refine ⟨rfl, ?_⟩
  intro reg disc displayForeign h
  simp [Registry.updateFromDisc, h]

/-- C16, the code at the failing input: the file `C:/mods/Alpha/meta.ini` holds
`notes = hello`; the `readMeta` call of the constructor runs on an entry without features
and changes nothing, whatever the files hold, and `createFrom` does not read again, so the
`Note` of the entry it returns holds the empty text, not `hello`.  The entry is not
dirty. -/
theorem createFrom_does_not_read_meta :
    (metaAlpha "C:/mods/Alpha/meta.ini").value "notes" (QVariant.string "")
        = QVariant.string "hello" ∧
      (∀ (name : QString) (flags : List EModFlag) (valid : Bool) (env : Environment)
          (metaFile : QString → QSettings),
        (ModInfo.new name flags valid).readMeta env metaFile = ModInfo.new name flags valid) ∧
      (({} : Registry).createFrom dirAlpha).s_Collection = [created dirAlpha] ∧
      (created dirAlpha).feature FeatureKind.Note = some (Feature.note { m_Note := "" }) ∧
      (created dirAlpha).feature FeatureKind.Note ≠ some (Feature.note { m_Note := "hello" }) ∧
      (created dirAlpha).m_MetaInfoChanged = false := by
  refine ⟨by decide, ?_, by decide, by decide, by decide, by decide⟩
  intro name flags valid env metaFile
  simp only [ModInfo.readMeta, ModInfo.new, readFeatures]
  split_ifs <;> rfl

/-- C17: `saveMeta` leaves the settings and the dirty flag as they are unless the entry is
dirty and its path exists, and also when the settings object reports an error on opening;
otherwise it lets every feature write into the settings and syncs, and then the dirty
flag is cleared if and only if the settings report no error after the sync, the entry
being unchanged on an error. -/
theorem saveMeta_writes_when_dirty (m : ModInfo) (env : Environment)
    (metaFile : QString → QSettings) (synced : Status) :
    (¬ (m.m_MetaInfoChanged = true ∧ env.fileExists (m.absolutePath env) = true) →
        m.saveMeta env metaFile synced = (m, metaFile (m.absolutePath env ++ "/meta.ini"))) ∧
      (m.m_MetaInfoChanged = true → env.fileExists (m.absolutePath env) = true →
        (metaFile (m.absolutePath env ++ "/meta.ini")).status ≠ Status.NoError →
        m.saveMeta env metaFile synced = (m, metaFile (m.absolutePath env ++ "/meta.ini"))) ∧
      (m.m_MetaInfoChanged = true → env.fileExists (m.absolutePath env) = true →
        (metaFile (m.absolutePath env ++ "/meta.ini")).status = Status.NoError →
        (m.saveMeta env metaFile synced).2 =
            { saveFeatures env m m.m_Features (metaFile (m.absolutePath env ++ "/meta.ini"))
              with status := synced } ∧
          ((m.saveMeta env metaFile synced).1.m_MetaInfoChanged = false
            ↔ synced = Status.NoError) ∧
          (synced = Status.NoError →
            (m.saveMeta env metaFile synced).1 = { m with m_MetaInfoChanged := false }) ∧
          (synced ≠ Status.NoError → (m.saveMeta env metaFile synced).1 = m)) := by
  refine ⟨?_, ?_, ?_⟩
  · intro h
    simp only [ModInfo.saveMeta, if_neg h]
  · intro hd he hs
    simp only [ModInfo.saveMeta, hd, he, and_self, if_true, if_neg hs]
  · intro hd he hs
    by_cases hsync : synced = Status.NoError
    · simp [ModInfo.saveMeta, hd, he, hs, hsync]
    · simp [ModInfo.saveMeta, hd, he, hs, hsync]

/-- C18: a call of one of the public mutators `Note::set`, `Categorized::set`,
`Categorized::setPrimary`, `Versioned::set`, `Repository::setModId`,
`Repository::setVersion`, `Repository::setDescription`, `Repository::ignoreUpdate`,
`Endorsable::setIsEndorsed`, `Endorsable::setNeverEndorse`,
`Endorsable::setEndorsedState`, `Installed::addInstalledFile` and
`Installed::setInstallationFile` on a feature of an entry touches nothing but the objects
and the dirty flag, and when it changes an object at all, in particular a field that
`saveMeta` writes, the entry is dirty after the call. -/
theorem mutate_marks_dirty (m : ModInfo) (env : Environment) (kind : FeatureKind)
    (call : Mutator) (hchange : (m.mutate env kind call).objects ≠ m.objects) :
    (m.mutate env kind call).m_MetaInfoChanged = true ∧
      (m.mutate env kind call).m_Features = m.m_Features := by
  unfold ModInfo.mutate at hchange ⊢
  cases hp : mapFind kind m.m_Features with
  | none =>
    simp only [hp] at hchange
    exact absurd rfl hchange
  | some p =>
    simp only [hp] at hchange ⊢
    cases ho : m.objects[p]? with
    | none =>
      simp only [ho] at hchange
      exact absurd rfl hchange
    | some object =>
      simp only [ho] at hchange ⊢
      cases he : (object.mutate env call).2 with
      | true => simp
      | false =>
        rw [mutate_unchanged env call object he, list_set_self m.objects p object ho]
          at hchange
        exact absurd rfl hchange

/-- Witness of C18: `Note::set("hi")` on the entry made from the directory `Alpha`. -/
theorem mutate_marks_dirty_witness :
    (created dirAlpha).m_MetaInfoChanged = false ∧
      alphaWithNote.objects ≠ (created dirAlpha).objects ∧
      alphaWithNote.feature FeatureKind.Note = some (Feature.note { m_Note := "hi" }) ∧
      alphaWithNote.m_MetaInfoChanged = true :=
  ⟨by decide, by decide, by decide,
    (mutate_marks_dirty (created dirAlpha) {} FeatureKind.Note (Mutator.noteSet "hi")
      (by decide)).1⟩

/-- C11 fails as stated.  The entry `Overwrite` is registered and has no `Installed`
feature: `setName("Zeta")` returns true and changes only `m_Name`, so afterwards
`getIndex("Zeta")` is `UINT_MAX` and the old name still resolves to the entry.  The
entry `Alpha` is registered and installed: `setName("Overwrite")` returns true, two
entries then have the internal name `Overwrite`, and `getIndex("Overwrite")` is the
position of the other one. -/
theorem setName_index_counterexamples :
    (refreshed discTwoMods true).getIndex "Overwrite" = 2 ∧
      ((refreshed discTwoMods true).setName diskTwoMods 2 "Zeta").1 = true ∧
      (((refreshed discTwoMods true).setName diskTwoMods 2 "Zeta").2.1.s_Collection[2]?).map
        ModInfo.internalName = some "Zeta" ∧
      ((refreshed discTwoMods true).setName diskTwoMods 2 "Zeta").2.1.getIndex "Zeta"
        = UINT_MAX ∧
      ((refreshed discTwoMods true).setName diskTwoMods 2 "Zeta").2.1.getIndex "Overwrite"
        = 2 ∧
      (refreshed discTwoMods true).getIndex "Alpha" = 0 ∧
      ((refreshed discTwoMods true).setName diskTwoMods 0 "Overwrite").1 = true ∧
      ((refreshed discTwoMods true).setName diskTwoMods 0 "Overwrite").2.1.s_Collection.map
        (fun m => (m.internalName, m.hasFeature FeatureKind.Installed))
        = [("beta", true), ("Overwrite", true), ("Overwrite", false)] ∧
      ((refreshed discTwoMods true).setName diskTwoMods 0 "Overwrite").2.1.getIndex "Overwrite"
        = 2 := by
  decide

/-- C11 as amended: whenever `setName(newName)` returns true for an entry that has an
`Installed` feature and is registered in the name index, and no entry of the sequence had
the internal name `newName` before the call, then afterwards both indices are the ones
`updateIndices` builds from the sequence, the sequence is a rearrangement of the old one
with the entry renamed, `getIndex(newName)` is a position of the renamed entry, the old
name resolves to another entry if it resolves at all, and it does not resolve when no
other entry had it. -/
theorem setName_indices (reg : Registry) (modDir : Disk) (self : Nat) (name : QString)
    (modInfo : ModInfo) (installed : Installed) (index : Nat)
    (hself : reg.s_Collection[self]? = some modInfo)
    (hinst : modInfo.feature FeatureKind.Installed = some (Feature.installed installed))
    (hreg : mapFind modInfo.m_Name reg.s_ModsByName = some index)
    (hfresh : ∀ m ∈ reg.s_Collection, m.internalName ≠ name)
    (hret : (reg.setName modDir self name).1 = true) :
    let renamed := ({ modInfo with m_Name := name }).updateFeature FeatureKind.Installed
      (Feature.setPath (replace installed.m_Path
        ((installed.m_Path.length : Int) - modInfo.m_Name.length) modInfo.m_Name.length name))
    let reg' := (reg.setName modDir self name).2.1
    reg'.updateIndices = reg' ∧
      reg'.s_Collection.Perm (reg.s_Collection.set self renamed) ∧
      renamed.internalName = name ∧
      reg'.s_Collection[reg'.getIndex name]? = some renamed ∧
      (∀ k, mapFind modInfo.m_Name reg'.s_ModsByName = some k →
        ∃ other, reg'.s_Collection[k]? = some other ∧
          other.internalName = modInfo.m_Name ∧ other ≠ renamed) ∧
      ((∀ j m2, reg.s_Collection[j]? = some m2 → j ≠ self →
          m2.internalName ≠ modInfo.m_Name) →
        reg'.getIndex modInfo.m_Name = UINT_MAX) := by
  intro renamed reg'
  have hreg' : reg' = ({ reg with
      s_Collection := sortByName (reg.s_Collection.set self renamed)
      s_ModsByName := mapSet name index (mapErase modInfo.m_Name reg.s_ModsByName) }
        : Registry).updateIndices := by
    show (reg.setName modDir self name).2.1 = _
    rw [setName_success reg modDir self name modInfo installed hself hinst hret,
      applyName_registered reg self modInfo name _ index hreg]
  have hcoll : reg'.s_Collection = sortByName (reg.s_Collection.set self renamed) := by
    rw [hreg']
    rfl
  have hperm : reg'.s_Collection.Perm (reg.s_Collection.set self renamed) := by
    rw [hcoll]
    exact sortByName_perm _
  have hname : renamed.internalName = name := updateFeature_name _ _ _
  have hold : modInfo.internalName ≠ name := hfresh modInfo (List.getElem?_mem hself)
  have hlt : self < reg.s_Collection.length := by
    by_contra hge
    rw [List.getElem?_eq_none (not_lt.mp hge)] at hself
    exact absurd hself (by simp)
  -- every entry of the new sequence is the renamed one or an old entry at another position
  have hcases : ∀ m, m ∈ reg'.s_Collection →
      m = renamed ∨ ∃ j, j ≠ self ∧ reg.s_Collection[j]? = some m := by
    intro m hm
    exact mem_set_cases _ _ _ _ (hperm.mem_iff.1 hm)
  have hmem : renamed ∈ reg'.s_Collection :=
    hperm.mem_iff.2 (List.mem_set _ self hlt renamed)
  refine ⟨by rw [hreg']; rfl, hperm, hname, ?_, ?_, ?_⟩
  · obtain ⟨j, hj⟩ := List.getElem?_of_mem hmem
    rw [hreg'] at hj
    obtain ⟨k, hk⟩ := updateIndices_find_entry _ j renamed hj
    rw [hname] at hk
    obtain ⟨m', hm', hn', _⟩ := updateIndices_find_some _ name k hk
    rw [hreg', getIndex_of_find _ name k hk, hm']
    have hin : m' ∈ reg'.s_Collection := by
      rw [hreg']
      exact List.getElem?_mem hm'
    rcases hcases m' hin with h | ⟨j', _, hj'⟩
    · rw [h]
    · exact absurd hn' (hfresh m' (List.getElem?_mem hj'))
  · intro k hk
    rw [hreg'] at hk
    obtain ⟨other, hget, hn, _⟩ := updateIndices_find_some _ modInfo.m_Name k hk
    refine ⟨other, by rw [hreg']; exact hget, hn, ?_⟩
    intro heq
    rw [heq, hname] at hn
    exact hold hn.symm
  · intro hothers
    cases hfind : mapFind modInfo.m_Name reg'.s_ModsByName with
    | none => exact getIndex_of_not_find _ _ hfind
    | some k =>
      exfalso
      rw [hreg'] at hfind
      obtain ⟨other, hget, hn, _⟩ := updateIndices_find_some _ modInfo.m_Name k hfind
      have hin : other ∈ reg'.s_Collection := by
        rw [hreg']
        exact List.getElem?_mem hget
      rcases hcases other hin with h | ⟨j', hj', hget'⟩
      · rw [h, hname] at hn
        exact hold hn.symm
      · exact hothers j' other hget' hj' hn

/-- Witness of the amended C11: the installed entry `Alpha` is renamed to `Gamma`. -/
theorem setName_indices_witness :
    ((refreshed discTwoMods true).setName diskTwoMods 0 "Gamma").1 = true ∧
      ((refreshed discTwoMods true).setName diskTwoMods 0 "Gamma").2.1.getIndex "Gamma" = 1 ∧
      ((refreshed discTwoMods true).setName diskTwoMods 0 "Gamma").2.1.getIndex "Alpha"
        = UINT_MAX ∧
      ((refreshed discTwoMods true).setName diskTwoMods 0 "Gamma").2.1.updateIndices
        = ((refreshed discTwoMods true).setName diskTwoMods 0 "Gamma").2.1 :=
  ⟨by decide, by decide, by decide,
    (setName_indices (refreshed discTwoMods true) diskTwoMods 0 "Gamma" (created dirAlpha)
      { m_Path := "C:/mods/Alpha" } 0 (by decide) (by decide) (by decide) (by decide)
      (by decide)).1⟩

/-- C19 fails as stated: after a refresh the workshop entry is stored under the id 123;
once `setRepoModID(7)` has changed its repository id, `getByModID(123)` still returns it,
although its repository id is `7`, and `getByModID(7)` returns nothing.  In the same way
`getByModID(5)` returns nothing after `setRepoModID(5)` on the mod `Alpha`. -/
theorem getByModID_stale_index :
    (registryWorkshopIdChanged.s_Collection[1]?).map
        (fun m => m.repository.map Repository.modId) = some (some "7") ∧
      (registryWorkshopIdChanged.getByModID 123).toOption.map (fun l => l.map ModInfo.internalName)
        = some ["Steam: 123"] ∧
      (registryWorkshopIdChanged.getByModID 7).toOption = some [] ∧
      (registryIdChanged.s_Collection[0]?).map
        (fun m => m.repository.map Repository.modId) = some (some (number 5)) ∧
      (registryIdChanged.getByModID 5).toOption = some [] := by
  decide

/-- C19 as amended.  For every registry, also one whose indices are stale: `getIndex(name)`
returns `UINT_MAX` for a name that is no key of the name index and the stored position of
a key; `getByModID(id)` returns the empty list when the decimal text of `id` is no key of
the id index; `getByIndex(i)` raises the invalid-index error exactly when
`i >= getNumMods()` and otherwise returns the entry at `i`.  When both indices are the
ones `updateIndices` builds from the sequence, `getByModID(id)` returns exactly the
entries whose repository id is the decimal text of `id`, in the order of the sequence,
and, the sequence having at most `UINT_MAX` entries, `getIndex(name)` is `UINT_MAX`
exactly when `name` is no key. -/
theorem lookups_characterised (reg : Registry) :
    ((∀ name, mapFind name reg.s_ModsByName = none → reg.getIndex name = UINT_MAX) ∧
      (∀ name k, mapFind name reg.s_ModsByName = some k → reg.getIndex name = k) ∧
      (∀ id, mapFind (number id) reg.s_ModsByModID = none →
        reg.getByModID id = Except.ok []) ∧
      (∀ i, reg.getByIndex i = Except.error Fault.invalidIndex ↔ reg.getNumMods ≤ i) ∧
      (∀ i m, reg.getByIndex i = Except.ok m ↔ reg.s_Collection[i]? = some m)) ∧
      (reg.updateIndices = reg →
        (∀ id, reg.getByModID id = Except.ok (reg.s_Collection.filter
          (fun m => decide (m.repository.map Repository.modId = some (number id))))) ∧
        (reg.getNumMods ≤ UINT_MAX →
          ∀ name, reg.getIndex name = UINT_MAX ↔ mapFind name reg.s_ModsByName = none)) := by
  refine ⟨⟨getIndex_of_not_find reg, getIndex_of_find reg, ?_, ?_, getByIndex_eq_ok reg⟩, ?_⟩
  · intro id h
    simp only [Registry.getByModID, h]
  · intro i
    unfold Registry.getByIndex Registry.getNumMods
    cases hget : reg.s_Collection[i]? with
    | none =>
      simp only [true_iff]
      exact List.getElem?_eq_none_iff.1 hget
    | some m =>
      have hlt : i < reg.s_Collection.length := by
        by_contra hge
        rw [List.getElem?_eq_none (not_lt.mp hge)] at hget
        exact absurd hget (by simp)
      constructor
      · intro h
        exact absurd h (by simp)
      · intro h
        omega
  · intro hindexed
    have hnames : reg.s_ModsByName = reg.updateIndices.s_ModsByName := by rw [hindexed]
    have hids : reg.s_ModsByModID = (updateIndicesFrom reg.s_Collection 0 [] []).2 :=
      congrArg Registry.s_ModsByModID hindexed.symm
    have hall := getAll_positions reg
    refine ⟨?_, ?_⟩
    · intro id
      have hpos := hall (number id) [] reg.s_Collection rfl
      simp only [List.length_nil] at hpos
      unfold Registry.getByModID
      rw [hids, updateIndicesFrom_findId]
      by_cases hempty : positionsWithId (number id) reg.s_Collection 0 = []
      · rw [hempty] at hpos
        simp only [hempty, if_true, mapFind]
        exact hpos
      · simp only [hempty, if_false, mapFind, Option.getD_none, List.nil_append]
        exact hpos
    · intro hsize name
      constructor
      · intro h
        cases hfind : mapFind name reg.s_ModsByName with
        | none => rfl
        | some k =>
          exfalso
          rw [getIndex_of_find reg name k hfind] at h
          rw [hnames] at hfind
          obtain ⟨m, hget, _, _⟩ := updateIndices_find_some reg name k hfind
          have hk : k < reg.s_Collection.length := by
            by_contra hge
            rw [updateIndices_collection, List.getElem?_eq_none (not_lt.mp hge)] at hget
            exact absurd hget (by simp)
          unfold Registry.getNumMods at hsize
          omega
      · exact getIndex_of_not_find reg name

/-- Witness of the amended C19: the lookups on the stale registry in which the workshop
entry got the id 7, and on the registry after a refresh with the workshop item 123. -/
theorem lookups_characterised_witness :
    registryWorkshopIdChanged.updateIndices ≠ registryWorkshopIdChanged ∧
      mapFind (number 7) registryWorkshopIdChanged.s_ModsByModID = none ∧
      registryWorkshopIdChanged.getByModID 7 = Except.ok [] ∧
      registryWorkshopIdChanged.getIndex "Steam: 123" = 1 ∧
      registryWorkshopIdChanged.getIndex "Steam: 7" = UINT_MAX ∧
      (registryWorkshopIdChanged.getByIndex 2 = Except.error Fault.invalidIndex ↔
        registryWorkshopIdChanged.getNumMods ≤ 2) ∧
      (refreshed discWorkshop true).updateIndices = refreshed discWorkshop true ∧
      (refreshed discWorkshop true).getNumMods ≤ UINT_MAX ∧
      (refreshed discWorkshop true).getByModID 123 =
        Except.ok ((refreshed discWorkshop true).s_Collection.filter
          (fun m => decide (m.repository.map Repository.modId = some (number 123)))) ∧
      ((refreshed discWorkshop true).getIndex "Steam: 123" = UINT_MAX ↔
        mapFind "Steam: 123" (refreshed discWorkshop true).s_ModsByName = none) :=
  ⟨by decide, by decide,
    (lookups_characterised registryWorkshopIdChanged).1.2.2.1 7 (by decide),
    (lookups_characterised registryWorkshopIdChanged).1.2.1 "Steam: 123" 1 (by decide),
    (lookups_characterised registryWorkshopIdChanged).1.1 "Steam: 7" (by decide),
    (lookups_characterised registryWorkshopIdChanged).1.2.2.2.1 2,
    by decide, by decide,
    ((lookups_characterised (refreshed discWorkshop true)).2 (by decide)).1 123,
    ((lookups_characterised (refreshed discWorkshop true)).2 (by decide)).2 (by decide)
      "Steam: 123"⟩

/-! ## The repository links -/

theorem hasFeature_of_feature (m : ModInfo) (k : FeatureKind) (object : Feature)
    (h : m.feature k = some object) : m.hasFeature k = true := by
  unfold ModInfo.feature at h
  unfold ModInfo.hasFeature
  cases hm : mapFind k m.m_Features with
  | none => rw [hm] at h; exact absurd h (by simp)
  | some p => rfl

/-- C21, the code: for an entry with a `Versioned` object, `updateAvailable` returns true
exactly when the newest version of the repository is not the ignored version, is valid
and is older than the installed version (`newest < installed`).  The claim and the
documentation of the function ask for the reverse comparison, `installed < newest`. -/
theorem updateAvailable_tests_newest_below_installed (self : Repository) (mod : ModInfo)
    (versioned : Versioned)
    (h : mod.feature FeatureKind.Versioned = some (Feature.versioned versioned)) :
    self.updateAvailable mod = true ↔
      ¬ (self.m_IgnoredVersion.isValid = true ∧ self.m_IgnoredVersion = self.version) ∧
        self.version.isValid = true ∧ self.version.rank < versioned.get.rank := by
  have hh := hasFeature_of_feature mod _ _ h
  unfold Repository.updateAvailable
  rw [h, hh]
  by_cases hi : self.m_IgnoredVersion.isValid = true ∧ self.m_IgnoredVersion = self.m_Version
  · rw [if_pos hi]
    exact ⟨fun hf => absurd hf (by simp), fun hr => absurd hi hr.1⟩
  · simp [hi, Repository.version, VersionInfo.lt]

/-- C21 at the failing input: the installed version 1 is older than the newest version 2
and `updateAvailable` returns false; with the installed version 2 newer than the newest
version 1 it returns true. -/
theorem updateAvailable_tests_newest_below_installed_witness :
    (alphaInstalled 1).feature FeatureKind.Versioned
        = some (Feature.versioned { m_Version := { isValid := true, rank := 1 } }) ∧
      ((linkNewest 2).updateAvailable (alphaInstalled 1) = true ↔
        ¬ ((linkNewest 2).m_IgnoredVersion.isValid = true ∧
            (linkNewest 2).m_IgnoredVersion = (linkNewest 2).version) ∧
          (linkNewest 2).version.isValid = true ∧ (linkNewest 2).version.rank <
            ({ m_Version := { isValid := true, rank := 1 } } : Versioned).get.rank) ∧
      (linkNewest 2).updateAvailable (alphaInstalled 1) = false ∧
      (linkNewest 1).updateAvailable (alphaInstalled 2) = true :=
  ⟨by decide,
    updateAvailable_tests_newest_below_installed (linkNewest 2) (alphaInstalled 1)
      { m_Version := { isValid := true, rank := 1 } } (by decide),
    by decide, by decide⟩

/-- C28: for every state of the repository link and every owning entry, whatever its
installed version, `updateAvailable` and `downgradeAvailable` return the same value;
the common value is true for the newest version 1 with the installed version 2 and false
for the newest version 2 with the installed version 1. -/
theorem updateAvailable_eq_downgradeAvailable (self : Repository) (mod : ModInfo) :
    self.updateAvailable mod = self.downgradeAvailable mod ∧
      (linkNewest 1).downgradeAvailable (alphaInstalled 2) = true ∧
      (linkNewest 2).downgradeAvailable (alphaInstalled 1) = false := by
  refine ⟨?_, by decide, by decide⟩
  unfold Repository.updateAvailable Repository.downgradeAvailable
  rfl

/-- C22, the claim fails: a workshop link whose id is empty posts a request for the empty
id and `updateInfo` returns true. -/
theorem steam_updateInfo_empty_id :
    (steamLink "").base.modId = "" ∧
      ((steamLink "").updateInfo 7).2 = (true, [""]) ∧
      ((steamLink "").updateInfo 7).1.m_UpdateReply = some 7 := by
  decide

/-- The test `modId() > 0` of `NexusRepository::updateInfo` lets the ids 0 and -1 pass: a
request is made for them and true is returned. -/
theorem nexus_updateInfo_nonpositive_id :
    NexusRepository.updateInfo (linkWithId "0") = (true, [0]) ∧
      NexusRepository.updateInfo (linkWithId "-1") = (true, [-1]) := by
  decide

/-- C22 as amended: `NexusRepository::updateInfo` returns true only when it made a
request, and with an empty id it returns false and makes no request;
`SteamRepository::updateInfo` always posts one request, for the id of the link whatever it
is, keeps the reply handle and returns true. -/
theorem updateInfo_requests (nexus : Repository) (steam : SteamRepository) (reply : Nat) :
    ((NexusRepository.updateInfo nexus).1 = true →
        (NexusRepository.updateInfo nexus).2 = [(toInt nexus.modId).getD 0]) ∧
      (nexus.modId = "" → NexusRepository.updateInfo nexus = (false, [])) ∧
      (steam.updateInfo reply).2 = (true, [steam.base.modId]) ∧
      (steam.updateInfo reply).1.m_UpdateReply = some reply := by
  refine ⟨?_, ?_, rfl, rfl⟩
  · intro h
    unfold NexusRepository.updateInfo at h ⊢
    by_cases he : nexus.modId = ""
    · simp [he] at h
    · simp [he]
  · intro he
    simp [NexusRepository.updateInfo, he]

/-- C22 as amended, on the Nexus ids 5 and the empty id and the workshop id 123. -/
theorem updateInfo_requests_witness :
    (NexusRepository.updateInfo (linkWithId "5")).1 = true ∧
      (NexusRepository.updateInfo (linkWithId "5")).2 = [5] ∧
      (linkWithId "").modId = "" ∧
      NexusRepository.updateInfo (linkWithId "") = (false, []) ∧
      ((steamLink "123").updateInfo 7).2 = (true, ["123"]) :=
  ⟨by decide,
    (updateInfo_requests (linkWithId "5") (steamLink "123") 7).1 (by decide),
    by decide,
    (updateInfo_requests (linkWithId "") (steamLink "123") 7).2.1 (by decide),
    (updateInfo_requests (linkWithId "5") (steamLink "123") 7).2.2.1⟩

/-- C23, the code: after `updateInfo`, the signal `finished` alone runs `postUpdate` once,
on the reply, and leaves `m_UpdateReply` null; but the handler of the signal `error` reads
the reply from `m_ErrorReply`, which nothing assigns, so for a link as the constructor
leaves it the signal `error` uses an invalid pointer; and whatever `m_ErrorReply` holds,
`error` followed by `finished` runs a handler on the null `m_UpdateReply`. -/
theorem steam_reply_cleanup (self : SteamRepository) (env : Environment)
    (steamKey : QString) (reply : Nat) (response : SteamResponse) :
    (∃ run, SteamRepository.deliver env [ReplyEvent.finished response]
          { self := (self.updateInfo reply).1 } = Except.ok run ∧
        run.released = [reply] ∧ run.self.m_UpdateReply = none) ∧
      SteamRepository.deliver env [ReplyEvent.error]
          { self := ((steamLink steamKey).updateInfo reply).1 }
        = Except.error Fault.invalidPointer ∧
      SteamRepository.deliver env [ReplyEvent.error, ReplyEvent.finished response]
          { self := (self.updateInfo reply).1 }
        = Except.error Fault.invalidPointer := by
  refine ⟨?_, rfl, ?_⟩
  · cases response <;> exact ⟨_, rfl, rfl, rfl⟩
  · cases he : self.m_ErrorReply with
    | none =>
      simp [SteamRepository.deliver, SteamRepository.error, SteamRepository.updateInfo, he]
    | some handle =>
      simp [SteamRepository.deliver, SteamRepository.error, SteamRepository.updateInfo, he,
        SteamRepository.postUpdate, SteamRepository.finished]

/-- C25, the code: `endorsedState` returns `ENDORSED_NEVER` whatever the buffered state
is, also after `setIsEndorsed` and `setEndorsedState`, and `flags` of an `Endorsable`
never holds `NOTENDORSED`; on an object as the constructor leaves it `setIsEndorsed(false)`
buffers `ENDORSED_FALSE`, and the flags of the entry made from the directory `Alpha`
after that call do not hold `NOTENDORSED`. -/
theorem endorsedState_ignores_buffered_state (self : Endorsable) (endorsed : Bool)
    (state : EEndorsedState) (mod : ModInfo) (dir : DirectoryEntry) (reg : Registry)
    (now currentTime : QTime) :
    (self.setIsEndorsed endorsed).1.endorsedState = EEndorsedState.ENDORSED_NEVER ∧
      (self.setEndorsedState state).1.endorsedState = EEndorsedState.ENDORSED_NEVER ∧
      (Feature.flags mod dir reg now currentTime (Feature.endorsable self)).2 = [] ∧
      (({} : Endorsable).setIsEndorsed false).1.m_EndorsedState
        = EEndorsedState.ENDORSED_FALSE ∧
      (({} : Endorsable).setEndorsedState EEndorsedState.ENDORSED_FALSE).1.m_EndorsedState
        = EEndorsedState.ENDORSED_FALSE ∧
      (((created dirAlpha).mutate {} FeatureKind.Endorsable
          (Mutator.endorsableSetIsEndorsed false)).feature FeatureKind.Endorsable
        = some (Feature.endorsable { m_EndorsedState := EEndorsedState.ENDORSED_FALSE })) ∧
      EModFlag.NOTENDORSED ∉
        (((created dirAlpha).mutate {} FeatureKind.Endorsable
          (Mutator.endorsableSetIsEndorsed false)).flags overlayAB registryAB 0 0).2 := by
  refine ⟨rfl, rfl, ?_, by decide, by decide, by decide, by decide⟩
  simp [Feature.flags, Endorsable.endorsedState]

/-! ## Determinism and disjointness of the conflict classification -/

theorem getIndex_congr (reg1 reg2 : Registry) (h : reg1.s_ModsByName = reg2.s_ModsByName)
    (name : QString) : reg1.getIndex name = reg2.getIndex name := by
  unfold Registry.getIndex
  rw [h]

theorem checkAlternative_congr (dir : DirectoryEntry) (reg1 reg2 : Registry)
    (h : reg1.s_ModsByName = reg2.s_ModsByName) (dataID : Int) (origin : FilesOrigin) :
    checkAlternative dir reg1 dataID origin = checkAlternative dir reg2 dataID origin := by
  funext st alt
  simp only [checkAlternative, getIndex_congr reg1 reg2 h]

theorem checkFile_congr (dir : DirectoryEntry) (reg1 reg2 : Registry)
    (h : reg1.s_ModsByName = reg2.s_ModsByName) (dataID : Int) (origin : FilesOrigin) :
    checkFile dir reg1 dataID origin = checkFile dir reg2 dataID origin := by
  funext st file
  simp only [checkFile, getIndex_congr reg1 reg2 h, checkAlternative_congr dir reg1 reg2 h]

theorem conflictScan_congr (mod1 mod2 : ModInfo) (dir : DirectoryEntry)
    (reg1 reg2 : Registry) (hname : mod1.name = mod2.name)
    (h : reg1.s_ModsByName = reg2.s_ModsByName) :
    conflictScan mod1 dir reg1 = conflictScan mod2 dir reg2 := by
  simp only [conflictScan, hname, checkFile_congr dir reg1 reg2 h]

theorem mem_involvedOrigins (origin : FilesOrigin) (f : FileEntry)
    (hf : f ∈ origin.getFiles) (a : Int) (ha : a = f.getOrigin ∨ a ∈ f.getAlternatives) :
    a ∈ involvedOrigins origin := by
  unfold involvedOrigins
  apply List.mem_cons_of_mem
  generalize origin.getFiles = files at hf
  induction files with
  | nil => exact absurd hf (List.not_mem_nil f)
  | cons g rest ih =>
    simp only [List.foldr_cons, List.mem_cons, List.mem_append]
    rcases List.mem_cons.mp hf with hfg | hfr
    · subst hfg
      rcases ha with ha | ha
      · exact Or.inl ha
      · exact Or.inr (Or.inl ha)
    · exact Or.inr (Or.inr (ih hfr))

/-- C24: the classification depends on the snapshot only.  For one overlay, two entries
with the same display name (the same entry with whatever objects it holds) and two
registries with the same name index, two runs of `doConflictCheck`, on whatever cached
state and lists and at whatever times, yield the same state and the same two lists. -/
theorem doConflictCheck_deterministic (self1 self2 : Conflicting) (mod1 mod2 : ModInfo)
    (dir : DirectoryEntry) (reg1 reg2 : Registry) (time1 time2 : QTime)
    (hname : mod1.name = mod2.name) (hindex : reg1.s_ModsByName = reg2.s_ModsByName) :
    (self1.doConflictCheck mod1 dir reg1 time1).m_CurrentConflictState
        = (self2.doConflictCheck mod2 dir reg2 time2).m_CurrentConflictState ∧
      (self1.doConflictCheck mod1 dir reg1 time1).m_OverwriteList
        = (self2.doConflictCheck mod2 dir reg2 time2).m_OverwriteList ∧
      (self1.doConflictCheck mod1 dir reg1 time1).m_OverwrittenList
        = (self2.doConflictCheck mod2 dir reg2 time2).m_OverwrittenList := by
  simp only [Conflicting.doConflictCheck, conflictScan_congr mod1 mod2 dir reg1 reg2 hname hindex,
    and_self]

/-- C24 on the overlay with `A` and `B`: a fresh object and one holding an earlier result,
run at different times for two copies of the entry `A` and two registries with the same
name index, agree. -/
theorem doConflictCheck_deterministic_witness :
    (plainMod "A").name = ({ plainMod "A" with m_Valid := true } : ModInfo).name ∧
      registryAB.s_ModsByName = ({ registryAB with s_NextID := 9 } : Registry).s_ModsByName ∧
      staleConflicting.m_OverwriteList = [3] ∧
      (freshConflicting.doConflictCheck (plainMod "A") overlayAB registryAB 5).m_OverwriteList
        = [1] ∧
      ((freshConflicting.doConflictCheck (plainMod "A") overlayAB registryAB
            5).m_CurrentConflictState
          = (staleConflicting.doConflictCheck { plainMod "A" with m_Valid := true } overlayAB
              { registryAB with s_NextID := 9 } 200).m_CurrentConflictState ∧
        (freshConflicting.doConflictCheck (plainMod "A") overlayAB registryAB
            5).m_OverwriteList
          = (staleConflicting.doConflictCheck { plainMod "A" with m_Valid := true } overlayAB
              { registryAB with s_NextID := 9 } 200).m_OverwriteList ∧
        (freshConflicting.doConflictCheck (plainMod "A") overlayAB registryAB
            5).m_OverwrittenList
          = (staleConflicting.doConflictCheck { plainMod "A" with m_Valid := true } overlayAB
              { registryAB with s_NextID := 9 } 200).m_OverwrittenList) :=
  ⟨by decide, by decide, by decide, by decide,
    doConflictCheck_deterministic freshConflicting staleConflicting (plainMod "A")
      { plainMod "A" with m_Valid := true } overlayAB registryAB
      { registryAB with s_NextID := 9 } 5 200 (by decide) (by decide)⟩

/-- C30 fails as stated: on the overlay with `C`, `D` and `E` the origins have distinct
priorities, the provider `D` of the file `g` has the highest priority among the origins
that can provide it, and the name index, which holds `C` only, maps distinct names to
distinct positions; `doConflictCheck` for `C` looks up `E` and `D`, finds neither, and
puts the value `UINT_MAX` into both lists. -/
theorem doConflictCheck_unindexed_in_both_lists :
    (∀ a ∈ [originData, originC, originD, originE],
        ∀ b ∈ [originData, originC, originD, originE],
          a ≠ b → a.getPriority ≠ b.getPriority) ∧
      (∀ f ∈ originC.getFiles, ∀ a ∈ f.getOrigin :: f.getAlternatives,
        (overlayCDE.getOriginByID a).getPriority
          ≤ (overlayCDE.getOriginByID f.getOrigin).getPriority) ∧
      (∀ p ∈ registryOnlyC.s_ModsByName, ∀ q ∈ registryOnlyC.s_ModsByName,
        p.1 ≠ q.1 → p.2 ≠ q.2) ∧
      registryOnlyC.getIndex (plainMod "C").internalName = 0 ∧
      (freshConflicting.doConflictCheck (plainMod "C") overlayCDE registryOnlyC
          0).m_OverwriteList = [4294967295] ∧
      (freshConflicting.doConflictCheck (plainMod "C") overlayCDE registryOnlyC
          0).m_OverwrittenList = [4294967295] ∧
      ¬ (∀ i ∈ (freshConflicting.doConflictCheck (plainMod "C") overlayCDE registryOnlyC
            0).m_OverwriteList,
          i ∉ (freshConflicting.doConflictCheck (plainMod "C") overlayCDE registryOnlyC
            0).m_OverwrittenList) := by
  decide

/-- C30 as amended: let the origin of the entry be the one the overlay finds under
`name()`.  If the lookup `getIndex` gives distinct values for the distinct origins met by
the run (the origin itself, and the providers and alternatives of its files; `UINT_MAX`,
the value for a name that is no key, counts as a value, so at most one of them is
missing from the name index), if the provider of each of its files has at least its
priority, and if the value for the origin of the entry is the own position of the entry,
then after `doConflictCheck` no position is in both lists and the own position is in
neither.  Distinct priorities are not needed. -/
theorem doConflictCheck_lists_disjoint (self : Conflicting) (mod : ModInfo)
    (dir : DirectoryEntry) (reg : Registry) (currentTime : QTime)
    (hinj : ∀ a ∈ involvedOrigins (dir.getOriginByName mod.name),
      ∀ b ∈ involvedOrigins (dir.getOriginByName mod.name),
        originIndex dir reg a = originIndex dir reg b → a = b)
    (hprov : ∀ f ∈ (dir.getOriginByName mod.name).getFiles,
      (dir.getOriginByName mod.name).getPriority
        ≤ (dir.getOriginByID f.getOrigin).getPriority)
    (hown : originIndex dir reg (dir.getOriginByName mod.name).getID
      = reg.getIndex mod.internalName) :
    (∀ i ∈ (self.doConflictCheck mod dir reg currentTime).m_OverwriteList,
        i ∉ (self.doConflictCheck mod dir reg currentTime).m_OverwrittenList) ∧
      reg.getIndex mod.internalName
        ∉ (self.doConflictCheck mod dir reg currentTime).m_OverwriteList ∧
      reg.getIndex mod.internalName
        ∉ (self.doConflictCheck mod dir reg currentTime).m_OverwrittenList := by
  have hover : (self.doConflictCheck mod dir reg currentTime).m_OverwriteList
      = (conflictScan mod dir reg).m_OverwriteList := rfl
  have hwritten : (self.doConflictCheck mod dir reg currentTime).m_OverwrittenList
      = (conflictScan mod dir reg).m_OverwrittenList := rfl
  rw [hover, hwritten]
  by_cases hN : dir.originExists mod.name = true
  · have hself : (dir.getOriginByName mod.name).getID
        ∈ involvedOrigins (dir.getOriginByName mod.name) := List.mem_cons_self _ _
    refine ⟨?_, ?_, ?_⟩
    · intro i hi hj
      obtain ⟨f, hf, _, a, ha, _, _, hprio, hia⟩ :=
        (conflictScan_overwrite_iff mod dir reg hN i).mp hi
      have hma := mem_involvedOrigins _ f hf a (Or.inr ha)
      obtain ⟨g, hg, _, hcase⟩ := (conflictScan_overwritten_iff mod dir reg hN i).mp hj
      rcases hcase with ⟨_, hig⟩ | ⟨b, hb, _, _, hprio2, hib⟩
      · have hmg := mem_involvedOrigins _ g hg g.getOrigin (Or.inl rfl)
        have hab : a = g.getOrigin := hinj a hma _ hmg (hia.symm.trans hig)
        have hp := hprov g hg
        rw [← hab] at hp
        exact absurd hprio (not_lt.mpr hp)
      · have hmb := mem_involvedOrigins _ g hg b (Or.inr hb)
        have hab : a = b := hinj a hma _ hmb (hia.symm.trans hib)
        rw [← hab] at hprio2
        exact absurd hprio (not_lt.mpr hprio2)
    · intro hi
      obtain ⟨f, hf, _, a, ha, _, hne, _, hia⟩ :=
        (conflictScan_overwrite_iff mod dir reg hN _).mp hi
      have hma := mem_involvedOrigins _ f hf a (Or.inr ha)
      exact hne (hinj a hma _ hself (hia.symm.trans hown.symm))
    · intro hj
      obtain ⟨g, hg, _, hcase⟩ := (conflictScan_overwritten_iff mod dir reg hN _).mp hj
      rcases hcase with ⟨hne, hig⟩ | ⟨b, hb, _, hne, _, hib⟩
      · have hmg := mem_involvedOrigins _ g hg g.getOrigin (Or.inl rfl)
        exact hne (hinj _ hmg _ hself (hig.symm.trans hown.symm))
      · have hmb := mem_involvedOrigins _ g hg b (Or.inr hb)
        exact hne (hinj b hmb _ hself (hib.symm.trans hown.symm))
  · have hN2 : dir.originExists mod.name = false := by simpa using hN
    rw [conflictScan_of_not_exists mod dir reg hN2]
    exact ⟨fun i hi => absurd hi (List.not_mem_nil i), List.not_mem_nil _, List.not_mem_nil _⟩

/-- C30 on the overlay with `C`, `D` and `E`: the entry `C` at position 0 overwrites `E`
at position 2 and is overwritten by `D` at position 1. -/
theorem doConflictCheck_lists_disjoint_witness :
    (freshConflicting.doConflictCheck (plainMod "C") overlayCDE registryCDE 0).m_OverwriteList
        = [2] ∧
      (freshConflicting.doConflictCheck (plainMod "C") overlayCDE registryCDE
          0).m_OverwrittenList = [1] ∧
      registryCDE.getIndex (plainMod "C").internalName = 0 ∧
      ((∀ i ∈ (freshConflicting.doConflictCheck (plainMod "C") overlayCDE registryCDE
              0).m_OverwriteList,
          i ∉ (freshConflicting.doConflictCheck (plainMod "C") overlayCDE registryCDE
              0).m_OverwrittenList) ∧
        registryCDE.getIndex (plainMod "C").internalName
          ∉ (freshConflicting.doConflictCheck (plainMod "C") overlayCDE registryCDE
              0).m_OverwriteList ∧
        registryCDE.getIndex (plainMod "C").internalName
          ∉ (freshConflicting.doConflictCheck (plainMod "C") overlayCDE registryCDE
              0).m_OverwrittenList) :=
  ⟨by decide, by decide, by decide,
    doConflictCheck_lists_disjoint freshConflicting (plainMod "C") overlayCDE registryCDE 0
      (by decide) (by decide) (by decide)⟩

/-! ## The list of executables -/

theorem find_set_findIdx {α : Type} (p : α → Bool) (l : List α) (old : α)
    (h : l.find? p = some old) :
    l.findIdx p ≠ l.length ∧ l[l.findIdx p]? = some old ∧
      ∀ new : α, p new = true → (l.set (l.findIdx p) new).find? p = some new := by
  induction l with
  | nil => exact absurd h (by simp)
  | cons a rest ih =>
    by_cases hp : p a = true
    · have ha : a = old := by
        rw [List.find?_cons_of_pos rest hp] at h
        exact Option.some.inj h
      subst ha
      have hidx : (a :: rest).findIdx p = 0 := by
        rw [List.findIdx_cons]; simp [hp]
      rw [hidx]
      refine ⟨by simp, by simp, ?_⟩
      intro new hnew
      rw [List.set_cons_zero, List.find?_cons_of_pos rest hnew]
    · have hrest : rest.find? p = some old := by
        rw [List.find?_cons_of_neg rest hp] at h
        exact h
      obtain ⟨h1, h2, h3⟩ := ih hrest
      have hidx : (a :: rest).findIdx p = rest.findIdx p + 1 := by
        rw [List.findIdx_cons]; simp [hp]
      rw [hidx]
      refine ⟨by simpa using h1, by simpa using h2, ?_⟩
      intro new hnew
      rw [List.set_cons_succ, List.find?_cons_of_neg _ hp]
      exact h3 new hnew

theorem find_eq_ok (self : ExecutablesList) (title : QString) (exe : Executable) :
    self.find title = Except.ok exe ↔
      self.m_Executables.find? (fun exe => exe.m_Title == title) = some exe := by
  unfold ExecutablesList.find
  cases self.m_Executables.find? (fun exe => exe.m_Title == title) with
  | none => simp
  | some found =>
    constructor
    · intro h; injection h with h; rw [h]
    · intro h; rw [Option.some.inj h]

/-- C26, the code: when the list holds an executable titled `title`, `addExecutable` with
that title keeps the length of the list, and `find(title)` afterwards has the given
arguments, the given working directory, the given binary when that file exists and the
old binary otherwise, the given flags within `AllFlags` in place of the old ones, and the
steam application id the executable had before: the given id is not stored. -/
theorem addExecutable_keeps_steamAppID (self : ExecutablesList) (env : Environment)
    (title executableName arguments workingDirectory steamAppID : QString) (flags : Nat)
    (old : Executable) (h : self.find title = Except.ok old) :
    (self.addExecutable env title executableName arguments workingDirectory steamAppID
        flags).m_Executables.length = self.m_Executables.length ∧
      ∃ exe, (self.addExecutable env title executableName arguments workingDirectory
          steamAppID flags).find title = Except.ok exe ∧
        exe.m_Arguments = arguments ∧ exe.m_WorkingDirectory = workingDirectory ∧
        exe.m_BinaryInfo = (if env.fileExists executableName
          then { filePath := executableName } else old.m_BinaryInfo) ∧
        exe.m_Flags = (old.m_Flags &&& flagsComplement AllFlags) ||| (flags &&& AllFlags) ∧
        exe.m_SteamAppID = old.m_SteamAppID := by
  have hold : old.m_Title = title := by
    have hf := List.find?_some ((find_eq_ok self title old).mp h)
    simpa using hf
  obtain ⟨h1, h2, h3⟩ := find_set_findIdx (fun exe => exe.m_Title == title)
    self.m_Executables old ((find_eq_ok self title old).mp h)
  simp only [ExecutablesList.addExecutable, ExecutablesList.updateExecutableInternal,
    ExecutablesList.findExe, h1, h2, ne_eq, not_false_eq_true, if_true]
  refine ⟨by simp, _, (find_eq_ok _ title _).mpr (h3 _ (by simpa using hold)), rfl, rfl, ?_, rfl, rfl⟩
  by_cases hx : env.fileExists executableName = true
  · simp [QFileInfo.exists, hx]
  · simp [QFileInfo.exists, hx]

/-- C26 at the failing input: the list holds `Launcher` with the steam application id
72850; after `addExecutable("Launcher", ..., "489830", ShowInToolbar)` the entry has the
new arguments, working directory, binary and flags, and still the id 72850. -/
theorem addExecutable_keeps_steamAppID_witness :
    listLauncher.find "Launcher" = Except.ok launcher ∧
      launcher.m_SteamAppID = "72850" ∧
      (listLauncher.addExecutable {} "Launcher" "C:/game/New.exe" "-new" "C:/other" "489830"
          ShowInToolbar).find "Launcher"
        = Except.ok { m_Title := "Launcher", m_BinaryInfo := { filePath := "C:/game/New.exe" },
                      m_Arguments := "-new", m_SteamAppID := "72850",
                      m_WorkingDirectory := "C:/other", m_Flags := ShowInToolbar } ∧
      ((listLauncher.addExecutable {} "Launcher" "C:/game/New.exe" "-new" "C:/other" "489830"
          ShowInToolbar).m_Executables.length = listLauncher.m_Executables.length ∧
        ∃ exe, (listLauncher.addExecutable {} "Launcher" "C:/game/New.exe" "-new" "C:/other"
            "489830" ShowInToolbar).find "Launcher" = Except.ok exe ∧
          exe.m_Arguments = "-new" ∧ exe.m_WorkingDirectory = "C:/other" ∧
          exe.m_BinaryInfo = (if ({} : Environment).fileExists "C:/game/New.exe"
            then { filePath := "C:/game/New.exe" } else launcher.m_BinaryInfo) ∧
          exe.m_Flags = (launcher.m_Flags &&& flagsComplement AllFlags)
            ||| (ShowInToolbar &&& AllFlags) ∧
          exe.m_SteamAppID = launcher.m_SteamAppID) :=
  ⟨rfl, rfl, rfl,
    addExecutable_keeps_steamAppID listLauncher {} "Launcher" "C:/game/New.exe" "-new"
      "C:/other" "489830" ShowInToolbar launcher rfl⟩

/-! ## The caches of an entry and the removal of a completed workshop entry -/

/-- C27, the code: `ModInfo::clearCaches` changes nothing.  The entry made from the
directory `Alpha` computed its conflict state at time 100; after `clearCaches` a read of
the flags at time 105 runs no further check.  The entry listed its directory at time 100;
after `clearCaches`, `getContents` at time 130 returns the list cached then although the
directory now holds meshes only, and the time of the last look stays 100. -/
theorem clearCaches_leaves_caches (m : ModInfo) :
    m.clearCaches = m ∧
      alphaFlagsRead.feature FeatureKind.Conflicting
        = some (Feature.conflicting
            { m_CurrentConflictState := EConflictType.CONFLICT_NONE
              m_LastConflictCheck := some 100, checks := 1 }) ∧
      (alphaFlagsRead.clearCaches.flags overlayAB registryAB 105 105).1.feature
          FeatureKind.Conflicting
        = some (Feature.conflicting
            { m_CurrentConflictState := EConflictType.CONFLICT_NONE
              m_LastConflictCheck := some 100, checks := 1 }) ∧
      alphaContentsRead.m_LastContentCheck = some 100 ∧
      listingMeshes.contents = [EContent.CONTENT_MESH] ∧
      (alphaContentsRead.clearCaches.getContents listingMeshes 130 130).2
        = [EContent.CONTENT_PLUGIN, EContent.CONTENT_TEXTURE] ∧
      (alphaContentsRead.clearCaches.getContents listingMeshes 130 130).1.m_LastContentCheck
        = some 100 :=
  ⟨rfl, by decide, by decide, by decide, by decide, by decide, by decide⟩

/-- C29, the code at the failing input: `updateFromDisc` creates the entry of the workshop
item 123 at position 1 and indexes it under `Steam: 123`; the handler of `finished` of its
request stores the title `Cool Mod`, so `name()` is `Steam: Cool Mod`, which is no key of
the name index, and `removeMod(1)` erases the `end()` iterator of the name index. -/
theorem removeMod_after_completion :
    (refreshed discWorkshop true).getIndex "Steam: 123" = 1 ∧
      (registryCompleted replyCoolMod).getNumMods = 2 ∧
      (registryCompleted replyCoolMod).s_ModsByName = (refreshed discWorkshop true).s_ModsByName ∧
      ((registryCompleted replyCoolMod).s_Collection[1]?).map ModInfo.internalName
        = some "Steam: 123" ∧
      ((registryCompleted replyCoolMod).s_Collection[1]?).map ModInfo.name
        = some "Steam: Cool Mod" ∧
      mapFind "Steam: Cool Mod" (registryCompleted replyCoolMod).s_ModsByName = none ∧
      (registryCompleted replyCoolMod).removeMod 1 false = Except.error Fault.eraseEnd :=
  ⟨by decide, by decide, by decide, by decide, by decide, by decide, rfl⟩

end ModOrganizer
